import Mathlib

/-! # Finder_Sck: the search engine and the file indexer
(`src/SearchEngine.cpp`, `src/SearchEngine.h`, `src/FileIndexer.cpp`, `src/FileIndexer.h`)

A shallow embedding of `SearchEngine`: the criteria and result records, the
name / content / fuzzy / regex matchers, the secondary filters, the relevance
scorer, the ranking step and the worker `performSearch`.

Conventions of the embedding.

* `QString` is a list of characters; `QStringList` a list of such lists.
* C++ `int` / `qint64` values are `Int`. No arithmetic in the embedded code
  can leave the machine range (every sum is bounded by a string or list
  length), so no wrap-around is modelled.
* `double` scores are exact rationals (`ℚ`). The only floating-point
  expression of the engine is `1.0 - (double)distance / maxLen`, scaled by
  `25.0` and added to small integer constants.
* Library code that `SearchEngine.cpp` calls but does not define
  (`QString::toLower`, `QRegularExpression`, `std::sort`, `QTextStream`) is a
  parameter: the record `Platform`. Universal statements hold for every
  platform; concrete evaluations use `refPlatform`.
* The directory iterator, the clock and the cancellation flag are inputs of a
  run: the record `RunEnv`.
-/

namespace Finder

/-! ## Strings -/

abbrev QString := List Char
abbrev QStringList := List QString

/-- The call `target.contains(query)` of `QString`: scan every start position
of `target` for `query` (case-sensitive). -/
def qContains : QString → QString → Bool
  | [], query => query.isEmpty
  | c :: rest, query => query.isPrefixOf (c :: rest) || qContains rest query

/-- The call `s.startsWith(p)` of `QString`. -/
def qStartsWith (s p : QString) : Bool := p.isPrefixOf s

/-! ## Dates -/

/-- The part of `QDateTime` the engine observes: validity, the Julian day of
the date and the milliseconds elapsed in that day. -/
structure QDateTime where
  valid : Bool
  day : Int
  msec : Int
  deriving DecidableEq, Repr

namespace QDateTime

/-- The default-constructed (null, invalid) `QDateTime`. -/
def null : QDateTime := { valid := false, day := 0, msec := 0 }

def isValid (d : QDateTime) : Bool := d.valid

def toMSecs (d : QDateTime) : Int := d.day * 86400000 + d.msec

/-- The comparison `a < b` of two instants. -/
def lt (a b : QDateTime) : Bool := decide (a.toMSecs < b.toMSecs)

/-- The call `a.daysTo(b)`: the difference of the two dates in days, `0` when
either side is invalid. -/
def daysTo (a b : QDateTime) : Int :=
  if a.valid && b.valid then b.day - a.day else 0

end QDateTime

/-! ## Criteria and results (`SearchEngine.h`) -/

inductive SearchType
  | FileNameSearch | ContentSearch | MetadataSearch | AdvancedSearch
  | FuzzySearch | RegexSearch | DateSearch | SizeSearch | TypeSearch
  deriving DecidableEq, Repr

inductive SearchScope
  | CurrentDirectory | CurrentDirectoryRecursive | HomeDirectory
  | EntireSystem | CustomPath
  deriving DecidableEq, Repr

structure SearchCriteria where
  query : QString
  type : SearchType
  scope : SearchScope
  customPath : QString
  fileTypes : QStringList
  excludePatterns : QStringList
  minSize : Int
  maxSize : Int
  dateFrom : QDateTime
  dateTo : QDateTime
  caseSensitive : Bool
  wholeWords : Bool
  useRegex : Bool
  includeBinaryFiles : Bool
  followSymlinks : Bool
  searchHiddenFiles : Bool
  searchSystemFiles : Bool
  fuzzyMatching : Bool
  useSizeFilter : Bool
  useDateFilter : Bool
  searchSubfolders : Bool
  maxResults : Int
  maxDepth : Int
  timeoutMs : Int
  deriving DecidableEq, Repr

/-- The constructor `SearchCriteria()` of `SearchEngine.h`. -/
def defaultCriteria : SearchCriteria :=
  { query := [], type := SearchType.FileNameSearch,
    scope := SearchScope.CurrentDirectory, customPath := [],
    fileTypes := [], excludePatterns := [], minSize := 0, maxSize := 0,
    dateFrom := QDateTime.null, dateTo := QDateTime.null,
    caseSensitive := false, wholeWords := false, useRegex := false,
    includeBinaryFiles := false, followSymlinks := false,
    searchHiddenFiles := false, searchSystemFiles := false,
    fuzzyMatching := false, useSizeFilter := false, useDateFilter := false,
    searchSubfolders := true, maxResults := 10000, maxDepth := 100,
    timeoutMs := 30000 }

/-- One item produced by the directory iterator, with what `QFileInfo`,
`QMimeDatabase` and `QFile` report about it. `bytes` is the raw content, or
`none` when the file cannot be opened. -/
structure FileEntry where
  filePath : QString
  fileName : QString
  directory : QString
  suffix : QString
  size : Int
  lastModified : QDateTime
  mimeType : QString
  bytes : Option (List Nat)
  deriving DecidableEq, Repr

structure SearchResult where
  filePath : QString
  fileName : QString
  directory : QString
  fileInfo : FileEntry
  mimeType : QString
  relevanceScore : ℚ
  matchedLines : QStringList
  matchPositions : List Int
  preview : QString
  lastModified : QDateTime
  fileSize : Int
  deriving DecidableEq

/-- The signals of `SearchEngine` that the search path emits. -/
inductive Event
  | searchStarted (query : QString)
  | resultFound (result : SearchResult)
  | searchCompleted (results : List SearchResult)
  | searchCancelled
  deriving DecidableEq

/-! ## Library operations -/

/-- The library operations the engine relies on.

* `toLower` is `QString::toLower`, `foldCase` the folding behind
  `contains(_, Qt::CaseInsensitive)`, `isSpace` is `QChar::isSpace`;
* `regexHasMatch p s` is `QRegularExpression(p).match(s).hasMatch()` and
  `regexEscape` is `QRegularExpression::escape`;
* `stdSort comp xs` is `std::sort(xs.begin(), xs.end(), comp)`;
* `readAllText` is `QTextStream::readAll` on a file opened in text mode. -/
structure Platform where
  toLower : QString → QString
  foldCase : QString → QString
  isSpace : Char → Bool
  regexHasMatch : QString → QString → Bool
  regexEscape : QString → QString
  stdSort : (SearchResult → SearchResult → Bool) → List SearchResult → List SearchResult
  readAllText : List Nat → QString

/-! ## Fuzzy matching (`calculateFuzzyScore`, `fuzzyMatch`) -/

/-- The loop `for (i = 0; i < minLen; ++i) if (a[i] != b[i]) distance++`. -/
def mismatchLoop (a b : QString) (minLen : Nat) : Int :=
  (List.range minLen).foldl (fun distance i => if a[i]? ≠ b[i]? then distance + 1 else distance) 0

def calculateFuzzyScore (P : Platform) (query target : QString) : ℚ :=
  if query.isEmpty || target.isEmpty then 0
  else
    let lowerQuery := P.toLower query
    let lowerTarget := P.toLower target
    let maxLen : Int := max (lowerQuery.length : Int) (lowerTarget.length : Int)
    let minLen : Nat := min lowerQuery.length lowerTarget.length
    let distance : Int :=
      mismatchLoop lowerQuery lowerTarget minLen
        + |(lowerQuery.length : Int) - (lowerTarget.length : Int)|
    1 - (distance : ℚ) / (maxLen : ℚ)

/-- The default value of the `threshold` argument of `fuzzyMatch`
(`SearchEngine.h`: `double threshold = 0.6`). -/
def defaultFuzzyThreshold : ℚ := 6 / 10

def fuzzyMatch (P : Platform) (query target : QString) (threshold : ℚ) : Bool :=
  decide (calculateFuzzyScore P query target ≥ threshold)

/-! ## Primary matchers -/

def matchesFileName (P : Platform) (fileName : QString) (criteria : SearchCriteria) : Bool :=
  let query := if !criteria.caseSensitive then P.toLower criteria.query else criteria.query
  let target := if !criteria.caseSensitive then P.toLower fileName else fileName
  if criteria.useRegex then
    P.regexHasMatch query target
  else if criteria.wholeWords then
    P.regexHasMatch ("\\b".toList ++ P.regexEscape query ++ "\\b".toList) target
  else
    qContains target query

/-- The check of `isBinaryFile`: unreadable files count as binary, readable
ones are binary when a zero byte occurs in the first 1024 bytes read. -/
def isBinaryFile (entry : FileEntry) : Bool :=
  match entry.bytes with
  | none => true
  | some data => (data.take 1024).contains 0

/-- The call `line.trimmed()`: white space removed at both ends. -/
def trimmed (P : Platform) (s : QString) : QString :=
  ((s.dropWhile P.isSpace).reverse.dropWhile P.isSpace).reverse

/-- The loop of `matchesContent` that collects matching lines, with its
`break` once ten lines are held. -/
def collectMatchedLines (P : Platform) (criteria : SearchCriteria) (query : QString) :
    List QString → QStringList → QStringList
  | [], matchedLines => matchedLines
  | line :: rest, matchedLines =>
    let testLine := if criteria.caseSensitive then line else P.toLower line
    if qContains testLine query then
      let appended := matchedLines ++ [trimmed P line]
      if decide ((appended.length : Int) ≥ 10) then appended
      else collectMatchedLines P criteria query rest appended
    else collectMatchedLines P criteria query rest matchedLines

/-- The function `matchesContent`; the second component is `matchedLines`
after the call. -/
def matchesContent (P : Platform) (entry : FileEntry) (criteria : SearchCriteria)
    (matchedLines : QStringList) : Bool × QStringList :=
  if !criteria.includeBinaryFiles && isBinaryFile entry then (false, matchedLines)
  else
    match entry.bytes with
    | none => (false, matchedLines)
    | some data =>
      let content := P.readAllText data
      let query := if !criteria.caseSensitive then P.toLower criteria.query else criteria.query
      let target := if !criteria.caseSensitive then P.toLower content else content
      let found :=
        if criteria.useRegex then P.regexHasMatch query target
        else if criteria.wholeWords then
          P.regexHasMatch ("\\b".toList ++ P.regexEscape query ++ "\\b".toList) target
        else qContains target query
      if found then
        (true, collectMatchedLines P criteria query (content.splitOn (Char.ofNat 10)) matchedLines)
      else (false, matchedLines)

def matchesMetadata (_entry : FileEntry) (_criteria : SearchCriteria) : Bool := false

/-! ## Secondary filters (`matchesFilters`) -/

/-- The table `m_fileTypeExtensions` filled by the constructor of
`SearchEngine`. -/
def fileTypeExtensions : List (QString × QStringList) :=
  [ ("images".toList, ["jpg", "jpeg", "png", "gif", "bmp", "tiff", "svg"].map String.toList),
    ("documents".toList, ["pdf", "doc", "docx", "txt", "rtf", "odt"].map String.toList),
    ("videos".toList, ["mp4", "avi", "mov", "wmv", "flv", "mkv"].map String.toList),
    ("audio".toList, ["mp3", "wav", "flac", "aac", "ogg", "m4a"].map String.toList),
    ("archives".toList, ["zip", "rar", "7z", "tar", "gz", "bz2"].map String.toList) ]

/-- The loop over `criteria.fileTypes` of the type filter, with its `break`
at the first type that matches. -/
def matchesTypeLoop (P : Platform) (extension : QString) : QStringList → Bool
  | [] => false
  | type :: rest =>
    match fileTypeExtensions.lookup type with
    | some extensions =>
      if extensions.contains extension then true else matchesTypeLoop P extension rest
    | none =>
      if P.toLower type == extension then true else matchesTypeLoop P extension rest

def matchesFilters (P : Platform) (entry : FileEntry) (criteria : SearchCriteria) : Bool :=
  -- size filter
  if criteria.useSizeFilter && decide (criteria.minSize > 0)
      && decide (entry.size < criteria.minSize) then false
  else if criteria.useSizeFilter && decide (criteria.maxSize > 0)
      && decide (entry.size > criteria.maxSize) then false
  -- date filter
  else if criteria.useDateFilter && criteria.dateFrom.isValid
      && entry.lastModified.lt criteria.dateFrom then false
  else if criteria.useDateFilter && criteria.dateTo.isValid
      && criteria.dateTo.lt entry.lastModified then false
  -- file type filter
  else if !criteria.fileTypes.isEmpty
      && !matchesTypeLoop P (P.toLower entry.suffix) criteria.fileTypes then false
  -- exclude patterns
  else if criteria.excludePatterns.any
      (fun pattern => qContains (P.foldCase entry.fileName) (P.foldCase pattern)) then false
  else true

/-! ## Scoring and ranking -/

/-- The function `calculateRelevanceScore`; `now` is the value that
`QDateTime::currentDateTime()` returns when the result is scored. -/
def calculateRelevanceScore (P : Platform) (now : QDateTime) (result : SearchResult)
    (criteria : SearchCriteria) : ℚ :=
  let query := if criteria.caseSensitive then criteria.query else P.toLower criteria.query
  let fileName := if criteria.caseSensitive then result.fileName else P.toLower result.fileName
  let score : ℚ :=
    if fileName = query then 100
    else if qStartsWith fileName query then 75
    else if qContains fileName query then 50
    else calculateFuzzyScore P query fileName * 25
  let daysSinceModified := result.lastModified.daysTo now
  if daysSinceModified < 7 then score + 10
  else if daysSinceModified < 30 then score + 5
  else score

/-- The block "Bonus for recent files" of `calculateRelevanceScore`, as a
function of `daysSinceModified`: what it adds to the score. -/
def recencyBonus (daysSinceModified : Int) : ℚ :=
  if daysSinceModified < 7 then 10
  else if daysSinceModified < 30 then 5
  else 0

/-- The comparator handed to `std::sort` by `rankResults`. -/
def scoreGreater (a b : SearchResult) : Bool := decide (a.relevanceScore > b.relevanceScore)

def rankResults (P : Platform) (results : List SearchResult) (_criteria : SearchCriteria) :
    List SearchResult :=
  P.stdSort scoreGreater results

/-- The call `xs.mid(pos, length)` of `QList`. The library compares
`length` and `size - pos` as unsigned values, so a negative `length` selects
everything from `pos` on. -/
def qListMid {α : Type} (xs : List α) (pos length : Int) : List α :=
  let size : Int := xs.length
  if pos > size then []
  else if pos < 0 then
    if length < 0 ∨ length + pos ≥ size then xs
    else if length + pos ≤ 0 then []
    else xs.take (length + pos).toNat
  else
    let length := if length < 0 ∨ length > size - pos then size - pos else length
    (xs.drop pos.toNat).take length.toNat

/-! ## The worker (`searchInDirectory`, `performSearch`) -/

/-- What a run reads from outside the engine.

* `iterate path subdirectories followSymlinks hidden system` is the sequence
  that `QDirIterator` yields for `path` under the flags and filters that
  `searchInDirectory` builds from the criteria;
* `cancelled k` is the value of `m_searchCancelled` at the `k`-th load the
  worker performs (load `0` on entry of `searchInDirectory`, load `k + 1` in
  the loop condition before walked entry `k`);
* `clock k` is `QDateTime::currentDateTime()` when walked entry `k` is
  scored. -/
structure RunEnv where
  currentPath : QString
  homePath : QString
  iterate : QString → Bool → Bool → Bool → Bool → List FileEntry
  cancelled : Nat → Bool
  clock : Nat → QDateTime

/-- The buffer `results` of the worker together with the signals emitted so
far. -/
structure WalkState where
  results : List SearchResult
  events : List Event
  deriving DecidableEq

/-- The `switch (criteria.type)` of `searchInDirectory`: the primary matcher
and the matched lines it leaves. -/
def primaryMatch (P : Platform) (criteria : SearchCriteria) (entry : FileEntry) :
    Bool × QStringList :=
  match criteria.type with
  | SearchType.FileNameSearch => (matchesFileName P entry.fileName criteria, [])
  | SearchType.ContentSearch => matchesContent P entry criteria []
  | SearchType.MetadataSearch => (matchesMetadata entry criteria, [])
  | SearchType.FuzzySearch =>
    (fuzzyMatch P criteria.query entry.fileName defaultFuzzyThreshold, [])
  | SearchType.RegexSearch => (P.regexHasMatch criteria.query entry.fileName, [])
  | _ => (matchesFileName P entry.fileName criteria, [])

/-- The `SearchResult` that `searchInDirectory` fills for a matching entry. -/
def makeResult (P : Platform) (now : QDateTime) (criteria : SearchCriteria)
    (entry : FileEntry) (matchedLines : QStringList) : SearchResult :=
  let result : SearchResult :=
    { filePath := entry.filePath, fileName := entry.fileName,
      directory := entry.directory, fileInfo := entry, mimeType := entry.mimeType,
      relevanceScore := 0, matchedLines := matchedLines, matchPositions := [],
      preview := [], lastModified := entry.lastModified, fileSize := entry.size }
  { result with relevanceScore := calculateRelevanceScore P now result criteria }

/-- The `while` loop of `searchInDirectory` over the entries still to be
walked; `k` is the position of the next entry in the walk. -/
def searchLoop (P : Platform) (criteria : SearchCriteria) (env : RunEnv) :
    Nat → List FileEntry → WalkState → WalkState
  | _, [], st => st
  | k, entry :: rest, st =>
    if env.cancelled (k + 1) then st
    else if !matchesFilters P entry criteria then searchLoop P criteria env (k + 1) rest st
    else
      let found := primaryMatch P criteria entry
      if found.1 then
        let result := makeResult P (env.clock k) criteria entry found.2
        let st1 : WalkState :=
          { results := st.results ++ [result],
            events := st.events ++ [Event.resultFound result] }
        if decide ((st1.results.length : Int) ≥ criteria.maxResults) then st1
        else searchLoop P criteria env (k + 1) rest st1
      else searchLoop P criteria env (k + 1) rest st

def searchInDirectory (P : Platform) (criteria : SearchCriteria) (env : RunEnv)
    (path : QString) (st : WalkState) : WalkState :=
  if env.cancelled 0 then st
  else
    searchLoop P criteria env 0
      (env.iterate path criteria.searchSubfolders criteria.followSymlinks
        criteria.searchHiddenFiles criteria.searchSystemFiles) st

/-- The `switch (criteria.scope)` of `performSearch`. -/
def resolveSearchPath (env : RunEnv) (criteria : SearchCriteria) : QString :=
  match criteria.scope with
  | SearchScope.CurrentDirectory => env.currentPath
  | SearchScope.HomeDirectory => env.homePath
  | SearchScope.CustomPath => criteria.customPath
  | SearchScope.EntireSystem => "/".toList
  | _ => env.currentPath

/-- What `performSearch` leaves behind: the signals it emitted, in order, and
the value stored in `m_resultCount`. -/
structure WorkerRun where
  events : List Event
  resultCount : Int
  deriving DecidableEq

def performSearch (P : Platform) (criteria : SearchCriteria) (env : RunEnv) : WorkerRun :=
  let st := searchInDirectory P criteria env (resolveSearchPath env criteria)
    { results := [], events := [] }
  let ranked := rankResults P st.results criteria
  let results :=
    if (ranked.length : Int) > criteria.maxResults then qListMid ranked 0 criteria.maxResults
    else ranked
  { events := st.events ++ [Event.searchCompleted results], resultCount := results.length }

/-- The atomic flags `m_isSearching` and `m_searchCancelled`. -/
structure SearchFlags where
  isSearching : Int
  searchCancelled : Int
  deriving DecidableEq, Repr

/-- The function `cancelSearch`: the flags it leaves and the signal it
emits. -/
def cancelSearch (_flags : SearchFlags) : SearchFlags × List Event :=
  ({ isSearching := 0, searchCancelled := 1 }, [Event.searchCancelled])

/-- The lists carried by the `searchCompleted` signals of an event trace. -/
def completedLists : List Event → List (List SearchResult)
  | [] => []
  | Event.searchCompleted results :: rest => results :: completedLists rest
  | _ :: rest => completedLists rest

/-- The results carried by the `resultFound` signals of an event trace. -/
def foundResults : List Event → List SearchResult
  | [] => []
  | Event.resultFound result :: rest => result :: foundResults rest
  | _ :: rest => foundResults rest

/-- The local `results` of `performSearch` at the moment it emits
`searchCompleted`: the walked buffer, ranked and cut to `maxResults`. -/
def finalResults (P : Platform) (criteria : SearchCriteria) (env : RunEnv) : List SearchResult :=
  let st := searchInDirectory P criteria env (resolveSearchPath env criteria)
    { results := [], events := [] }
  let ranked := rankResults P st.results criteria
  if (ranked.length : Int) > criteria.maxResults then qListMid ranked 0 criteria.maxResults
  else ranked

/-- The sequence of entries the directory iterator yields in a run. -/
def walkOf (env : RunEnv) (criteria : SearchCriteria) : List FileEntry :=
  env.iterate (resolveSearchPath env criteria) criteria.searchSubfolders
    criteria.followSymlinks criteria.searchHiddenFiles criteria.searchSystemFiles

/-- The test the loop body of `searchInDirectory` applies before
`results.append(result)`: the secondary filters, then the primary matcher. -/
def accepts (P : Platform) (criteria : SearchCriteria) (entry : FileEntry) : Bool :=
  matchesFilters P entry criteria && (primaryMatch P criteria entry).1

/-- The number of entries of a stretch of the walk that pass `accepts`. -/
def acceptedCount (P : Platform) (criteria : SearchCriteria) (walk : List FileEntry) : Nat :=
  walk.countP (accepts P criteria)

/-- The results the loop builds for the accepted entries of a stretch of the
walk, in walk order; `k` is the position of the first entry. -/
def acceptedResults (P : Platform) (criteria : SearchCriteria) (env : RunEnv) :
    Nat → List FileEntry → List SearchResult
  | _, [] => []
  | k, entry :: rest =>
    if accepts P criteria entry then
      makeResult P (env.clock k) criteria entry (primaryMatch P criteria entry).2
        :: acceptedResults P criteria env (k + 1) rest
    else acceptedResults P criteria env (k + 1) rest

/-- What a call of `search(criteria)` leaves: the flags, the signals emitted
on the calling thread, and the criteria handed to `performSearch` on the
worker thread. -/
structure SearchCall where
  flags : SearchFlags
  events : List Event
  launched : Option SearchCriteria
  deriving DecidableEq

/-- The function `search(const SearchCriteria &)`. -/
def search (flags : SearchFlags) (criteria : SearchCriteria) : SearchCall :=
  let cancelled : SearchFlags × List Event :=
    if flags.isSearching ≠ 0 then cancelSearch flags else (flags, [])
  { flags := { cancelled.1 with isSearching := 1, searchCancelled := 0 },
    events := cancelled.2 ++ [Event.searchStarted criteria.query],
    launched := some criteria }

/-- The function `isSearching`. -/
def isSearching (flags : SearchFlags) : Bool := decide (flags.isSearching ≠ 0)

/-- The requirement on `QString::toLower` that the score relies on: a
non-empty string has a non-empty lowercase copy. -/
def Platform.LowerKeepsNonempty (P : Platform) : Prop :=
  ∀ s : QString, s ≠ [] → P.toLower s ≠ []

/-- The number of directory levels between `root` and the directory that
holds `filePath`: 0 for a file directly in `root`. -/
def levelsBelow (root filePath : QString) : Nat :=
  ((filePath.drop root.length).filter (fun ch => ch == Char.ofNat 47)).length - 1

/-! ## The convenience entry points

Each of these builds a `SearchCriteria` and hands it to `search(criteria)`;
the definitions give the criteria built. -/

/-- The overload `search(query, basePath)`. -/
def searchQuery (query basePath : QString) : SearchCriteria :=
  { defaultCriteria with
    query := query, type := SearchType.FileNameSearch, customPath := basePath,
    scope := if basePath.isEmpty then SearchScope.CurrentDirectory else SearchScope.CustomPath }

def searchByName (pattern basePath : QString) : SearchCriteria :=
  { defaultCriteria with
    query := pattern, type := SearchType.FileNameSearch, customPath := basePath }

def searchByContent (text basePath : QString) : SearchCriteria :=
  { defaultCriteria with
    query := text, type := SearchType.ContentSearch, customPath := basePath }

/-- The function `searchByRegex`; `pattern` is `regex.pattern()`. -/
def searchByRegex (pattern basePath : QString) : SearchCriteria :=
  { defaultCriteria with
    query := pattern, type := SearchType.RegexSearch, useRegex := true,
    customPath := basePath }

def fuzzySearch (query basePath : QString) : SearchCriteria :=
  { defaultCriteria with
    query := query, type := SearchType.FuzzySearch, fuzzyMatching := true,
    customPath := basePath }

def searchByDateRange (dateFrom dateTo : QDateTime) (basePath : QString) : SearchCriteria :=
  { defaultCriteria with
    type := SearchType.DateSearch, useDateFilter := true, dateFrom := dateFrom,
    dateTo := dateTo, customPath := basePath }

def searchBySizeRange (minSize maxSize : Int) (basePath : QString) : SearchCriteria :=
  { defaultCriteria with
    type := SearchType.SizeSearch, useSizeFilter := true, minSize := minSize,
    maxSize := maxSize, customPath := basePath }

def searchByType (mimeTypes : QStringList) (basePath : QString) : SearchCriteria :=
  { defaultCriteria with
    type := SearchType.TypeSearch, fileTypes := mimeTypes, customPath := basePath }

/-! ## The match strength as the specification words it

Written from the sentence "exact filename match (case-normalized per
criteria) → +100; prefix match → +75; substring match → +50; otherwise →
fuzzyScore×25", to be compared with `calculateRelevanceScore`. -/

/-- The match strength of file name `f` for query `q`, both already
normalized: `f` equals `q`, else `f` starts with `q`, else `f` contains `q`,
else the fuzzy score times 25. -/
def specMatchStrength (P : Platform) (q f : QString) : ℚ :=
  if f = q then 100
  else if q <+: f then 75
  else if q <:+: f then 50
  else 25 * calculateFuzzyScore P q f

/-! ## The fuzzy score as the specification words it

Written from the sentence "score = 1 − (mismatchedPrefixChars + |lenA−lenB|) /
max(lenA,lenB)", to be compared with `calculateFuzzyScore`. -/

/-- The number of positions below the shorter length at which the two
strings carry different characters. -/
def mismatchCount (a b : QString) : Nat :=
  (List.zip a b).countP (fun p => p.1 != p.2)

def specFuzzyScore (a b : QString) : ℚ :=
  1 - ((mismatchCount a b : ℚ) + |(a.length : ℚ) - (b.length : ℚ)|)
        / max (a.length : ℚ) (b.length : ℚ)

/-! ## The contract of `std::sort` -/

/-- The requirement of `std::sort` on its comparator: a strict weak
ordering. -/
def StrictWeakOrder {α : Type} (comp : α → α → Bool) : Prop :=
  (∀ a, comp a a = false)
  ∧ (∀ a b c, comp a b = true → comp b c = true → comp a c = true)
  ∧ (∀ a b c, comp a b = false → comp b a = false → comp b c = false → comp c b = false →
      comp a c = false ∧ comp c a = false)

/-- The guarantee of `std::sort`: for a strict weak ordering the output is a
permutation of the input in which no later element compares before an earlier
one. Nothing is promised about the order of equivalent elements. -/
def Platform.SortConforms (P : Platform) : Prop :=
  ∀ comp xs, StrictWeakOrder comp →
    (P.stdSort comp xs).Perm xs
    ∧ (P.stdSort comp xs).Pairwise (fun a b => comp b a = false)

/-! ## A reference platform

A small executable stand-in for the library, used to evaluate the engine on
concrete inputs: ASCII case mapping, insertion sort, and a regular-expression
matcher for the fragment of patterns made of literal characters, escaped
punctuation and the word-boundary assertion `\b`. Patterns outside that
fragment are reported as not matching. -/

def asciiLower (s : QString) : QString := s.map Char.toLower

/-- Word characters of the regular-expression engine: `[A-Za-z0-9_]`. -/
def isWordChar (c : Char) : Bool := c.isAlphanum || c == Char.ofNat 95

inductive RegexAtom
  | lit (c : Char)
  | wordBoundary
  deriving DecidableEq, Repr

/-- Characters with a special meaning in a pattern. -/
def isMetaChar (c : Char) : Bool := "\\^$.[]|()?*+\x7b\x7d".toList.contains c

def parsePattern : QString → Option (List RegexAtom)
  | [] => some []
  | [c] => if isMetaChar c then none else some [RegexAtom.lit c]
  | c :: d :: rest =>
    if c = Char.ofNat 92 then
      if d = Char.ofNat 98 then (parsePattern rest).map (fun atoms => RegexAtom.wordBoundary :: atoms)
      else if isWordChar d then none
      else (parsePattern rest).map (fun atoms => RegexAtom.lit d :: atoms)
    else if isMetaChar c then none
    else (parsePattern (d :: rest)).map (fun atoms => RegexAtom.lit c :: atoms)

/-- Match the atoms at the current position; `before` is the character just
before the position, if any. -/
def matchAtoms : List RegexAtom → Option Char → QString → Bool
  | [], _, _ => true
  | RegexAtom.lit c :: atoms, _, subject =>
    match subject with
    | [] => false
    | x :: rest => x == c && matchAtoms atoms (some x) rest
  | RegexAtom.wordBoundary :: atoms, before, subject =>
    let left := match before with
      | some b => isWordChar b
      | none => false
    let right := match subject with
      | x :: _ => isWordChar x
      | [] => false
    (left != right) && matchAtoms atoms before subject

/-- Try every start position of the subject, left to right. -/
def searchAtoms (atoms : List RegexAtom) : Option Char → QString → Bool
  | before, [] => matchAtoms atoms before []
  | before, x :: rest => matchAtoms atoms before (x :: rest) || searchAtoms atoms (some x) rest

def refRegexHasMatch (pattern subject : QString) : Bool :=
  match parsePattern pattern with
  | none => false
  | some atoms => searchAtoms atoms none subject

/-- The function `QRegularExpression::escape`: every character outside
`[A-Za-z0-9_]` gets a backslash, a NUL becomes backslash-zero. -/
def refRegexEscape : QString → QString
  | [] => []
  | c :: rest =>
    if c = Char.ofNat 0 then Char.ofNat 92 :: Char.ofNat 48 :: refRegexEscape rest
    else if isWordChar c then c :: refRegexEscape rest
    else Char.ofNat 92 :: c :: refRegexEscape rest

/-- Insert `x` in front of the first element that does not compare before
it. -/
def insertBy {α : Type} (comp : α → α → Bool) (x : α) : List α → List α
  | [] => [x]
  | y :: ys => if comp y x then y :: insertBy comp x ys else x :: y :: ys

/-- Insertion sort; it keeps equivalent elements in their input order. -/
def insertionSortBy {α : Type} (comp : α → α → Bool) : List α → List α
  | [] => []
  | x :: xs => insertBy comp x (insertionSortBy comp xs)

def refPlatform : Platform :=
  { toLower := asciiLower, foldCase := asciiLower, isSpace := Char.isWhitespace,
    regexHasMatch := refRegexHasMatch, regexEscape := refRegexEscape,
    stdSort := insertionSortBy, readAllText := fun data => data.map Char.ofNat }

/-! ## The `std::sort` of libstdc++

The introsort of the GNU C++ library (`bits/stl_algo.h`), on a sequence
addressed by positions: ranges longer than `_S_threshold = 16` are partitioned
around the median of three elements, by heap sort once the depth limit
`2 * lg n` is used up, and the whole range is finished by insertion sort. The
unguarded loops of the library stop at a sentinel element; here a loop also
stops when it leaves the sequence, which a strict weak ordering never lets
happen. -/

/-- The exchange `std::iter_swap` of the elements at two positions. -/
def swapAt {α : Type} (xs : List α) (i j : Nat) : List α :=
  match xs[i]?, xs[j]? with
  | some a, some b => (xs.set i b).set j a
  | _, _ => xs

/-- The function `__unguarded_linear_insert`: `val` is moved down past every
element it compares before. `before` holds the elements in front of `val`,
nearest first; the result is in the same order. -/
def unguardedLinearInsert {α : Type} (comp : α → α → Bool) (val : α) : List α → List α
  | [] => [val]
  | next :: rest =>
    if comp val next then next :: unguardedLinearInsert comp val rest else val :: next :: rest

/-- One round of the loop of `__insertion_sort`: `sorted` is the range in
front of the element `val` at `__i`. -/
def insertionRound {α : Type} (comp : α → α → Bool) (sorted : List α) (val : α) : List α :=
  match sorted with
  | [] => [val]
  | first :: _ =>
    if comp val first then val :: sorted
    else (unguardedLinearInsert comp val sorted.reverse).reverse

/-- The function `__insertion_sort`. -/
def gnuInsertionSort {α : Type} (comp : α → α → Bool) : List α → List α
  | [] => []
  | first :: rest => rest.foldl (insertionRound comp) [first]

/-- The function `__unguarded_insertion_sort` on the elements `rest` that
follow the range `front`. -/
def unguardedInsertionSort {α : Type} (comp : α → α → Bool) (front rest : List α) : List α :=
  rest.foldl (fun sorted val => (unguardedLinearInsert comp val sorted.reverse).reverse) front

/-- The function `__final_insertion_sort`, with `_S_threshold = 16`. -/
def finalInsertionSort {α : Type} (comp : α → α → Bool) (xs : List α) : List α :=
  if xs.length > 16 then
    unguardedInsertionSort comp (gnuInsertionSort comp (xs.take 16)) (xs.drop 16)
  else gnuInsertionSort comp xs

/-- The function `__move_median_to_first`, on positions. -/
def moveMedianToFirst {α : Type} (comp : α → α → Bool) (xs : List α) (result a b c : Nat) :
    List α :=
  match xs[a]?, xs[b]?, xs[c]? with
  | some va, some vb, some vc =>
    if comp va vb then
      if comp vb vc then swapAt xs result b
      else if comp va vc then swapAt xs result c
      else swapAt xs result a
    else if comp va vc then swapAt xs result a
    else if comp vb vc then swapAt xs result c
    else swapAt xs result b
  | _, _, _ => xs

/-- The loop `while (comp(first, pivot)) ++first`. -/
def scanUp {α : Type} (comp : α → α → Bool) (pivot : α) (xs : List α) : Nat → Nat → Nat
  | 0, first => first
  | fuel + 1, first =>
    match xs[first]? with
    | some v => if comp v pivot then scanUp comp pivot xs fuel (first + 1) else first
    | none => first

/-- The loop `while (comp(pivot, last)) --last`. -/
def scanDown {α : Type} (comp : α → α → Bool) (pivot : α) (xs : List α) : Nat → Nat → Nat
  | 0, last => last
  | fuel + 1, last =>
    match xs[last]? with
    | some v => if comp pivot v then scanDown comp pivot xs fuel (last - 1) else last
    | none => last

/-- The function `__unguarded_partition`; `pivot` is the element at the
pivot position, which the loop never moves. -/
def unguardedPartition {α : Type} (comp : α → α → Bool) (pivot : α) :
    Nat → List α → Nat → Nat → List α × Nat
  | 0, xs, first, _ => (xs, first)
  | fuel + 1, xs, first, last =>
    let first1 := scanUp comp pivot xs xs.length first
    let last1 := scanDown comp pivot xs xs.length (last - 1)
    if first1 < last1 then
      unguardedPartition comp pivot fuel (swapAt xs first1 last1) (first1 + 1) last1
    else (xs, first1)

/-- The function `__unguarded_partition_pivot`: the sequence after the
partition and the cut position. -/
def unguardedPartitionPivot {α : Type} (comp : α → α → Bool) (xs : List α) (first last : Nat) :
    List α × Nat :=
  let mid := first + (last - first) / 2
  let xs1 := moveMedianToFirst comp xs first (first + 1) mid (last - 1)
  match xs1[first]? with
  | some pivot => unguardedPartition comp pivot xs1.length xs1 (first + 1) last
  | none => (xs1, first)

/-- The function `__push_heap`. -/
def pushHeap {α : Type} (comp : α → α → Bool) (value : α) : Nat → List α → Nat → Nat → List α
  | 0, xs, holeIndex, _ => xs.set holeIndex value
  | fuel + 1, xs, holeIndex, topIndex =>
    let parent := (holeIndex - 1) / 2
    match xs[parent]? with
    | some p =>
      if holeIndex > topIndex && comp p value then
        pushHeap comp value fuel (xs.set holeIndex p) parent topIndex
      else xs.set holeIndex value
    | none => xs.set holeIndex value

/-- The first loop of `__adjust_heap`: the hole moves down to the larger
child. The result is the sequence, the hole and `secondChild`. -/
def siftHole {α : Type} (comp : α → α → Bool) (len : Nat) :
    Nat → List α → Nat → Nat → List α × Nat × Nat
  | 0, xs, holeIndex, secondChild => (xs, holeIndex, secondChild)
  | fuel + 1, xs, holeIndex, secondChild =>
    if secondChild < (len - 1) / 2 then
      let child := 2 * (secondChild + 1)
      match xs[child]?, xs[child - 1]? with
      | some right, some left =>
        let child1 := if comp right left then child - 1 else child
        match xs[child1]? with
        | some v => siftHole comp len fuel (xs.set holeIndex v) child1 child1
        | none => (xs, holeIndex, secondChild)
      | _, _ => (xs, holeIndex, secondChild)
    else (xs, holeIndex, secondChild)

/-- The function `__adjust_heap` on a heap of `len` elements. -/
def adjustHeap {α : Type} (comp : α → α → Bool) (xs : List α) (holeIndex len : Nat) (value : α) :
    List α :=
  let sifted := siftHole comp len len xs holeIndex holeIndex
  let last : List α × Nat :=
    if len % 2 = 0 ∧ sifted.2.2 = (len - 2) / 2 then
      let child := 2 * (sifted.2.2 + 1)
      match sifted.1[child - 1]? with
      | some v => (sifted.1.set sifted.2.1 v, child - 1)
      | none => (sifted.1, sifted.2.1)
    else (sifted.1, sifted.2.1)
  pushHeap comp value len last.1 last.2 holeIndex

/-- The loop of `__make_heap`, from `parent` down to the root. -/
def makeHeapLoop {α : Type} (comp : α → α → Bool) (len : Nat) : Nat → List α → List α
  | 0, xs => xs
  | parent + 1, xs =>
    match xs[parent]? with
    | some value => makeHeapLoop comp len parent (adjustHeap comp xs parent len value)
    | none => xs

/-- The function `__make_heap`. -/
def makeHeap {α : Type} (comp : α → α → Bool) (xs : List α) : List α :=
  if xs.length < 2 then xs else makeHeapLoop comp xs.length ((xs.length - 2) / 2 + 1) xs

/-- The function `__sort_heap`: `__pop_heap` for `last` going down to 2. -/
def sortHeap {α : Type} (comp : α → α → Bool) : Nat → List α → List α
  | 0, xs => xs
  | last + 1, xs =>
    if last + 1 > 1 then
      match xs[last]?, xs[0]? with
      | some value, some top =>
        sortHeap comp last (adjustHeap comp (xs.set last top) 0 last value)
      | _, _ => xs
    else xs

/-- The call `__partial_sort(first, last, last)`: a heap sort of the range.
The heap routines address the range from its first element; here they run on
the range cut out of the sequence. -/
def partialSort {α : Type} (comp : α → α → Bool) (xs : List α) (first last : Nat) : List α :=
  let range := (xs.drop first).take (last - first)
  xs.take first ++ sortHeap comp range.length (makeHeap comp range) ++ xs.drop last

/-- The function `__introsort_loop`, by recursion on `depth_limit`. -/
def introsortLoop {α : Type} (comp : α → α → Bool) : Nat → List α → Nat → Nat → List α
  | 0, xs, first, last => if last - first > 16 then partialSort comp xs first last else xs
  | depthLimit + 1, xs, first, last =>
    if last - first > 16 then
      let cut := unguardedPartitionPivot comp xs first last
      let xs1 := introsortLoop comp depthLimit cut.1 cut.2 last
      introsortLoop comp depthLimit xs1 first cut.2
    else xs

/-- The function `__lg`: the position of the highest set bit. -/
def floorLog2 : Nat → Nat → Nat
  | 0, _ => 0
  | fuel + 1, n => if n ≥ 2 then floorLog2 fuel (n / 2) + 1 else 0

/-- The function `std::sort` of libstdc++. -/
def gnuStdSort {α : Type} (comp : α → α → Bool) (xs : List α) : List α :=
  if xs.isEmpty then xs
  else
    finalInsertionSort comp
      (introsortLoop comp (floorLog2 xs.length xs.length * 2) xs 0 xs.length)

/-- The reference platform with the `std::sort` of libstdc++. -/
def gnuPlatform : Platform :=
  { refPlatform with stdSort := gnuStdSort }

/-! ## The file indexer (`FileIndexer.cpp`, `FileIndexer.h`)

`QHash<QString, IndexedFile>` is an association list with one pair per key
and `QSet<QString>` a list without repetition; the order of either is not
specified by the library, so statements are made for every order. The `int`
counters wrap at 32 bits. The flags `m_isIndexing` and `m_isPaused` are
written by the controlling thread while the worker runs: the values the
worker reads are inputs of a run (`IndexEnv`). -/

structure IndexedFile where
  path : QString
  name : QString
  extension : QString
  mimeType : QString
  size : Int
  lastModified : QDateTime
  lastAccessed : QDateTime
  created : QDateTime
  tags : QStringList
  comment : QString
  metadata : List (QString × QString)
  deriving DecidableEq, Repr

/-- What `QFileInfo` and `QMimeDatabase` report for a path. -/
structure FileStat where
  present : Bool
  isFile : Bool
  fileName : QString
  suffix : QString
  size : Int
  lastModified : QDateTime
  lastRead : QDateTime
  birthTime : QDateTime
  mimeType : QString
  deriving DecidableEq, Repr

/-- The signals of `FileIndexer`. -/
inductive IndexEvent
  | indexingStarted
  | indexingProgress (percentage : Int)
  | indexingCompleted
  | indexingPaused
  | indexingResumed
  | indexingStopped
  | indexingError (error : QString)
  | fileIndexed (file : IndexedFile)
  deriving DecidableEq, Repr

/-- The data members of `FileIndexer`; `saveTimerActive` is the state of
`m_saveTimer`. -/
structure FileIndexer where
  fileIndex : List (QString × IndexedFile)
  indexedPaths : List QString
  isIndexing : Int
  isPaused : Int
  basePath : QString
  totalFiles : Int
  processedFiles : Int
  saveTimerActive : Bool
  deriving DecidableEq, Repr

/-- The constructor of `FileIndexer`. -/
def newFileIndexer : FileIndexer :=
  { fileIndex := [], indexedPaths := [], isIndexing := 0, isPaused := 0, basePath := [],
    totalFiles := 0, processedFiles := 0, saveTimerActive := false }

/-- The assignment `hash[key] = value` of `QHash`. -/
def hashInsert {ν : Type} (key : QString) (value : ν) (hash : List (QString × ν)) :
    List (QString × ν) :=
  (key, value) :: hash.filter (fun kv => kv.1 != key)

/-- The call `hash.remove(key)` of `QHash`. -/
def hashRemove {ν : Type} (key : QString) (hash : List (QString × ν)) : List (QString × ν) :=
  hash.filter (fun kv => kv.1 != key)

/-- The call `hash.contains(key)` of `QHash`. -/
def hashContains {ν : Type} (key : QString) (hash : List (QString × ν)) : Bool :=
  hash.any (fun kv => kv.1 == key)

/-- The call `set.insert(key)` of `QSet`. -/
def setInsert (key : QString) (set : List QString) : List QString :=
  if set.contains key then set else key :: set

/-- The call `set.remove(key)` of `QSet`. -/
def setRemove (key : QString) (set : List QString) : List QString :=
  set.filter (fun k => k != key)

/-- The function `createIndexedFile`. It reads the file information only and
has no failing path. -/
def createIndexedFile (P : Platform) (fs : QString → FileStat) (path : QString) : IndexedFile :=
  { path := path, name := (fs path).fileName, extension := P.toLower (fs path).suffix,
    mimeType := (fs path).mimeType, size := (fs path).size,
    lastModified := (fs path).lastModified, lastAccessed := (fs path).lastRead,
    created := (fs path).birthTime, tags := [], comment := [], metadata := [] }

namespace FileIndexer

def updateIndex (P : Platform) (fs : QString → FileStat) (path : QString) (ix : FileIndexer) :
    FileIndexer × List IndexEvent :=
  if (fs path).present && (fs path).isFile then
    let indexedFile := createIndexedFile P fs path
    ({ ix with
        fileIndex := hashInsert path indexedFile ix.fileIndex,
        indexedPaths := setInsert path ix.indexedPaths },
      [IndexEvent.fileIndexed indexedFile])
  else (ix, [])

def removeFromIndex (path : QString) (ix : FileIndexer) : FileIndexer :=
  { ix with
    fileIndex := hashRemove path ix.fileIndex, indexedPaths := setRemove path ix.indexedPaths }

def clearIndex (ix : FileIndexer) : FileIndexer :=
  { ix with fileIndex := [], indexedPaths := [] }

/-- The function `indexFile`. Its `catch` branch is never entered:
`createIndexedFile` throws nothing. -/
def indexFile (P : Platform) (fs : QString → FileStat) (path : QString) (ix : FileIndexer) :
    FileIndexer × List IndexEvent :=
  let indexedFile := createIndexedFile P fs path
  ({ ix with
      fileIndex := hashInsert path indexedFile ix.fileIndex,
      indexedPaths := setInsert path ix.indexedPaths },
    [IndexEvent.fileIndexed indexedFile])

/-- The test of the loop body of `searchIndex`. -/
def matchesQuery (P : Platform) (lowerQuery : QString) (file : IndexedFile) : Bool :=
  qContains (P.toLower file.name) lowerQuery
    || qContains (P.toLower file.path) lowerQuery
    || qContains (P.toLower file.extension) lowerQuery

/-- The loop of `searchIndex` over the entries of the hash still to visit. -/
def searchIndexLoop (P : Platform) (lowerQuery : QString) :
    List (QString × IndexedFile) → List IndexedFile → List IndexedFile
  | [], results => results
  | kv :: rest, results =>
    let results1 := if matchesQuery P lowerQuery kv.2 then results ++ [kv.2] else results
    if decide ((results1.length : Int) ≥ 1000) then results1
    else searchIndexLoop P lowerQuery rest results1

def searchIndex (P : Platform) (ix : FileIndexer) (query : QString) : List IndexedFile :=
  searchIndexLoop P (P.toLower query) ix.fileIndex []

def isFileIndexed (ix : FileIndexer) (path : QString) : Bool := hashContains path ix.fileIndex

def getIndexedFileCount (ix : FileIndexer) : Int := ix.fileIndex.length

def getIndexedPaths (ix : FileIndexer) : QStringList := ix.indexedPaths

/-- What a control call leaves: the object, the signals emitted, and whether
the worker was launched. -/
structure ControlCall where
  indexer : FileIndexer
  events : List IndexEvent
  launched : Bool
  deriving DecidableEq

/-- The function `startIndexing`; `home` is the home location. -/
def startIndexing (home basePath : QString) (ix : FileIndexer) : ControlCall :=
  if ix.isIndexing ≠ 0 then { indexer := ix, events := [], launched := false }
  else
    { indexer := { ix with
        basePath := if basePath.isEmpty then home else basePath,
        isIndexing := 1, isPaused := 0, processedFiles := 0, totalFiles := 0,
        saveTimerActive := true },
      events := [IndexEvent.indexingStarted], launched := true }

def stopIndexing (ix : FileIndexer) : ControlCall :=
  if ix.isIndexing = 0 then { indexer := ix, events := [], launched := false }
  else
    { indexer := { ix with isIndexing := 0, saveTimerActive := false },
      events := [IndexEvent.indexingStopped], launched := false }

def pauseIndexing (ix : FileIndexer) : ControlCall :=
  if ix.isIndexing = 0 then { indexer := ix, events := [], launched := false }
  else
    { indexer := { ix with isPaused := 1 }, events := [IndexEvent.indexingPaused],
      launched := false }

def resumeIndexing (ix : FileIndexer) : ControlCall :=
  if ix.isIndexing = 0 then { indexer := ix, events := [], launched := false }
  else
    { indexer := { ix with isPaused := 0 }, events := [IndexEvent.indexingResumed],
      launched := false }

end FileIndexer

/-- One public call that changes the index. -/
inductive IndexOp
  | updateIndex (path : QString)
  | indexFile (path : QString)
  | removeFromIndex (path : QString)
  | clearIndex
  deriving DecidableEq, Repr

def applyOp (P : Platform) (fs : QString → FileStat) (ix : FileIndexer) : IndexOp → FileIndexer
  | IndexOp.updateIndex path => (FileIndexer.updateIndex P fs path ix).1
  | IndexOp.indexFile path => (FileIndexer.indexFile P fs path ix).1
  | IndexOp.removeFromIndex path => FileIndexer.removeFromIndex path ix
  | IndexOp.clearIndex => FileIndexer.clearIndex ix

/-- A sequence of calls, applied from left to right. -/
def applyOps (P : Platform) (fs : QString → FileStat) (ops : List IndexOp) (ix : FileIndexer) :
    FileIndexer :=
  ops.foldl (applyOp P fs) ix

/-- The shape of an index that the calls maintain: one pair per key, no
repeated path in the set, the same paths in both, and every record stored
under its own path. -/
def WellFormedIndex (ix : FileIndexer) : Prop :=
  (ix.fileIndex.map Prod.fst).Nodup
    ∧ ix.indexedPaths.Nodup
    ∧ (∀ p : QString, p ∈ ix.fileIndex.map Prod.fst ↔ p ∈ ix.indexedPaths)
    ∧ ∀ kv ∈ ix.fileIndex, kv.2.path = kv.1

/-- The set `M` of the specification for `searchIndex`, in its words: the
indexed records whose name, path or extension contains the query, both sides
compared in lowercase. The records are listed in the order of the hash. -/
def specMatchingRecords (P : Platform) (ix : FileIndexer) (query : QString) :
    List IndexedFile :=
  (ix.fileIndex.map Prod.snd).filter
    (fun file =>
      decide (P.toLower query <:+: P.toLower file.name
        ∨ P.toLower query <:+: P.toLower file.path
        ∨ P.toLower query <:+: P.toLower file.extension))

/-! ### The indexing worker -/

/-- The wrap-around of a 32-bit signed `int`. -/
def wrapInt32 (x : Int) : Int := (x + 2147483648) % 4294967296 - 2147483648

/-- The expression `m_totalFiles > 0 ? (m_processedFiles * 100) / m_totalFiles : 0`
in `int` arithmetic. -/
def progressValue (totalFiles processedFiles : Int) : Int :=
  if totalFiles > 0 then Int.tdiv (wrapInt32 (processedFiles * 100)) totalFiles else 0

/-- What an indexing run reads from outside: the file information, the two
enumerations of the tree (counting pass, indexing pass), and the values of
`m_isIndexing` and `m_isPaused` at the successive loads of the worker. -/
structure IndexEnv where
  fs : QString → FileStat
  countWalk : QString → List QString
  walk : QString → List QString
  indexing : Nat → Bool
  paused : Nat → Bool

/-- The worker's view: the object, the signals emitted so far, and how many
loads of each flag it has performed. -/
structure IndexWorker where
  indexer : FileIndexer
  events : List IndexEvent
  indexingLoads : Nat
  pausedLoads : Nat
  deriving DecidableEq

/-- The first loop of `indexDirectory`: count the files. -/
def countLoop (env : IndexEnv) : List QString → IndexWorker → IndexWorker
  | [], w => w
  | _ :: rest, w =>
    if env.indexing w.indexingLoads then
      countLoop env rest
        { w with
          indexingLoads := w.indexingLoads + 1,
          indexer := { w.indexer with totalFiles := wrapInt32 (w.indexer.totalFiles + 1) } }
    else { w with indexingLoads := w.indexingLoads + 1 }

/-- The loop `while (m_isPaused && m_isIndexing) msleep(100)`; `none` when
the fuel runs out before the loop is left. -/
def waitWhilePaused (env : IndexEnv) : Nat → IndexWorker → Option IndexWorker
  | 0, _ => none
  | fuel + 1, w =>
    if env.paused w.pausedLoads then
      if env.indexing w.indexingLoads then
        waitWhilePaused env fuel
          { w with pausedLoads := w.pausedLoads + 1, indexingLoads := w.indexingLoads + 1 }
      else some { w with pausedLoads := w.pausedLoads + 1, indexingLoads := w.indexingLoads + 1 }
    else some { w with pausedLoads := w.pausedLoads + 1 }

/-- The body of the second loop after its stop check: `indexFile`, the
counter, and the progress signal on every 100th file. -/
def indexStep (P : Platform) (fs : QString → FileStat) (filePath : QString)
    (s : FileIndexer × List IndexEvent) : FileIndexer × List IndexEvent :=
  let indexed := FileIndexer.indexFile P fs filePath s.1
  let processed := wrapInt32 (indexed.1.processedFiles + 1)
  let indexer := { indexed.1 with processedFiles := processed }
  if Int.tmod processed 100 = 0 then
    (indexer, s.2 ++ indexed.2
      ++ [IndexEvent.indexingProgress (progressValue indexer.totalFiles processed)])
  else (indexer, s.2 ++ indexed.2)

/-- The second loop of `indexDirectory`; `fuel` bounds each pause wait. -/
def indexLoop (P : Platform) (env : IndexEnv) (fuel : Nat) :
    List QString → IndexWorker → Option IndexWorker
  | [], w => some w
  | filePath :: rest, w =>
    if env.indexing w.indexingLoads then
      match waitWhilePaused env fuel { w with indexingLoads := w.indexingLoads + 1 } with
      | none => none
      | some w1 =>
        if env.indexing w1.indexingLoads then
          let s := indexStep P env.fs filePath (w1.indexer, w1.events)
          indexLoop P env fuel rest
            { w1 with indexingLoads := w1.indexingLoads + 1, indexer := s.1, events := s.2 }
        else some { w1 with indexingLoads := w1.indexingLoads + 1 }
    else some { w with indexingLoads := w.indexingLoads + 1 }

/-- The function `indexDirectory`. -/
def indexDirectory (P : Platform) (env : IndexEnv) (fuel : Nat) (path : QString)
    (w : IndexWorker) : Option IndexWorker :=
  if env.indexing w.indexingLoads then
    let counted := countLoop env (env.countWalk path)
      { w with indexingLoads := w.indexingLoads + 1 }
    match indexLoop P env fuel (env.walk path) counted with
    | none => none
    | some w1 =>
      if env.indexing w1.indexingLoads then
        some { w1 with
          indexingLoads := w1.indexingLoads + 1,
          events := w1.events ++ [IndexEvent.indexingProgress 100] }
      else some { w1 with indexingLoads := w1.indexingLoads + 1 }
  else some { w with indexingLoads := w.indexingLoads + 1 }

/-- The task that `startIndexing` launches: `indexDirectory(m_basePath)`,
then the flag is cleared and `indexingCompleted` emitted. -/
def indexingTask (P : Platform) (env : IndexEnv) (fuel : Nat) (ix : FileIndexer) :
    Option (FileIndexer × List IndexEvent) :=
  match indexDirectory P env fuel ix.basePath
      { indexer := ix, events := [], indexingLoads := 0, pausedLoads := 0 } with
  | none => none
  | some w => some ({ w.indexer with isIndexing := 0 }, w.events ++ [IndexEvent.indexingCompleted])

/-- The records carried by the `fileIndexed` signals of a trace. -/
def indexedFilesOf : List IndexEvent → List IndexedFile
  | [] => []
  | IndexEvent.fileIndexed file :: rest => file :: indexedFilesOf rest
  | _ :: rest => indexedFilesOf rest

/-- The values carried by the `indexingProgress` signals of a trace. -/
def progressValuesOf : List IndexEvent → List Int
  | [] => []
  | IndexEvent.indexingProgress percentage :: rest => percentage :: progressValuesOf rest
  | _ :: rest => progressValuesOf rest

/-- The progress values the specification describes for `n` files counted
and indexed: one value after each 100th processed file, then 100. -/
def specProgressValues (n : Nat) : List Int :=
  (((List.range n).map (fun i => ((i + 1 : Nat) : Int))).filter
      (fun processed => processed % 100 = 0)).map (progressValue n)
    ++ [100]

/-! ## Sample inputs for concrete evaluations -/

/-- A readable, empty regular file `/r/<name>` last modified on day `day`. -/
def sampleEntry (name : String) (day : Int) : FileEntry :=
  { filePath := ("/r/" ++ name).toList, fileName := name.toList, directory := "/r".toList,
    suffix := "txt".toList, size := 10,
    lastModified := { valid := true, day := day, msec := 0 },
    mimeType := "text/plain".toList, bytes := some [] }

/-- A run over a fixed walk, with the cancellation flag observed set from
load `cancelFrom` on (never, for `none`) and the clock fixed at day `today`. -/
def sampleEnv (walk : List FileEntry) (cancelFrom : Option Nat) (today : Int) : RunEnv :=
  { currentPath := "/r".toList, homePath := "/home".toList,
    iterate := fun _ _ _ _ _ => walk,
    cancelled := fun k => match cancelFrom with
      | some n => decide (n ≤ k)
      | none => false,
    clock := fun _ => { valid := true, day := today, msec := 0 } }

/-- The criteria that `search(query, "")` builds, with its `maxResults`
replaced. -/
def nameCriteria (query : String) (maxResults : Int) : SearchCriteria :=
  { defaultCriteria with query := query.toList, maxResults := maxResults }

/-- The criteria that `fuzzySearch(query, "")` builds. -/
def fuzzyCriteria (query : String) : SearchCriteria :=
  { defaultCriteria with
    query := query.toList, type := SearchType.FuzzySearch, fuzzyMatching := true }

/-- The criteria that `searchByRegex(QRegularExpression(pattern), "")`
builds. -/
def regexCriteria (pattern : String) : SearchCriteria :=
  { defaultCriteria with
    query := pattern.toList, type := SearchType.RegexSearch, useRegex := true }

/-- A readable regular file `/r/<name>` of the given size, last modified on
day 100. -/
def sizedEntry (name : String) (size : Int) : FileEntry :=
  { sampleEntry name 100 with size := size }

/-- A readable regular file `/r/<name>` with the given bytes, last modified
on day 100. -/
def contentEntry (name : String) (data : List Nat) : FileEntry :=
  { sampleEntry name 100 with size := data.length, bytes := some data }

/-- The bytes of an ASCII text. -/
def asciiBytes (text : String) : List Nat := text.toList.map Char.toNat

/-- A readable regular file `a.txt` three directory levels below `/r`. -/
def deepEntry : FileEntry :=
  { sampleEntry "a.txt" 100 with
    filePath := "/r/d1/d2/d3/a.txt".toList, directory := "/r/d1/d2/d3".toList }

/-- File information for sample paths: every path is a present regular file
of 10 bytes, named by its last component, with the text after the last dot as
suffix. -/
def sampleFs (path : QString) : FileStat :=
  { present := true, isFile := true,
    fileName := (path.splitOn (Char.ofNat 47)).getLastD [],
    suffix := (((path.splitOn (Char.ofNat 47)).getLastD []).splitOn (Char.ofNat 46)).getLastD [],
    size := 10,
    lastModified := { valid := true, day := 100, msec := 0 },
    lastRead := { valid := true, day := 100, msec := 0 },
    birthTime := { valid := true, day := 90, msec := 0 },
    mimeType := "text/plain".toList }

/-- The index after indexing three files, removing one and indexing one of
them again. -/
def sampleIndex : FileIndexer :=
  applyOps refPlatform sampleFs
    [IndexOp.indexFile "/r/Report.txt".toList, IndexOp.indexFile "/r/data.csv".toList,
      IndexOp.updateIndex "/r/old/report_final.TXT".toList,
      IndexOp.removeFromIndex "/r/data.csv".toList,
      IndexOp.indexFile "/r/Report.txt".toList]
    newFileIndexer

/-- An indexing run over the given files (both passes see the same files),
never stopped, with the pause flag read as set at the loads listed in
`pausedAt`. -/
def sampleIndexEnv (files : List QString) (pausedAt : List Nat) : IndexEnv :=
  { fs := sampleFs, countWalk := fun _ => files, walk := fun _ => files,
    indexing := fun _ => true, paused := fun k => pausedAt.contains k }

/-- Seventeen files `a01.txt` ... `a17.txt`, all last modified on day 100. -/
def tiedWalk : List FileEntry :=
  ["a01.txt", "a02.txt", "a03.txt", "a04.txt", "a05.txt", "a06.txt", "a07.txt", "a08.txt",
    "a09.txt", "a10.txt", "a11.txt", "a12.txt", "a13.txt", "a14.txt", "a15.txt", "a16.txt",
    "a17.txt"].map (fun name => sampleEntry name 100)

/-- The file names of a result list, for display. -/
def fileNames (results : List SearchResult) : List String :=
  results.map (fun r => String.mk r.fileName)

/-- The relevance scores of a result list. -/
def scores (results : List SearchResult) : List ℚ :=
  results.map (fun r => r.relevanceScore)

/-! ## Lemmas: strings -/

theorem qContains_iff (target query : QString) :
    qContains target query = true ↔ ∃ before after, target = before ++ query ++ after := by
  induction target with
  | nil =>
    simp only [qContains, List.isEmpty_iff]
    constructor
    · intro h; exact ⟨[], [], by simp [h]⟩
    · rintro ⟨before, after, h⟩
      have h1 := congrArg List.length h
      simp only [List.length_nil, List.length_append] at h1
      exact List.length_eq_zero.mp (by omega)
  | cons c rest ih =>
    simp only [qContains, Bool.or_eq_true, List.isPrefixOf_iff_prefix, ih]
    constructor
    · rintro (⟨after, h⟩ | ⟨before, after, h⟩)
      · exact ⟨[], after, by simp [h]⟩
      · exact ⟨c :: before, after, by simp [h]⟩
    · rintro ⟨before, after, h⟩
      cases before with
      | nil => left; exact ⟨after, by simpa using h.symm⟩
      | cons b before =>
        right
        simp only [List.cons_append, List.cons.injEq] at h
        exact ⟨before, after, h.2⟩

/-! ## Lemmas: sorting -/

theorem StrictWeakOrder.asymm {α : Type} {comp : α → α → Bool} (h : StrictWeakOrder comp)
    {a b : α} (hab : comp a b = true) : comp b a = false := by
  cases hba : comp b a with
  | false => rfl
  | true =>
    have := h.2.1 a b a hab hba
    rw [h.1 a] at this
    exact absurd this (by decide)

/-- Negative transitivity: "does not come before" is transitive. -/
theorem StrictWeakOrder.not_trans {α : Type} {comp : α → α → Bool} (h : StrictWeakOrder comp)
    {a b c : α} (hab : comp a b = false) (hbc : comp b c = false) : comp a c = false := by
  cases hac : comp a c with
  | false => rfl
  | true =>
    exfalso
    cases hba : comp b a with
    | true =>
      have := h.2.1 b a c hba hac
      rw [hbc] at this
      exact absurd this (by decide)
    | false =>
      cases hcb : comp c b with
      | true =>
        have := h.2.1 a c b hac hcb
        rw [hab] at this
        exact absurd this (by decide)
      | false =>
        have := (h.2.2 a b c hab hba hbc hcb).1
        rw [hac] at this
        exact absurd this (by decide)

theorem strictWeakOrder_scoreGreater : StrictWeakOrder scoreGreater := by
  refine ⟨?_, ?_, ?_⟩
  · intro a; simp [scoreGreater]
  · intro a b c hab hbc
    simp only [scoreGreater, decide_eq_true_eq] at *
    exact gt_trans hab hbc
  · intro a b c hab hba hbc hcb
    simp only [scoreGreater, decide_eq_false_iff_not, not_lt, gt_iff_lt] at *
    exact ⟨le_trans hab hbc, le_trans hcb hba⟩

theorem insertBy_perm {α : Type} (comp : α → α → Bool) (x : α) (xs : List α) :
    (insertBy comp x xs).Perm (x :: xs) := by
  induction xs with
  | nil => exact List.Perm.refl _
  | cons y ys ih =>
    unfold insertBy
    split
    · exact (List.Perm.cons y ih).trans (List.Perm.swap x y ys)
    · exact List.Perm.refl _

theorem insertionSortBy_perm {α : Type} (comp : α → α → Bool) (xs : List α) :
    (insertionSortBy comp xs).Perm xs := by
  induction xs with
  | nil => exact List.Perm.refl _
  | cons x xs ih =>
    exact (insertBy_perm comp x _).trans (List.Perm.cons x ih)

theorem insertBy_sorted {α : Type} {comp : α → α → Bool} (h : StrictWeakOrder comp) (x : α)
    (xs : List α) (hs : xs.Pairwise (fun a b => comp b a = false)) :
    (insertBy comp x xs).Pairwise (fun a b => comp b a = false) := by
  induction xs with
  | nil => simp [insertBy]
  | cons y ys ih =>
    rw [List.pairwise_cons] at hs
    unfold insertBy
    split
    · rename_i hyx
      rw [List.pairwise_cons]
      refine ⟨?_, ih hs.2⟩
      intro z hz
      rcases List.mem_cons.mp ((List.Perm.mem_iff (insertBy_perm comp x ys)).mp hz) with hz1 | hz1
      · rw [hz1]
        exact h.asymm hyx
      · exact hs.1 z hz1
    · rename_i hyx
      have hyx1 : comp y x = false := by simpa using hyx
      rw [List.pairwise_cons]
      refine ⟨?_, List.pairwise_cons.mpr hs⟩
      intro z hz
      rcases List.mem_cons.mp hz with rfl | hz1
      · exact hyx1
      · exact h.not_trans (hs.1 z hz1) hyx1

theorem insertionSortBy_sorted {α : Type} {comp : α → α → Bool} (h : StrictWeakOrder comp)
    (xs : List α) : (insertionSortBy comp xs).Pairwise (fun a b => comp b a = false) := by
  induction xs with
  | nil => exact List.Pairwise.nil
  | cons x xs ih => exact insertBy_sorted h x _ ih

theorem refPlatform_sortConforms : refPlatform.SortConforms := by
  intro comp xs h
  exact ⟨insertionSortBy_perm comp xs, insertionSortBy_sorted h xs⟩

/-! ## Lemmas: the worker -/

theorem completedLists_append (xs ys : List Event) :
    completedLists (xs ++ ys) = completedLists xs ++ completedLists ys := by
  induction xs with
  | nil => rfl
  | cons e xs ih => cases e <;> simp [completedLists, ih]

theorem searchLoop_completedLists (P : Platform) (criteria : SearchCriteria) (env : RunEnv)
    (walk : List FileEntry) (k : Nat) (st : WalkState) :
    completedLists (searchLoop P criteria env k walk st).events = completedLists st.events := by
  induction walk generalizing k st with
  | nil => rfl
  | cons entry rest ih =>
    simp only [searchLoop]
    split
    · rfl
    · split
      · exact ih _ _
      · split
        · split
          · simp [completedLists_append, completedLists]
          · rw [ih]; simp [completedLists_append, completedLists]
        · exact ih _ _

theorem searchInDirectory_completedLists (P : Platform) (criteria : SearchCriteria)
    (env : RunEnv) (path : QString) (st : WalkState) :
    completedLists (searchInDirectory P criteria env path st).events
      = completedLists st.events := by
  unfold searchInDirectory
  split
  · rfl
  · exact searchLoop_completedLists P criteria env _ 0 st

/-- The worker emits exactly one `searchCompleted`, carrying `finalResults`;
this holds whatever the cancellation flag was observed to be. -/
theorem completedLists_performSearch (P : Platform) (criteria : SearchCriteria) (env : RunEnv) :
    completedLists (performSearch P criteria env).events = [finalResults P criteria env] := by
  simp only [performSearch, finalResults, completedLists_append,
    searchInDirectory_completedLists, completedLists, List.nil_append]

theorem qListMid_zero_sublist {α : Type} (xs : List α) (length : Int) :
    (qListMid xs 0 length).Sublist xs := by
  unfold qListMid
  have h1 : ¬ ((0 : Int) > (xs.length : Int)) := by omega
  simp only [h1, if_false, lt_self_iff_false, Int.toNat_zero, List.drop_zero]
  exact List.take_sublist _ _

theorem qListMid_zero_length_le {α : Type} (xs : List α) (length : Int) (h0 : 0 ≤ length)
    (h : length < xs.length) : ((qListMid xs 0 length).length : Int) ≤ length := by
  unfold qListMid
  have h1 : ¬ ((0 : Int) > (xs.length : Int)) := by omega
  have h2 : ¬ (length < 0 ∨ length > (xs.length : Int) - 0) := by omega
  simp only [h1, if_false, lt_self_iff_false, h2, Int.toNat_zero, List.drop_zero,
    List.length_take]
  omega

theorem finalResults_sublist (P : Platform) (criteria : SearchCriteria) (env : RunEnv) :
    (finalResults P criteria env).Sublist
      (rankResults P (searchInDirectory P criteria env (resolveSearchPath env criteria)
        { results := [], events := [] }).results criteria) := by
  simp only [finalResults]
  split
  · exact qListMid_zero_sublist _ _
  · exact List.Sublist.refl _

theorem rankResults_sorted (P : Platform) (h : P.SortConforms) (buffer : List SearchResult)
    (criteria : SearchCriteria) :
    (rankResults P buffer criteria).Pairwise
      (fun a b => b.relevanceScore ≤ a.relevanceScore) := by
  have hs := (h scoreGreater buffer strictWeakOrder_scoreGreater).2
  refine List.Pairwise.imp ?_ hs
  intro a b hab
  simpa [scoreGreater] using hab

/-! ## Claims C1 to C4: the completed list -/

/-- C1, as stated, fails: with `maxResults = -1` and one matching file the
worker buffers the file, `mid(0, -1)` keeps the whole buffer, and the list
carried by `searchCompleted` has length 1, which is not at most `-1`. -/
theorem completed_length_exceeds_negative_maxResults :
    ∃ rs ∈ completedLists (performSearch refPlatform (nameCriteria "a" (-1))
        (sampleEnv [sampleEntry "a1.txt" 100] none 100)).events,
      fileNames rs = ["a1.txt"] ∧ (nameCriteria "a" (-1)).maxResults < (rs.length : Int) := by
  rw [completedLists_performSearch]
  exact ⟨_, List.mem_singleton.mpr rfl, by decide!, by decide!⟩

/-- C1, amended: for every platform, every criteria with `maxResults ≥ 0` and
every run, `performSearch` emits exactly one `searchCompleted` and the list it
carries has length at most `criteria.maxResults`. -/
theorem completed_length_le_maxResults (P : Platform) (criteria : SearchCriteria)
    (env : RunEnv) (h : 0 ≤ criteria.maxResults) :
    ∃ rs, completedLists (performSearch P criteria env).events = [rs]
      ∧ (rs.length : Int) ≤ criteria.maxResults := by
  refine ⟨_, completedLists_performSearch P criteria env, ?_⟩
  simp only [finalResults]
  split
  · rename_i hgt
    exact qListMid_zero_length_le _ _ h hgt
  · rename_i hle
    exact not_lt.mp hle

/-- C1, amended, on a run with two matching files and `maxResults = 1`. -/
theorem completed_length_le_maxResults_witness :
    ∃ rs, completedLists (performSearch refPlatform (nameCriteria "a" 1)
        (sampleEnv [sampleEntry "a1.txt" 100, sampleEntry "a2.txt" 100] none 100)).events = [rs]
      ∧ (rs.length : Int) ≤ (nameCriteria "a" 1).maxResults :=
  completed_length_le_maxResults refPlatform (nameCriteria "a" 1)
    (sampleEnv [sampleEntry "a1.txt" 100, sampleEntry "a2.txt" 100] none 100) (by decide)

/-- C2: for every platform whose `std::sort` meets its contract, every
criteria and every run, the one list carried by `searchCompleted` is ordered
by non-increasing `relevanceScore`: every earlier result has a score at least
that of every later one, in particular each adjacent pair. -/
theorem completed_sorted_by_score (P : Platform) (h : P.SortConforms)
    (criteria : SearchCriteria) (env : RunEnv) :
    ∃ rs, completedLists (performSearch P criteria env).events = [rs]
      ∧ rs.Pairwise (fun a b => b.relevanceScore ≤ a.relevanceScore)
      ∧ ∀ i a b, rs[i]? = some a → rs[i + 1]? = some b →
          b.relevanceScore ≤ a.relevanceScore := by
  have hp : (finalResults P criteria env).Pairwise
      (fun a b => b.relevanceScore ≤ a.relevanceScore) :=
    List.Pairwise.sublist (finalResults_sublist P criteria env) (rankResults_sorted P h _ _)
  refine ⟨_, completedLists_performSearch P criteria env, hp, ?_⟩
  intro i a b ha hb
  obtain ⟨hi, rfl⟩ := List.getElem?_eq_some.mp ha
  obtain ⟨hj, rfl⟩ := List.getElem?_eq_some.mp hb
  exact List.pairwise_iff_getElem.mp hp i (i + 1) hi hj (Nat.lt_succ_self i)

/-- C2 on the reference platform, for a run with two matching files. -/
theorem completed_sorted_by_score_witness :
    ∃ rs, completedLists (performSearch refPlatform (nameCriteria "a" 10)
        (sampleEnv [sampleEntry "ba.txt" 100, sampleEntry "a2.txt" 100] none 100)).events = [rs]
      ∧ rs.Pairwise (fun a b => b.relevanceScore ≤ a.relevanceScore)
      ∧ ∀ i a b, rs[i]? = some a → rs[i + 1]? = some b →
          b.relevanceScore ≤ a.relevanceScore :=
  completed_sorted_by_score refPlatform refPlatform_sortConforms (nameCriteria "a" 10)
    (sampleEnv [sampleEntry "ba.txt" 100, sampleEntry "a2.txt" 100] none 100)

/-- C4, evaluated on a cancelled run: `cancelSearch` sets the flag and emits
`searchCancelled`; three matching files are to be walked and the worker reads
the flag as set at the loop check before the second one. The worker stops
walking, yet it still emits `searchCompleted`, carrying the one result
buffered before the cancellation. -/
theorem cancelled_run_still_emits_completed :
    cancelSearch { isSearching := 1, searchCancelled := 0 }
        = ({ isSearching := 0, searchCancelled := 1 }, [Event.searchCancelled])
      ∧ (sampleEnv [sampleEntry "a1.txt" 100, sampleEntry "a2.txt" 100, sampleEntry "a3.txt" 100]
        (some 2) 100).cancelled 2 = true
      ∧ fileNames (foundResults (performSearch refPlatform (nameCriteria "a" 10000)
          (sampleEnv [sampleEntry "a1.txt" 100, sampleEntry "a2.txt" 100,
            sampleEntry "a3.txt" 100] (some 2) 100)).events) = ["a1.txt"]
      ∧ (completedLists (performSearch refPlatform (nameCriteria "a" 10000)
          (sampleEnv [sampleEntry "a1.txt" 100, sampleEntry "a2.txt" 100,
            sampleEntry "a3.txt" 100] (some 2) 100)).events).map fileNames = [["a1.txt"]] := by
  refine ⟨?_, ?_, ?_, ?_⟩ <;> decide!

/-! ## Claim C5: repeated runs -/

theorem calculateRelevanceScore_congr (P : Platform) (now1 now2 : QDateTime)
    (result : SearchResult) (criteria : SearchCriteria)
    (h7 : result.lastModified.daysTo now1 < 7 ↔ result.lastModified.daysTo now2 < 7)
    (h30 : result.lastModified.daysTo now1 < 30 ↔ result.lastModified.daysTo now2 < 30) :
    calculateRelevanceScore P now1 result criteria
      = calculateRelevanceScore P now2 result criteria := by
  simp only [calculateRelevanceScore]
  by_cases c7 : result.lastModified.daysTo now1 < 7
  · rw [if_pos c7, if_pos (h7.mp c7)]
  · rw [if_neg c7, if_neg (fun h => c7 (h7.mpr h))]
    by_cases c30 : result.lastModified.daysTo now1 < 30
    · rw [if_pos c30, if_pos (h30.mp c30)]
    · rw [if_neg c30, if_neg (fun h => c30 (h30.mpr h))]

theorem searchLoop_congr (P : Platform) (criteria : SearchCriteria) (env1 env2 : RunEnv)
    (walk : List FileEntry) (k : Nat) (st : WalkState)
    (hc : ∀ j, env1.cancelled j = env2.cancelled j)
    (hb : ∀ (j : Nat) (entry : FileEntry), walk[j]? = some entry →
      ((entry.lastModified.daysTo (env1.clock (k + j)) < 7
          ↔ entry.lastModified.daysTo (env2.clock (k + j)) < 7)
        ∧ (entry.lastModified.daysTo (env1.clock (k + j)) < 30
          ↔ entry.lastModified.daysTo (env2.clock (k + j)) < 30))) :
    searchLoop P criteria env1 k walk st = searchLoop P criteria env2 k walk st := by
  induction walk generalizing k st with
  | nil => rfl
  | cons entry rest ih =>
    have hrest : ∀ st1, searchLoop P criteria env1 (k + 1) rest st1
        = searchLoop P criteria env2 (k + 1) rest st1 := by
      intro st1
      apply ih
      intro j e hj
      have := hb (j + 1) e (by simpa using hj)
      rwa [show k + (j + 1) = k + 1 + j by omega] at this
    have hres : ∀ lines, makeResult P (env1.clock k) criteria entry lines
        = makeResult P (env2.clock k) criteria entry lines := by
      intro lines
      have h0 := hb 0 entry (by simp)
      simp only [makeResult, Nat.add_zero] at h0 ⊢
      rw [calculateRelevanceScore_congr P (env1.clock k) (env2.clock k) _ criteria h0.1 h0.2]
    simp only [searchLoop, hc, hrest, hres]

/-- C5, as stated, fails: the recency bonus of `calculateRelevanceScore` is
taken against the current time. The same fuzzy search over the same two
files, uncancelled, completes with `abcdefghxy` first when run on day 100
(scores 30 and 45/2) and with `abcdefghix` first when run on day 200 (scores
45/2 and 20). -/
theorem completed_order_depends_on_clock :
    (completedLists (performSearch refPlatform (fuzzyCriteria "abcdefghij")
        (sampleEnv [sampleEntry "abcdefghxy" 99, sampleEntry "abcdefghix" 60] none 100)).events).map
          (fun rs => (fileNames rs, scores rs))
        = [(["abcdefghxy", "abcdefghix"], [30, 45 / 2])]
      ∧ (completedLists (performSearch refPlatform (fuzzyCriteria "abcdefghij")
        (sampleEnv [sampleEntry "abcdefghxy" 99, sampleEntry "abcdefghix" 60] none 200)).events).map
          (fun rs => (fileNames rs, scores rs))
        = [(["abcdefghix", "abcdefghxy"], [45 / 2, 20])] := by
  constructor <;> decide!

/-- C5, amended: for every platform and criteria, two uncancelled runs over
the same sequence of walked entries emit the same signals, with the same
completed list in the same order, provided each walked entry falls in the same
recency bracket (modified less than 7 days, less than 30 days, or longer
before the clock reading) in both runs. -/
theorem completed_same_when_recency_brackets_agree (P : Platform) (criteria : SearchCriteria)
    (env1 env2 : RunEnv)
    (hwalk : walkOf env1 criteria = walkOf env2 criteria)
    (hc1 : ∀ k, env1.cancelled k = false) (hc2 : ∀ k, env2.cancelled k = false)
    (hb : ∀ (k : Nat) (entry : FileEntry), (walkOf env1 criteria)[k]? = some entry →
      ((entry.lastModified.daysTo (env1.clock k) < 7
          ↔ entry.lastModified.daysTo (env2.clock k) < 7)
        ∧ (entry.lastModified.daysTo (env1.clock k) < 30
          ↔ entry.lastModified.daysTo (env2.clock k) < 30))) :
    performSearch P criteria env1 = performSearch P criteria env2 := by
  have hst : searchInDirectory P criteria env1 (resolveSearchPath env1 criteria)
        { results := [], events := [] }
      = searchInDirectory P criteria env2 (resolveSearchPath env2 criteria)
        { results := [], events := [] } := by
    simp only [searchInDirectory, hc1, hc2]
    have hw : env2.iterate (resolveSearchPath env2 criteria) criteria.searchSubfolders
        criteria.followSymlinks criteria.searchHiddenFiles criteria.searchSystemFiles
        = walkOf env1 criteria := hwalk.symm
    rw [hw]
    exact searchLoop_congr P criteria env1 env2 (walkOf env1 criteria) 0 _
      (fun j => by rw [hc1, hc2]) (fun j e hj => by simpa using hb j e hj)
  simp only [performSearch, hst]

/-- C5, amended, for two runs on days 100 and 102 over a file modified on
day 99. -/
theorem completed_same_when_recency_brackets_agree_witness :
    performSearch refPlatform (fuzzyCriteria "abcdefghij")
        (sampleEnv [sampleEntry "abcdefghxy" 99] none 100)
      = performSearch refPlatform (fuzzyCriteria "abcdefghij")
        (sampleEnv [sampleEntry "abcdefghxy" 99] none 102) :=
  completed_same_when_recency_brackets_agree refPlatform (fuzzyCriteria "abcdefghij")
    (sampleEnv [sampleEntry "abcdefghxy" 99] none 100)
    (sampleEnv [sampleEntry "abcdefghxy" 99] none 102)
    rfl (fun _ => rfl) (fun _ => rfl)
    (fun k entry hk => by
      cases k with
      | zero =>
        have he : sampleEntry "abcdefghxy" 99 = entry := by
          simpa [walkOf, sampleEnv] using hk
        subst he
        decide
      | succ k => simp [walkOf, sampleEnv] at hk)

/-! ## Claims C6 and C7: `matchesFileName` -/

/-- C6: in every mode (plain, `wholeWords`, `useRegex`) and on every
platform, with `caseSensitive = false` the answer of `matchesFileName` is
determined by the lowercased query and the lowercased file name; and with
`caseSensitive = true`, in each of the modes, query `report` does not match
the file name `Report`, which differs from it only in letter case. -/
theorem matchesFileName_case_insensitive :
    (∀ (P : Platform) (c1 c2 : SearchCriteria) (f1 f2 : QString),
        c1.caseSensitive = false → c2.caseSensitive = false →
        c1.useRegex = c2.useRegex → c1.wholeWords = c2.wholeWords →
        P.toLower c1.query = P.toLower c2.query → P.toLower f1 = P.toLower f2 →
        matchesFileName P f1 c1 = matchesFileName P f2 c2)
    ∧ (∀ useRegex wholeWords : Bool,
        asciiLower "report".toList = asciiLower "Report".toList
        ∧ matchesFileName refPlatform "Report".toList
            { defaultCriteria with
              query := "report".toList, caseSensitive := true,
              useRegex := useRegex, wholeWords := wholeWords } = false
        ∧ matchesFileName refPlatform "Report".toList
            { defaultCriteria with
              query := "report".toList, caseSensitive := false,
              useRegex := useRegex, wholeWords := wholeWords } = true) := by
  constructor
  · intro P c1 c2 f1 f2 h1 h2 hr hw hq hf
    simp only [matchesFileName, h1, h2, hr, hw, hq, hf, Bool.not_false, if_true]
  · decide

/-- C6 on the reference platform: `Report` against `Report.TXT` answers as
`REPORT` against `report.txt`. -/
theorem matchesFileName_case_insensitive_witness :
    matchesFileName refPlatform "Report.TXT".toList
        { defaultCriteria with query := "Report".toList, wholeWords := true }
      = matchesFileName refPlatform "report.txt".toList
        { defaultCriteria with query := "REPORT".toList, wholeWords := true } :=
  matchesFileName_case_insensitive.1 refPlatform _ _ _ _ rfl rfl rfl rfl (by decide) (by decide)

/-- C7: with `useRegex = false` and `wholeWords = false`, on every platform,
`matchesFileName` returns true exactly when the file name contains the query
as a contiguous substring, taken on the lowercased copies when
`caseSensitive = false` and verbatim when `caseSensitive = true`; for the query
`report`, case-insensitive, it accepts `Report.txt` and `report_final.txt`
and rejects `data.csv`. -/
theorem matchesFileName_plain_substring :
    (∀ (P : Platform) (c : SearchCriteria) (f : QString),
        c.useRegex = false → c.wholeWords = false →
        (c.caseSensitive = false →
          (matchesFileName P f c = true
            ↔ ∃ before after, P.toLower f = before ++ P.toLower c.query ++ after))
        ∧ (c.caseSensitive = true →
          (matchesFileName P f c = true ↔ ∃ before after, f = before ++ c.query ++ after)))
    ∧ matchesFileName refPlatform "Report.txt".toList (nameCriteria "report" 10000) = true
    ∧ matchesFileName refPlatform "report_final.txt".toList (nameCriteria "report" 10000) = true
    ∧ matchesFileName refPlatform "data.csv".toList (nameCriteria "report" 10000) = false := by
  refine ⟨?_, by decide, by decide, by decide⟩
  intro P c f hr hw
  constructor
  · intro hc
    simp only [matchesFileName, hr, hw, hc, Bool.not_false, if_true, Bool.false_eq_true,
      if_false]
    exact qContains_iff _ _
  · intro hc
    simp only [matchesFileName, hr, hw, hc, Bool.not_true, Bool.false_eq_true, if_false]
    exact qContains_iff _ _

/-- C7 on the reference platform, for the query `report` and the file name
`Report.txt`. -/
theorem matchesFileName_plain_substring_witness :
    matchesFileName refPlatform "Report.txt".toList (nameCriteria "report" 10000) = true
      ↔ ∃ before after, refPlatform.toLower "Report.txt".toList
          = before ++ refPlatform.toLower (nameCriteria "report" 10000).query ++ after :=
  (matchesFileName_plain_substring.1 refPlatform (nameCriteria "report" 10000)
    "Report.txt".toList rfl rfl).1 rfl

/-! ## Claims C9 and C10: the fuzzy score -/

theorem mismatch_foldl_init (a b : QString) (l : List Nat) (init : Int) :
    l.foldl (fun distance i => if a[i]? ≠ b[i]? then distance + 1 else distance) init
      = init + l.foldl (fun distance i => if a[i]? ≠ b[i]? then distance + 1 else distance) 0 := by
  induction l generalizing init with
  | nil => simp
  | cons i l ih =>
    simp only [List.foldl_cons]
    rw [ih, ih (if a[i]? ≠ b[i]? then (0 : Int) + 1 else 0)]
    split <;> omega

theorem mismatchLoop_cons (x y : Char) (a b : QString) (n : Nat) :
    mismatchLoop (x :: a) (y :: b) (n + 1)
      = (if x ≠ y then 1 else 0) + mismatchLoop a b n := by
  simp only [mismatchLoop, List.range_succ_eq_map, List.foldl_cons, List.foldl_map,
    List.getElem?_cons_zero, List.getElem?_cons_succ, Option.some.injEq, ne_eq]
  rw [mismatch_foldl_init]
  simp

theorem mismatchLoop_eq_mismatchCount (a b : QString) :
    mismatchLoop a b (min a.length b.length) = (mismatchCount a b : Int) := by
  induction a generalizing b with
  | nil => simp [mismatchLoop, mismatchCount]
  | cons x a ih =>
    cases b with
    | nil => simp [mismatchLoop, mismatchCount]
    | cons y b =>
      have hmin : min (x :: a).length (y :: b).length = min a.length b.length + 1 := by
        simp only [List.length_cons]; omega
      rw [hmin, mismatchLoop_cons, ih b]
      simp only [mismatchCount, List.zip_cons_cons, List.countP_cons, bne_iff_ne, ne_eq]
      split <;> simp_all
      omega

theorem mismatchCount_self (a : QString) : mismatchCount a a = 0 := by
  induction a with
  | nil => rfl
  | cons x a ih =>
    simp only [mismatchCount] at ih
    simp [mismatchCount, List.countP_cons, ih]

theorem calculateFuzzyScore_eq_spec (P : Platform) (query target : QString)
    (hq : query ≠ []) (ht : target ≠ []) :
    calculateFuzzyScore P query target = specFuzzyScore (P.toLower query) (P.toLower target) := by
  have hq1 : query.isEmpty = false := by cases query <;> simp_all
  have ht1 : target.isEmpty = false := by cases target <;> simp_all
  simp only [calculateFuzzyScore, hq1, ht1, Bool.or_self, Bool.false_eq_true, if_false,
    specFuzzyScore, mismatchLoop_eq_mismatchCount]
  push_cast
  rfl

theorem specFuzzyScore_self (a : QString) : specFuzzyScore a a = 1 := by
  simp [specFuzzyScore, mismatchCount_self]

/-- C9: for all non-empty `query` and `target`, on every platform,
`calculateFuzzyScore` equals `1 − (m + |lenA − lenB|) / max(lenA, lenB)` taken
on the lowercased strings, with `m` the number of positions below the shorter
length at which they differ; `fuzzyMatch` with threshold `t` is true exactly
when that score is at least `t`; and the call of `searchInDirectory`, which
omits the threshold, tests the score against 0.6. -/
theorem calculateFuzzyScore_formula (P : Platform) (query target : QString)
    (hq : query ≠ []) (ht : target ≠ []) :
    calculateFuzzyScore P query target
        = 1 - ((mismatchCount (P.toLower query) (P.toLower target) : ℚ)
              + |((P.toLower query).length : ℚ) - ((P.toLower target).length : ℚ)|)
            / max ((P.toLower query).length : ℚ) ((P.toLower target).length : ℚ)
      ∧ (∀ t : ℚ, fuzzyMatch P query target t = true
          ↔ specFuzzyScore (P.toLower query) (P.toLower target) ≥ t)
      ∧ (∀ (c : SearchCriteria) (entry : FileEntry),
          c.type = SearchType.FuzzySearch → c.query = query → entry.fileName = target →
          ((primaryMatch P c entry).1 = true
            ↔ specFuzzyScore (P.toLower query) (P.toLower target) ≥ 6 / 10)) := by
  have hs := calculateFuzzyScore_eq_spec P query target hq ht
  refine ⟨hs, ?_, ?_⟩
  · intro t
    simp only [fuzzyMatch, hs, decide_eq_true_eq]
  · intro c entry hty hcq hfn
    simp only [primaryMatch, hty, hcq, hfn, fuzzyMatch, hs, defaultFuzzyThreshold,
      decide_eq_true_eq]

/-- C9 on the reference platform, for `abcde` against `abXde12`. -/
theorem calculateFuzzyScore_formula_witness :
    calculateFuzzyScore refPlatform "abcde".toList "abXde12".toList
        = 1 - ((mismatchCount (refPlatform.toLower "abcde".toList)
                  (refPlatform.toLower "abXde12".toList) : ℚ)
              + |((refPlatform.toLower "abcde".toList).length : ℚ)
                  - ((refPlatform.toLower "abXde12".toList).length : ℚ)|)
            / max ((refPlatform.toLower "abcde".toList).length : ℚ)
                ((refPlatform.toLower "abXde12".toList).length : ℚ)
      ∧ (∀ t : ℚ, fuzzyMatch refPlatform "abcde".toList "abXde12".toList t = true
          ↔ specFuzzyScore (refPlatform.toLower "abcde".toList)
              (refPlatform.toLower "abXde12".toList) ≥ t)
      ∧ (∀ (c : SearchCriteria) (entry : FileEntry),
          c.type = SearchType.FuzzySearch → c.query = "abcde".toList →
          entry.fileName = "abXde12".toList →
          ((primaryMatch refPlatform c entry).1 = true
            ↔ specFuzzyScore (refPlatform.toLower "abcde".toList)
                (refPlatform.toLower "abXde12".toList) ≥ 6 / 10)) :=
  calculateFuzzyScore_formula refPlatform "abcde".toList "abXde12".toList
    (by decide) (by decide)

/-- C10, as stated, fails at the empty string: the guard at the top of
`calculateFuzzyScore` returns 0.0 when either argument is empty, so the score
of the empty string against itself is 0, not 1. -/
theorem calculateFuzzyScore_empty_self :
    calculateFuzzyScore refPlatform "".toList "".toList = 0
      ∧ calculateFuzzyScore refPlatform "".toList "".toList ≠ 1 := by
  constructor <;> decide!

/-- C10, amended: for every non-empty string `s`, on every platform,
`calculateFuzzyScore(s, s) = 1.0`. -/
theorem calculateFuzzyScore_self (P : Platform) (s : QString) (hs : s ≠ []) :
    calculateFuzzyScore P s s = 1 := by
  rw [calculateFuzzyScore_eq_spec P s s hs hs, specFuzzyScore_self]

/-- C10, amended, on the reference platform, for `Report.txt`. -/
theorem calculateFuzzyScore_self_witness :
    calculateFuzzyScore refPlatform "Report.txt".toList "Report.txt".toList = 1 :=
  calculateFuzzyScore_self refPlatform "Report.txt".toList (by decide)

/-! ## Claim C8: `RegexSearch` -/

theorem isMetaChar_of_isWordChar (c : Char) (h : isWordChar c = true) : isMetaChar c = false := by
  cases hm : isMetaChar c with
  | false => rfl
  | true =>
    exfalso
    have hall : ∀ m ∈ "\\^$.[]|()?*+\x7b\x7d".toList, isWordChar m = false := by decide
    have hmem : c ∈ "\\^$.[]|()?*+\x7b\x7d".toList := by
      simpa [isMetaChar] using hm
    rw [hall c hmem] at h
    exact absurd h (by decide)

theorem parsePattern_literal (p : QString) (h : ∀ ch ∈ p, isWordChar ch = true) :
    parsePattern p = some (p.map RegexAtom.lit) := by
  induction p with
  | nil => rfl
  | cons c tl ih =>
    have hc : isWordChar c = true := h c (List.mem_cons_self _ _)
    have hm : isMetaChar c = false := isMetaChar_of_isWordChar c hc
    cases tl with
    | nil => simp [parsePattern, hm]
    | cons d rest =>
      have hne : c ≠ Char.ofNat 92 := by
        intro he
        rw [he] at hc
        exact absurd hc (by decide)
      have htl := ih (fun ch hch => h ch (List.mem_cons_of_mem _ hch))
      simp [parsePattern, hne, hm, htl]

theorem matchAtoms_literal (p : QString) (before : Option Char) (s : QString) :
    matchAtoms (p.map RegexAtom.lit) before s = p.isPrefixOf s := by
  induction p generalizing before s with
  | nil => simp [matchAtoms]
  | cons c p ih =>
    cases s with
    | nil => simp [matchAtoms]
    | cons x s =>
      simp only [List.map_cons, matchAtoms, ih, List.isPrefixOf]
      rw [Bool.beq_comm]

theorem searchAtoms_literal (p : QString) (before : Option Char) (s : QString) :
    searchAtoms (p.map RegexAtom.lit) before s = qContains s p := by
  induction s generalizing before with
  | nil => cases p <;> simp [searchAtoms, qContains, matchAtoms]
  | cons x s ih => simp only [searchAtoms, qContains, matchAtoms_literal, ih]

/-- On a pattern of word characters only, the reference matcher finds a match
exactly when the subject contains the pattern. -/
theorem refRegexHasMatch_literal (p s : QString) (h : ∀ ch ∈ p, isWordChar ch = true) :
    refRegexHasMatch p s = qContains s p := by
  simp only [refRegexHasMatch, parsePattern_literal p h, searchAtoms_literal]

/-- C8, as stated, fails: in `RegexSearch` mode the pattern `a` is tested
against the file name `bab` with `match(...).hasMatch()`, which looks for a
match anywhere in the name; the candidate is accepted, reported and
completed. -/
theorem regexSearch_accepts_part_of_name :
    primaryMatch refPlatform (regexCriteria "a") (sampleEntry "bab" 100) = (true, [])
      ∧ (completedLists (performSearch refPlatform (regexCriteria "a")
          (sampleEnv [sampleEntry "bab" 100] none 100)).events).map fileNames = [["bab"]] := by
  constructor <;> decide!

/-- C8, amended: in `RegexSearch` mode a candidate is accepted exactly when
`QRegularExpression(criteria.query).match(fileName).hasMatch()` holds, an
unanchored search; for a pattern of word characters, on the reference
matcher, that is exactly when the file name contains the pattern, so a match
of a proper part of the name is enough. -/
theorem regexSearch_accepts_unanchored :
    (∀ (P : Platform) (c : SearchCriteria) (entry : FileEntry),
        c.type = SearchType.RegexSearch →
        primaryMatch P c entry = (P.regexHasMatch c.query entry.fileName, []))
    ∧ (∀ (c : SearchCriteria) (entry : FileEntry),
        c.type = SearchType.RegexSearch → (∀ ch ∈ c.query, isWordChar ch = true) →
        ((primaryMatch refPlatform c entry).1 = true
          ↔ ∃ before after, entry.fileName = before ++ c.query ++ after)) := by
  constructor
  · intro P c entry hty
    simp only [primaryMatch, hty]
  · intro c entry hty hw
    simp only [primaryMatch, hty]
    show refRegexHasMatch c.query entry.fileName = true ↔ _
    rw [refRegexHasMatch_literal _ _ hw]
    exact qContains_iff _ _

/-- C8, amended, for the pattern `a` and the file name `bab`. -/
theorem regexSearch_accepts_unanchored_witness :
    (primaryMatch refPlatform (regexCriteria "a") (sampleEntry "bab" 100)).1 = true
      ↔ ∃ before after,
          (sampleEntry "bab" 100).fileName = before ++ (regexCriteria "a").query ++ after :=
  regexSearch_accepts_unanchored.2 (regexCriteria "a") (sampleEntry "bab" 100) rfl (by decide)

/-! ## Claim C11: disjoint prefixes -/

theorem mismatchCount_append_right (a b extra : QString) (h : a.length ≤ b.length) :
    mismatchCount a (b ++ extra) = mismatchCount a b := by
  induction a generalizing b with
  | nil => simp [mismatchCount]
  | cons x a ih =>
    cases b with
    | nil => simp at h
    | cons y b =>
      have h1 : a.length ≤ b.length := by simpa using h
      have := ih b h1
      simp only [mismatchCount, List.cons_append, List.zip_cons_cons, List.countP_cons] at this ⊢
      rw [this]

theorem mismatchCount_eq_length_of_differ (a b : QString) (h : a.length ≤ b.length)
    (hdiff : ∀ p ∈ List.zip a b, p.1 ≠ p.2) : mismatchCount a b = a.length := by
  have hall : ∀ p ∈ List.zip a b, (p.1 != p.2) = true := by
    intro p hp
    simpa using hdiff p hp
  rw [mismatchCount, List.countP_eq_length.mpr hall, List.length_zip]
  omega

/-- When the two strings differ at every position of the shorter one, the
distance is the longer length and the score is 0. -/
theorem specFuzzyScore_of_all_differ (a b : QString) (ha : a ≠ []) (h : a.length ≤ b.length)
    (hm : mismatchCount a b = a.length) : specFuzzyScore a b = 0 := by
  have hpos : 0 < a.length := List.length_pos.mpr ha
  have hb : (0 : ℚ) < (b.length : ℚ) := by exact_mod_cast lt_of_lt_of_le hpos h
  have hle : (a.length : ℚ) ≤ (b.length : ℚ) := by exact_mod_cast h
  rw [specFuzzyScore, hm, max_eq_right hle, abs_of_nonpos (sub_nonpos.mpr hle)]
  field_simp

/-- C11, as stated, fails: `abc` and `xyzw` differ at every common position,
and so do `abc` and `xyzwvu`, obtained by appending `vu` to the longer string;
both scores are 0, so the score does not decrease. -/
theorem disjoint_prefix_score_does_not_decrease :
    calculateFuzzyScore refPlatform "abc".toList "xyzw".toList = 0
      ∧ calculateFuzzyScore refPlatform "abc".toList ("xyzw".toList ++ "vu".toList) = 0
      ∧ ¬ (calculateFuzzyScore refPlatform "abc".toList ("xyzw".toList ++ "vu".toList)
            < calculateFuzzyScore refPlatform "abc".toList "xyzw".toList) := by
  refine ⟨?_, ?_, ?_⟩ <;> decide!

/-- C11, amended: for all non-empty strings `a`, `b` and `b'` whose
lowercased copies satisfy: that of `a` is non-empty and no longer than that of
`b`, the two carry different characters at every position of the shorter, and
that of `b'` starts with that of `b`; both `calculateFuzzyScore(a, b)` and
`calculateFuzzyScore(a, b')` are 0: the score is already at its minimum and
stays there. The conditions are on the lowercased copies, which are what the
code compares. -/
theorem calculateFuzzyScore_disjoint_prefix_zero (P : Platform) (a b b' : QString)
    (ha : a ≠ []) (hb : b ≠ []) (hb' : b' ≠ []) (hla : P.toLower a ≠ [])
    (hlen : (P.toLower a).length ≤ (P.toLower b).length)
    (hdiff : ∀ p ∈ List.zip (P.toLower a) (P.toLower b), p.1 ≠ p.2)
    (hext : P.toLower b <+: P.toLower b') :
    calculateFuzzyScore P a b = 0 ∧ calculateFuzzyScore P a b' = 0
      ∧ calculateFuzzyScore P a b' ≤ calculateFuzzyScore P a b := by
  have hm := mismatchCount_eq_length_of_differ _ _ hlen hdiff
  have h1 : calculateFuzzyScore P a b = 0 := by
    rw [calculateFuzzyScore_eq_spec P a b ha hb]
    exact specFuzzyScore_of_all_differ _ _ hla hlen hm
  have h2 : calculateFuzzyScore P a b' = 0 := by
    obtain ⟨extra, hx⟩ := hext
    rw [calculateFuzzyScore_eq_spec P a b' ha hb', ← hx]
    refine specFuzzyScore_of_all_differ _ _ hla ?_ ?_
    · rw [List.length_append]; omega
    · rw [mismatchCount_append_right _ _ _ hlen]; exact hm
  exact ⟨h1, h2, by rw [h1, h2]⟩

/-- C11, amended, on the reference platform, for `abc`, `xyzw` and
`xyzwvu`. -/
theorem calculateFuzzyScore_disjoint_prefix_zero_witness :
    calculateFuzzyScore refPlatform "abc".toList "xyzw".toList = 0
      ∧ calculateFuzzyScore refPlatform "abc".toList "xyzwvu".toList = 0
      ∧ calculateFuzzyScore refPlatform "abc".toList "xyzwvu".toList
          ≤ calculateFuzzyScore refPlatform "abc".toList "xyzw".toList :=
  calculateFuzzyScore_disjoint_prefix_zero refPlatform "abc".toList "xyzw".toList
    "xyzwvu".toList (by decide) (by decide) (by decide) (by decide) (by decide) (by decide)
    (by decide)

/-! ## Claims C12 and C13: `calculateRelevanceScore` -/

theorem qContains_iff_isInfix (target query : QString) :
    qContains target query = true ↔ query <:+: target := by
  rw [qContains_iff]
  constructor
  · rintro ⟨before, after, h⟩; exact ⟨before, after, h.symm⟩
  · rintro ⟨before, after, h⟩; exact ⟨before, after, h.symm⟩

/-- The score of `calculateRelevanceScore` split into its two parts. -/
theorem calculateRelevanceScore_eq_spec (P : Platform) (now : QDateTime) (result : SearchResult)
    (criteria : SearchCriteria) :
    calculateRelevanceScore P now result criteria
      = specMatchStrength P
          (if criteria.caseSensitive then criteria.query else P.toLower criteria.query)
          (if criteria.caseSensitive then result.fileName else P.toLower result.fileName)
        + recencyBonus (result.lastModified.daysTo now) := by
  have hp : ∀ f q : QString, qStartsWith f q = true ↔ q <+: f :=
    fun f q => List.isPrefixOf_iff_prefix
  simp only [calculateRelevanceScore, specMatchStrength, recencyBonus, hp, qContains_iff_isInfix]
  split_ifs <;> ring

/-- C12: for every result and criteria, with `q` and `f` the query and file
name (lowercased when `caseSensitive = false`, verbatim otherwise), the score
is a match strength plus the recency bonus, and the match strength is 100 if
`f = q`; else 75 if `f` starts with `q`; else 50 if `f` contains `q`; else
25 times `calculateFuzzyScore(q, f)`. -/
theorem calculateRelevanceScore_match_strength (P : Platform) (now : QDateTime)
    (result : SearchResult) (criteria : SearchCriteria) (q f : QString)
    (hq : q = if criteria.caseSensitive then criteria.query else P.toLower criteria.query)
    (hf : f = if criteria.caseSensitive then result.fileName
      else P.toLower result.fileName) :
    ∃ strength : ℚ,
      calculateRelevanceScore P now result criteria
          = strength + recencyBonus (result.lastModified.daysTo now)
        ∧ (f = q → strength = 100)
        ∧ (f ≠ q → (∃ t, f = q ++ t) → strength = 75)
        ∧ (f ≠ q → (¬ ∃ t, f = q ++ t) → (∃ s t, f = s ++ q ++ t) → strength = 50)
        ∧ ((¬ ∃ s t, f = s ++ q ++ t) → strength = 25 * calculateFuzzyScore P q f) := by
  refine ⟨specMatchStrength P q f, ?_, ?_, ?_, ?_, ?_⟩
  · rw [hq, hf]; exact calculateRelevanceScore_eq_spec P now result criteria
  · intro h; simp [specMatchStrength, h]
  · rintro h ⟨t, ht⟩
    have hpre : q <+: f := ⟨t, ht.symm⟩
    simp [specMatchStrength, h, hpre]
  · rintro h hnp ⟨s, t, hst⟩
    have hpre : ¬ q <+: f := fun ⟨t, ht⟩ => hnp ⟨t, ht.symm⟩
    have hin : q <:+: f := ⟨s, t, hst.symm⟩
    simp [specMatchStrength, h, hpre, hin]
  · intro hni
    have hin : ¬ q <:+: f := fun ⟨s, t, hst⟩ => hni ⟨s, t, hst.symm⟩
    have hpre : ¬ q <+: f := fun hp => hin hp.isInfix
    have hne : f ≠ q := fun h => hin (h ▸ List.infix_refl _)
    simp [specMatchStrength, hne, hpre, hin]

/-- C12 on the reference platform: `Report.txt` against the query `report`,
case-insensitive, scored on the day of its modification. -/
theorem calculateRelevanceScore_match_strength_witness :
    ∃ strength : ℚ,
      calculateRelevanceScore refPlatform { valid := true, day := 100, msec := 0 }
          (makeResult refPlatform { valid := true, day := 100, msec := 0 }
            (nameCriteria "report" 10) (sampleEntry "Report.txt" 100) [])
          (nameCriteria "report" 10)
          = strength + recencyBonus
              ((makeResult refPlatform { valid := true, day := 100, msec := 0 }
                (nameCriteria "report" 10) (sampleEntry "Report.txt" 100) []).lastModified.daysTo
                { valid := true, day := 100, msec := 0 })
        ∧ ("report.txt".toList = "report".toList → strength = 100)
        ∧ ("report.txt".toList ≠ "report".toList →
            (∃ t, "report.txt".toList = "report".toList ++ t) → strength = 75)
        ∧ ("report.txt".toList ≠ "report".toList →
            (¬ ∃ t, "report.txt".toList = "report".toList ++ t) →
            (∃ s t, "report.txt".toList = s ++ "report".toList ++ t) → strength = 50)
        ∧ ((¬ ∃ s t, "report.txt".toList = s ++ "report".toList ++ t) →
            strength = 25 * calculateFuzzyScore refPlatform "report".toList "report.txt".toList) :=
  calculateRelevanceScore_match_strength refPlatform { valid := true, day := 100, msec := 0 }
    (makeResult refPlatform { valid := true, day := 100, msec := 0 }
      (nameCriteria "report" 10) (sampleEntry "Report.txt" 100) [])
    (nameCriteria "report" 10) "report".toList "report.txt".toList (by decide) (by decide)

/-- C13, as stated, fails at the bracket ends: the code tests
`daysSinceModified < 7` and `< 30`. A file modified exactly 7 days before the
clock reading gets +5 (score 75 + 5, not 75 + 10) and one modified exactly 30
days before gets +0 (score 75, not 75 + 5). -/
theorem recency_bonus_at_seven_and_thirty_days :
    (sampleEntry "a.txt" 93).lastModified.daysTo { valid := true, day := 100, msec := 0 } = 7
      ∧ (makeResult refPlatform { valid := true, day := 100, msec := 0 } (nameCriteria "a" 10)
          (sampleEntry "a.txt" 93) []).relevanceScore = 75 + 5
      ∧ (sampleEntry "a.txt" 70).lastModified.daysTo { valid := true, day := 100, msec := 0 } = 30
      ∧ (makeResult refPlatform { valid := true, day := 100, msec := 0 } (nameCriteria "a" 10)
          (sampleEntry "a.txt" 70) []).relevanceScore = 75 + 0 := by
  refine ⟨?_, ?_, ?_, ?_⟩ <;> decide!

/-- C13, amended: for every result, with `d` the number of days from its
modification time to the current time, the recency bonus added by
`calculateRelevanceScore` to the match strength is +10 when `d < 7`, +5 when
`7 ≤ d < 30`, and 0 when `d ≥ 30`. -/
theorem calculateRelevanceScore_recency_bonus (P : Platform) (now : QDateTime)
    (result : SearchResult) (criteria : SearchCriteria) (d : Int)
    (hd : d = result.lastModified.daysTo now) :
    (d < 7 → calculateRelevanceScore P now result criteria
        = specMatchStrength P
            (if criteria.caseSensitive then criteria.query else P.toLower criteria.query)
            (if criteria.caseSensitive then result.fileName else P.toLower result.fileName)
          + 10)
    ∧ (7 ≤ d → d < 30 → calculateRelevanceScore P now result criteria
        = specMatchStrength P
            (if criteria.caseSensitive then criteria.query else P.toLower criteria.query)
            (if criteria.caseSensitive then result.fileName else P.toLower result.fileName)
          + 5)
    ∧ (30 ≤ d → calculateRelevanceScore P now result criteria
        = specMatchStrength P
            (if criteria.caseSensitive then criteria.query else P.toLower criteria.query)
            (if criteria.caseSensitive then result.fileName else P.toLower result.fileName)
          + 0) := by
  subst hd
  rw [calculateRelevanceScore_eq_spec]
  refine ⟨?_, ?_, ?_⟩
  · intro h; simp [recencyBonus, h]
  · intro h7 h30
    have : ¬ result.lastModified.daysTo now < 7 := not_lt.mpr h7
    simp [recencyBonus, this, h30]
  · intro h30
    have h7 : ¬ result.lastModified.daysTo now < 7 := by omega
    have h30n : ¬ result.lastModified.daysTo now < 30 := not_lt.mpr h30
    simp [recencyBonus, h7, h30n]

/-- C13, amended, on the reference platform: a file modified 7 days before
the clock reading. -/
theorem calculateRelevanceScore_recency_bonus_witness :
    calculateRelevanceScore refPlatform { valid := true, day := 100, msec := 0 }
        (makeResult refPlatform { valid := true, day := 100, msec := 0 } (nameCriteria "a" 10)
          (sampleEntry "a.txt" 93) []) (nameCriteria "a" 10)
      = specMatchStrength refPlatform
          (if (nameCriteria "a" 10).caseSensitive then (nameCriteria "a" 10).query
            else refPlatform.toLower (nameCriteria "a" 10).query)
          (if (nameCriteria "a" 10).caseSensitive then
              (makeResult refPlatform { valid := true, day := 100, msec := 0 }
                (nameCriteria "a" 10) (sampleEntry "a.txt" 93) []).fileName
            else refPlatform.toLower
              (makeResult refPlatform { valid := true, day := 100, msec := 0 }
                (nameCriteria "a" 10) (sampleEntry "a.txt" 93) []).fileName)
        + 5 :=
  (calculateRelevanceScore_recency_bonus refPlatform { valid := true, day := 100, msec := 0 }
    (makeResult refPlatform { valid := true, day := 100, msec := 0 } (nameCriteria "a" 10)
      (sampleEntry "a.txt" 93) []) (nameCriteria "a" 10) 7 (by decide)).2.1
    (by decide) (by decide)

/-! ## Lemmas: what the walk buffers -/

theorem foundResults_append (xs ys : List Event) :
    foundResults (xs ++ ys) = foundResults xs ++ foundResults ys := by
  induction xs with
  | nil => rfl
  | cons e xs ih => cases e <;> simp [foundResults, ih]

/-- Every `resultFound` signal of the loop goes with an append to the
buffer. -/
theorem searchLoop_foundResults (P : Platform) (criteria : SearchCriteria) (env : RunEnv)
    (walk : List FileEntry) (k : Nat) (st : WalkState)
    (h : foundResults st.events = st.results) :
    foundResults (searchLoop P criteria env k walk st).events
      = (searchLoop P criteria env k walk st).results := by
  induction walk generalizing k st with
  | nil => exact h
  | cons entry rest ih =>
    simp only [searchLoop]
    split
    · exact h
    · split
      · exact ih _ _ h
      · split
        · have h1 : foundResults (st.events ++ [Event.resultFound
              (makeResult P (env.clock k) criteria entry (primaryMatch P criteria entry).2)])
              = st.results
                ++ [makeResult P (env.clock k) criteria entry (primaryMatch P criteria entry).2] := by
            rw [foundResults_append, h]; rfl
          split
          · exact h1
          · exact ih _ _ h1
        · exact ih _ _ h

/-- Every buffered result was built from a walked entry that passed the
filters and the primary matcher. -/
theorem searchLoop_results_accepted (P : Platform) (criteria : SearchCriteria) (env : RunEnv)
    (walk : List FileEntry) (k : Nat) (st : WalkState)
    (h : ∀ r ∈ st.results, accepts P criteria r.fileInfo = true) :
    ∀ r ∈ (searchLoop P criteria env k walk st).results,
      accepts P criteria r.fileInfo = true := by
  induction walk generalizing k st with
  | nil => exact h
  | cons entry rest ih =>
    simp only [searchLoop]
    split
    · exact h
    · split
      · exact ih _ _ h
      · rename_i hfil
        split
        · rename_i hfound
          have h1 : ∀ r ∈ st.results
              ++ [makeResult P (env.clock k) criteria entry (primaryMatch P criteria entry).2],
              accepts P criteria r.fileInfo = true := by
            intro r hr
            rcases List.mem_append.mp hr with hr1 | hr1
            · exact h r hr1
            · have hr2 : r = makeResult P (env.clock k) criteria entry
                  (primaryMatch P criteria entry).2 := by simpa using hr1
              have hf : matchesFilters P entry criteria = true := by simpa using hfil
              rw [hr2]
              simp [accepts, makeResult, hf, hfound]
          split
          · exact h1
          · exact ih _ _ h1
        · exact ih _ _ h

theorem searchInDirectory_foundResults (P : Platform) (criteria : SearchCriteria)
    (env : RunEnv) (path : QString) :
    foundResults (searchInDirectory P criteria env path { results := [], events := [] }).events
      = (searchInDirectory P criteria env path { results := [], events := [] }).results := by
  unfold searchInDirectory
  split
  · rfl
  · exact searchLoop_foundResults P criteria env _ 0 _ rfl

theorem searchInDirectory_results_accepted (P : Platform) (criteria : SearchCriteria)
    (env : RunEnv) (path : QString) :
    ∀ r ∈ (searchInDirectory P criteria env path { results := [], events := [] }).results,
      accepts P criteria r.fileInfo = true := by
  unfold searchInDirectory
  split
  · intro r hr; simp at hr
  · exact searchLoop_results_accepted P criteria env _ 0 _ (by intro r hr; simp at hr)

/-- The `resultFound` signals of the worker carry exactly the walked
buffer. -/
theorem foundResults_performSearch (P : Platform) (criteria : SearchCriteria) (env : RunEnv) :
    foundResults (performSearch P criteria env).events
      = (searchInDirectory P criteria env (resolveSearchPath env criteria)
          { results := [], events := [] }).results := by
  simp only [performSearch, foundResults_append, searchInDirectory_foundResults, foundResults,
    List.append_nil]

/-- On a platform whose sort meets its contract, every completed result is a
buffered result. -/
theorem finalResults_subset_buffer (P : Platform) (h : P.SortConforms)
    (criteria : SearchCriteria) (env : RunEnv) :
    ∀ r ∈ finalResults P criteria env,
      r ∈ (searchInDirectory P criteria env (resolveSearchPath env criteria)
          { results := [], events := [] }).results := by
  intro r hr
  have h1 := (finalResults_sublist P criteria env).subset hr
  exact (List.Perm.mem_iff (h scoreGreater _ strictWeakOrder_scoreGreater).1).mp h1

theorem matchesFilters_size_le (P : Platform) (entry : FileEntry) (criteria : SearchCriteria)
    (hs : criteria.useSizeFilter = true) (hmax : 0 < criteria.maxSize)
    (h : matchesFilters P entry criteria = true) : entry.size ≤ criteria.maxSize := by
  by_contra hgt
  have hgt1 : entry.size > criteria.maxSize := not_le.mp hgt
  simp [matchesFilters, hs, hmax, hgt1] at h

/-! ## Claims C14 and C15: the convenience entry points -/

/-- C14: for the criteria built by `searchBySizeRange(minSize, maxSize, root)`
with `maxSize > 0`, on every platform whose `std::sort` meets its contract and
for every run, `matchesFilters` rejects every entry larger than `maxSize`,
whatever its name, and no such entry is carried by a `resultFound` signal or
by the completed list. -/
theorem sizeRange_excludes_larger_files (P : Platform) (h : P.SortConforms) (env : RunEnv)
    (minSize maxSize : Int) (root : QString) (hmax : 0 < maxSize) :
    (∀ entry : FileEntry, entry.size > maxSize →
        matchesFilters P entry (searchBySizeRange minSize maxSize root) = false)
    ∧ (∀ r ∈ foundResults (performSearch P (searchBySizeRange minSize maxSize root) env).events,
        r.fileInfo.size ≤ maxSize)
    ∧ (∀ rs ∈ completedLists (performSearch P (searchBySizeRange minSize maxSize root) env).events,
        ∀ r ∈ rs, r.fileInfo.size ≤ maxSize) := by
  have hbuf : ∀ r ∈ (searchInDirectory P (searchBySizeRange minSize maxSize root) env
      (resolveSearchPath env (searchBySizeRange minSize maxSize root))
      { results := [], events := [] }).results, r.fileInfo.size ≤ maxSize := by
    intro r hr
    have ha := searchInDirectory_results_accepted P _ env _ r hr
    have hf : matchesFilters P r.fileInfo (searchBySizeRange minSize maxSize root) = true := by
      simp only [accepts, Bool.and_eq_true] at ha
      exact ha.1
    exact matchesFilters_size_le P r.fileInfo _ rfl hmax hf
  refine ⟨?_, ?_, ?_⟩
  · intro entry hgt
    cases hm : matchesFilters P entry (searchBySizeRange minSize maxSize root) with
    | false => rfl
    | true =>
      have hle := matchesFilters_size_le P entry _ rfl hmax hm
      exact absurd hgt (not_lt.mpr hle)
  · intro r hr
    rw [foundResults_performSearch] at hr
    exact hbuf r hr
  · intro rs hrs r hr
    rw [completedLists_performSearch] at hrs
    have hrs1 : rs = finalResults P (searchBySizeRange minSize maxSize root) env := by
      simpa using hrs
    rw [hrs1] at hr
    exact hbuf r (finalResults_subset_buffer P h _ env r hr)

/-- C14 on the reference platform: `searchBySizeRange(0, 1024, "/r")` over a
file of 2000 bytes and a file of 10 bytes. -/
theorem sizeRange_excludes_larger_files_witness :
    (∀ entry : FileEntry, entry.size > 1024 →
        matchesFilters refPlatform entry (searchBySizeRange 0 1024 "/r".toList) = false)
    ∧ (∀ r ∈ foundResults (performSearch refPlatform (searchBySizeRange 0 1024 "/r".toList)
          (sampleEnv [sizedEntry "big.txt" 2000, sizedEntry "small.txt" 10] none 100)).events,
        r.fileInfo.size ≤ 1024)
    ∧ (∀ rs ∈ completedLists (performSearch refPlatform (searchBySizeRange 0 1024 "/r".toList)
          (sampleEnv [sizedEntry "big.txt" 2000, sizedEntry "small.txt" 10] none 100)).events,
        ∀ r ∈ rs, r.fileInfo.size ≤ 1024) :=
  sizeRange_excludes_larger_files refPlatform refPlatform_sortConforms
    (sampleEnv [sizedEntry "big.txt" 2000, sizedEntry "small.txt" 10] none 100)
    0 1024 "/r".toList (by decide)

/-- C15, evaluated: the convenience entry points store the base path in
`customPath` but leave `scope` at its default `CurrentDirectory`, so
`performSearch` resolves the current directory and never reads `customPath`.
With current directory `/r`, `searchBySizeRange(0, 1024, "/data")` walks `/r`;
the same holds for the six other entry points, for every base path. Only the
overload `search(query, basePath)` sets `scope = CustomPath` and resolves the
base path. -/
theorem convenience_searches_ignore_base_path :
    resolveSearchPath (sampleEnv [] none 100) (searchBySizeRange 0 1024 "/data".toList)
        = "/r".toList
    ∧ (∀ (env : RunEnv) (root : QString) (minSize maxSize : Int) (text : QString)
          (dateFrom dateTo : QDateTime) (types : QStringList),
        resolveSearchPath env (searchBySizeRange minSize maxSize root) = env.currentPath
        ∧ resolveSearchPath env (searchByName text root) = env.currentPath
        ∧ resolveSearchPath env (searchByContent text root) = env.currentPath
        ∧ resolveSearchPath env (searchByRegex text root) = env.currentPath
        ∧ resolveSearchPath env (fuzzySearch text root) = env.currentPath
        ∧ resolveSearchPath env (searchByDateRange dateFrom dateTo root) = env.currentPath
        ∧ resolveSearchPath env (searchByType types root) = env.currentPath)
    ∧ (∀ (env : RunEnv) (query root : QString), root ≠ [] →
        resolveSearchPath env (searchQuery query root) = root) := by
  refine ⟨by decide, ?_, ?_⟩
  · intro env root minSize maxSize text dateFrom dateTo types
    exact ⟨rfl, rfl, rfl, rfl, rfl, rfl, rfl⟩
  · intro env query root hroot
    have he : root.isEmpty = false := by cases root <;> simp_all
    simp [resolveSearchPath, searchQuery, he]

/-! ## Claims C16 and C17: the exclude patterns and the type filter -/

/-- The exclude patterns are the last test of `matchesFilters`: the function
accepts exactly when it accepts without them and no pattern is found in the
folded file name. -/
theorem matchesFilters_exclude_split (P : Platform) (entry : FileEntry)
    (criteria : SearchCriteria) :
    matchesFilters P entry criteria
      = (matchesFilters P entry { criteria with excludePatterns := [] }
          && !criteria.excludePatterns.any
              (fun pattern => qContains (P.foldCase entry.fileName) (P.foldCase pattern))) := by
  simp only [matchesFilters, List.any_nil]
  split_ifs <;> simp_all

/-- The type filter is one test of `matchesFilters`: the function accepts
exactly when it accepts with an empty type list and the type list is empty or
the type loop finds a match. -/
theorem matchesFilters_type_split (P : Platform) (entry : FileEntry)
    (criteria : SearchCriteria) :
    matchesFilters P entry criteria
      = (matchesFilters P entry { criteria with fileTypes := [] }
          && (criteria.fileTypes.isEmpty
              || matchesTypeLoop P (P.toLower entry.suffix) criteria.fileTypes)) := by
  simp only [matchesFilters, List.isEmpty_nil]
  cases hE : criteria.fileTypes.isEmpty <;> split_ifs <;> simp_all

theorem lookup_eq_some_iff_mem_keys {β : Type} (table : List (QString × β)) (t : QString) :
    (∃ v, table.lookup t = some v) ↔ t ∈ table.map Prod.fst := by
  induction table with
  | nil =>
    simp only [List.lookup, List.map_nil, List.not_mem_nil, iff_false, not_exists]
    intro v h
    cases h
  | cons kv rest ih =>
    obtain ⟨k, v⟩ := kv
    rw [List.map_cons, List.mem_cons, ← ih]
    by_cases h : t = k
    · subst h
      simp only [List.lookup, beq_self_eq_true, true_or, iff_true]
      exact ⟨v, rfl⟩
    · have hb : (t == k) = false := beq_false_of_ne h
      simp only [List.lookup, hb, h, false_or]

theorem matchesTypeLoop_iff (P : Platform) (extension : QString) (types : QStringList) :
    matchesTypeLoop P extension types = true
      ↔ ∃ t ∈ types,
          (∃ extensions, fileTypeExtensions.lookup t = some extensions ∧ extension ∈ extensions)
          ∨ (fileTypeExtensions.lookup t = none ∧ P.toLower t = extension) := by
  induction types with
  | nil => simp [matchesTypeLoop]
  | cons t rest ih =>
    simp only [matchesTypeLoop, List.mem_cons, exists_eq_or_imp]
    cases hl : fileTypeExtensions.lookup t with
    | none =>
      by_cases he : P.toLower t = extension
      · simp [he]
      · simp [he, ih]
    | some extensions =>
      by_cases hm : extension ∈ extensions
      · simp [hm]
      · simp [hm, ih]

/-- C16: for every candidate and criteria that pass the size, date and type
filters (`matchesFilters` accepts once the exclude patterns are removed),
`matchesFilters` returns false exactly when some string of
`criteria.excludePatterns` occurs as a substring of the file name, both taken
through the library's case folding; with no such pattern it returns true. -/
theorem matchesFilters_exclude_patterns (P : Platform) (entry : FileEntry)
    (criteria : SearchCriteria)
    (hpass : matchesFilters P entry { criteria with excludePatterns := [] } = true) :
    (matchesFilters P entry criteria = false
      ↔ ∃ pattern ∈ criteria.excludePatterns, ∃ before after,
          P.foldCase entry.fileName = before ++ P.foldCase pattern ++ after)
    ∧ ((¬ ∃ pattern ∈ criteria.excludePatterns, ∃ before after,
          P.foldCase entry.fileName = before ++ P.foldCase pattern ++ after)
        → matchesFilters P entry criteria = true) := by
  have hiff : matchesFilters P entry criteria = false
      ↔ ∃ pattern ∈ criteria.excludePatterns, ∃ before after,
          P.foldCase entry.fileName = before ++ P.foldCase pattern ++ after := by
    rw [matchesFilters_exclude_split, hpass]
    simp only [Bool.true_and, Bool.not_eq_false_eq_eq_true, List.any_eq_true, qContains_iff]
  refine ⟨hiff, ?_⟩
  intro hno
  cases hm : matchesFilters P entry criteria with
  | true => rfl
  | false => exact absurd (hiff.mp hm) hno

/-- C16 on the reference platform: `Report.TMP` with the exclude pattern
`tmp`. -/
theorem matchesFilters_exclude_patterns_witness :
    (matchesFilters refPlatform (sampleEntry "Report.TMP" 100)
        { defaultCriteria with excludePatterns := ["tmp".toList] } = false
      ↔ ∃ pattern ∈ ({ defaultCriteria with
            excludePatterns := ["tmp".toList] } : SearchCriteria).excludePatterns,
          ∃ before after, refPlatform.foldCase (sampleEntry "Report.TMP" 100).fileName
            = before ++ refPlatform.foldCase pattern ++ after)
    ∧ ((¬ ∃ pattern ∈ ({ defaultCriteria with
            excludePatterns := ["tmp".toList] } : SearchCriteria).excludePatterns,
          ∃ before after, refPlatform.foldCase (sampleEntry "Report.TMP" 100).fileName
            = before ++ refPlatform.foldCase pattern ++ after)
        → matchesFilters refPlatform (sampleEntry "Report.TMP" 100)
            { defaultCriteria with excludePatterns := ["tmp".toList] } = true) :=
  matchesFilters_exclude_patterns refPlatform (sampleEntry "Report.TMP" 100)
    { defaultCriteria with excludePatterns := ["tmp".toList] } (by decide)

/-- C17: the keys of the type table are `images`, `documents`, `videos`,
`audio` and `archives`; for every candidate with lowercased extension `e`,
`matchesFilters` accepts exactly when it accepts with an empty `fileTypes` and
either `fileTypes` is empty or some listed type `t` is a table key whose
extension list holds `e`, or is no table key and `toLower(t) = e`. -/
theorem matchesFilters_type_filter :
    (∀ t : QString, (∃ extensions, fileTypeExtensions.lookup t = some extensions)
        ↔ t ∈ ["images", "documents", "videos", "audio", "archives"].map String.toList)
    ∧ (∀ (P : Platform) (entry : FileEntry) (criteria : SearchCriteria),
        matchesFilters P entry criteria = true
          ↔ (matchesFilters P entry { criteria with fileTypes := [] } = true
              ∧ (criteria.fileTypes = []
                ∨ ∃ t ∈ criteria.fileTypes,
                    (∃ extensions, fileTypeExtensions.lookup t = some extensions
                        ∧ P.toLower entry.suffix ∈ extensions)
                    ∨ (fileTypeExtensions.lookup t = none
                        ∧ P.toLower t = P.toLower entry.suffix)))) := by
  constructor
  · intro t
    rw [lookup_eq_some_iff_mem_keys]
    rfl
  · intro P entry criteria
    rw [matchesFilters_type_split]
    simp only [Bool.and_eq_true, Bool.or_eq_true, List.isEmpty_iff, matchesTypeLoop_iff]

/-- C17 on the reference platform: a file with suffix `JPG` passes the type
list `images`. -/
theorem matchesFilters_type_filter_witness :
    matchesFilters refPlatform { sampleEntry "photo.JPG" 100 with suffix := "JPG".toList }
        { defaultCriteria with fileTypes := ["images".toList] } = true
      ↔ (matchesFilters refPlatform { sampleEntry "photo.JPG" 100 with suffix := "JPG".toList }
            { defaultCriteria with fileTypes := [] } = true
          ∧ (({ defaultCriteria with fileTypes := ["images".toList] } : SearchCriteria).fileTypes
                = []
            ∨ ∃ t ∈ ({ defaultCriteria with
                  fileTypes := ["images".toList] } : SearchCriteria).fileTypes,
                (∃ extensions, fileTypeExtensions.lookup t = some extensions
                    ∧ refPlatform.toLower "JPG".toList ∈ extensions)
                ∨ (fileTypeExtensions.lookup t = none
                    ∧ refPlatform.toLower t = refPlatform.toLower "JPG".toList))) :=
  matchesFilters_type_filter.2 refPlatform
    { sampleEntry "photo.JPG" 100 with suffix := "JPG".toList }
    { defaultCriteria with fileTypes := ["images".toList] }

/-! ## Claim C18: what the loop buffers -/

theorem searchLoop_results_extend (P : Platform) (criteria : SearchCriteria) (env : RunEnv)
    (walk : List FileEntry) (k : Nat) (st : WalkState) :
    st.results <+: (searchLoop P criteria env k walk st).results := by
  induction walk generalizing k st with
  | nil => exact List.prefix_refl _
  | cons entry rest ih =>
    simp only [searchLoop]
    split
    · exact List.prefix_refl _
    · split
      · exact ih _ _
      · split
        · split
          · exact List.prefix_append _ _
          · exact (List.prefix_append st.results _).trans
              (ih (k + 1)
                { results := st.results
                    ++ [makeResult P (env.clock k) criteria entry (primaryMatch P criteria entry).2],
                  events := st.events
                    ++ [Event.resultFound
                      (makeResult P (env.clock k) criteria entry
                        (primaryMatch P criteria entry).2)] })
        · exact ih _ _

/-- An accepted entry is buffered when the loop reaches it: the flag reads
clear up to its loop check and fewer than `maxResults` results are held when
it is examined. -/
theorem searchLoop_buffers_accepted (P : Platform) (criteria : SearchCriteria) (env : RunEnv)
    (walk : List FileEntry) (k i : Nat) (st : WalkState) (entry : FileEntry)
    (hi : walk[i]? = some entry)
    (hc : ∀ j, j ≤ i → env.cancelled (k + j + 1) = false)
    (ha : accepts P criteria entry = true)
    (hroom : ((st.results.length + acceptedCount P criteria (walk.take i) : Nat) : Int)
      < criteria.maxResults) :
    makeResult P (env.clock (k + i)) criteria entry (primaryMatch P criteria entry).2
      ∈ (searchLoop P criteria env k walk st).results := by
  induction walk generalizing k i st with
  | nil => simp at hi
  | cons e rest ih =>
    have hc0 : env.cancelled (k + 1) = false := by simpa using hc 0 (Nat.zero_le _)
    cases i with
    | zero =>
      have he : e = entry := by simpa using hi
      subst he
      simp only [accepts, Bool.and_eq_true] at ha
      simp only [searchLoop, hc0, ha.1, ha.2, Bool.false_eq_true, if_false, Bool.not_true,
        if_true, Nat.add_zero]
      split
      · simp
      · exact (searchLoop_results_extend P criteria env rest (k + 1) _).subset (by simp)
    | succ i =>
      have hi1 : rest[i]? = some entry := by simpa using hi
      have hc1 : ∀ j, j ≤ i → env.cancelled (k + 1 + j + 1) = false := by
        intro j hj
        have := hc (j + 1) (by omega)
        rwa [show k + (j + 1) + 1 = k + 1 + j + 1 by omega] at this
      have hidx : k + (i + 1) = k + 1 + i := by omega
      rw [hidx]
      simp only [List.take_succ_cons, acceptedCount, List.countP_cons] at hroom
      simp only [searchLoop, hc0, Bool.false_eq_true, if_false]
      by_cases hf : matchesFilters P e criteria = true
      · by_cases hp : (primaryMatch P criteria e).1 = true
        · have hae : accepts P criteria e = true := by simp [accepts, hf, hp]
          simp only [hae, if_true] at hroom
          simp only [hf, hp, Bool.not_true, Bool.false_eq_true, if_false, if_true]
          have hnot : ¬ ((↑(st.results
              ++ [makeResult P (env.clock k) criteria e (primaryMatch P criteria e).2]).length : Int)
              ≥ criteria.maxResults) := by
            simp only [List.length_append, List.length_singleton]
            push_cast at hroom ⊢
            omega
          simp only [hnot, decide_False, Bool.false_eq_true, if_false]
          apply ih (k + 1) i _ hi1 hc1
          simp only [List.length_append, List.length_singleton, acceptedCount]
          push_cast at hroom ⊢
          omega
        · have hae : accepts P criteria e = false := by simp [accepts, hp]
          simp only [hae, Bool.false_eq_true, if_false, Nat.add_zero] at hroom
          simp only [hf, hp, Bool.not_true, Bool.false_eq_true, if_false]
          exact ih (k + 1) i _ hi1 hc1 (by simpa [acceptedCount] using hroom)
      · have hf1 : matchesFilters P e criteria = false := by simpa using hf
        have hae : accepts P criteria e = false := by simp [accepts, hf1]
        simp only [hae, Bool.false_eq_true, if_false, Nat.add_zero] at hroom
        simp only [hf1, Bool.not_false, if_true]
        exact ih (k + 1) i _ hi1 hc1 (by simpa [acceptedCount] using hroom)

/-- C18: for every walked entry that the loop reaches with the run not
cancelled (the flag reads clear at every load up to the loop check of the
entry) and with fewer than `maxResults` results buffered (the accepted entries
walked before it), `searchInDirectory` buffers the entry, and emits
`resultFound` for it, if and only if `matchesFilters` accepts it and the one
primary matcher chosen by `criteria.type` accepts it: `matchesFileName` for
`FileNameSearch` and for every type without a case of its own,
`matchesContent` for `ContentSearch`, `matchesMetadata` for `MetadataSearch`,
`fuzzyMatch` for `FuzzySearch`, the regex test for `RegexSearch`. -/
theorem searchInDirectory_buffers_iff_accepted (P : Platform) (criteria : SearchCriteria)
    (env : RunEnv) (i : Nat) (entry : FileEntry)
    (hi : (walkOf env criteria)[i]? = some entry)
    (hcancel : ∀ j, j ≤ i + 1 → env.cancelled j = false)
    (hroom : (acceptedCount P criteria ((walkOf env criteria).take i) : Int)
      < criteria.maxResults) :
    ((∃ r ∈ (searchInDirectory P criteria env (resolveSearchPath env criteria)
          { results := [], events := [] }).results, r.fileInfo = entry)
        ↔ accepts P criteria entry = true)
    ∧ ((∃ r ∈ foundResults (searchInDirectory P criteria env (resolveSearchPath env criteria)
          { results := [], events := [] }).events, r.fileInfo = entry)
        ↔ accepts P criteria entry = true)
    ∧ (accepts P criteria entry = true →
        makeResult P (env.clock i) criteria entry (primaryMatch P criteria entry).2
          ∈ (searchInDirectory P criteria env (resolveSearchPath env criteria)
              { results := [], events := [] }).results)
    ∧ accepts P criteria entry
        = (matchesFilters P entry criteria
            && (match criteria.type with
              | SearchType.FileNameSearch => matchesFileName P entry.fileName criteria
              | SearchType.ContentSearch => (matchesContent P entry criteria []).1
              | SearchType.MetadataSearch => matchesMetadata entry criteria
              | SearchType.FuzzySearch =>
                fuzzyMatch P criteria.query entry.fileName defaultFuzzyThreshold
              | SearchType.RegexSearch => P.regexHasMatch criteria.query entry.fileName
              | _ => matchesFileName P entry.fileName criteria)) := by
  have hreach : accepts P criteria entry = true →
      makeResult P (env.clock i) criteria entry (primaryMatch P criteria entry).2
        ∈ (searchInDirectory P criteria env (resolveSearchPath env criteria)
            { results := [], events := [] }).results := by
    intro ha
    have h0 : env.cancelled 0 = false := hcancel 0 (Nat.zero_le _)
    have hloop := searchLoop_buffers_accepted P criteria env (walkOf env criteria) 0 i
      { results := [], events := [] } entry hi
      (fun j hj => by simpa using hcancel (j + 1) (by omega)) ha
      (by simpa using hroom)
    simp only [searchInDirectory, h0, Bool.false_eq_true, if_false]
    simpa [walkOf] using hloop
  have hiff : (∃ r ∈ (searchInDirectory P criteria env (resolveSearchPath env criteria)
        { results := [], events := [] }).results, r.fileInfo = entry)
      ↔ accepts P criteria entry = true := by
    constructor
    · rintro ⟨r, hr, hre⟩
      rw [← hre]
      exact searchInDirectory_results_accepted P criteria env _ r hr
    · intro ha
      exact ⟨_, hreach ha, rfl⟩
  refine ⟨hiff, ?_, hreach, ?_⟩
  · rw [searchInDirectory_foundResults]; exact hiff
  · simp only [accepts, primaryMatch]
    cases criteria.type <;> rfl

/-- C18 on the reference platform: the third entry of a walk `a1.txt`,
`b.txt`, `a2.txt` for the query `a`. -/
theorem searchInDirectory_buffers_iff_accepted_witness :
    ((∃ r ∈ (searchInDirectory refPlatform (nameCriteria "a" 10)
          (sampleEnv [sampleEntry "a1.txt" 100, sampleEntry "b.txt" 100,
            sampleEntry "a2.txt" 100] none 100)
          (resolveSearchPath (sampleEnv [sampleEntry "a1.txt" 100, sampleEntry "b.txt" 100,
            sampleEntry "a2.txt" 100] none 100) (nameCriteria "a" 10))
          { results := [], events := [] }).results, r.fileInfo = sampleEntry "a2.txt" 100)
        ↔ accepts refPlatform (nameCriteria "a" 10) (sampleEntry "a2.txt" 100) = true)
    ∧ ((∃ r ∈ foundResults (searchInDirectory refPlatform (nameCriteria "a" 10)
          (sampleEnv [sampleEntry "a1.txt" 100, sampleEntry "b.txt" 100,
            sampleEntry "a2.txt" 100] none 100)
          (resolveSearchPath (sampleEnv [sampleEntry "a1.txt" 100, sampleEntry "b.txt" 100,
            sampleEntry "a2.txt" 100] none 100) (nameCriteria "a" 10))
          { results := [], events := [] }).events, r.fileInfo = sampleEntry "a2.txt" 100)
        ↔ accepts refPlatform (nameCriteria "a" 10) (sampleEntry "a2.txt" 100) = true)
    ∧ (accepts refPlatform (nameCriteria "a" 10) (sampleEntry "a2.txt" 100) = true →
        makeResult refPlatform
            ((sampleEnv [sampleEntry "a1.txt" 100, sampleEntry "b.txt" 100,
              sampleEntry "a2.txt" 100] none 100).clock 2)
            (nameCriteria "a" 10) (sampleEntry "a2.txt" 100)
            (primaryMatch refPlatform (nameCriteria "a" 10) (sampleEntry "a2.txt" 100)).2
          ∈ (searchInDirectory refPlatform (nameCriteria "a" 10)
              (sampleEnv [sampleEntry "a1.txt" 100, sampleEntry "b.txt" 100,
                sampleEntry "a2.txt" 100] none 100)
              (resolveSearchPath (sampleEnv [sampleEntry "a1.txt" 100, sampleEntry "b.txt" 100,
                sampleEntry "a2.txt" 100] none 100) (nameCriteria "a" 10))
              { results := [], events := [] }).results)
    ∧ accepts refPlatform (nameCriteria "a" 10) (sampleEntry "a2.txt" 100)
        = (matchesFilters refPlatform (sampleEntry "a2.txt" 100) (nameCriteria "a" 10)
            && (match (nameCriteria "a" 10).type with
              | SearchType.FileNameSearch =>
                matchesFileName refPlatform (sampleEntry "a2.txt" 100).fileName
                  (nameCriteria "a" 10)
              | SearchType.ContentSearch =>
                (matchesContent refPlatform (sampleEntry "a2.txt" 100) (nameCriteria "a" 10) []).1
              | SearchType.MetadataSearch =>
                matchesMetadata (sampleEntry "a2.txt" 100) (nameCriteria "a" 10)
              | SearchType.FuzzySearch =>
                fuzzyMatch refPlatform (nameCriteria "a" 10).query
                  (sampleEntry "a2.txt" 100).fileName defaultFuzzyThreshold
              | SearchType.RegexSearch =>
                refPlatform.regexHasMatch (nameCriteria "a" 10).query
                  (sampleEntry "a2.txt" 100).fileName
              | _ =>
                matchesFileName refPlatform (sampleEntry "a2.txt" 100).fileName
                  (nameCriteria "a" 10))) :=
  searchInDirectory_buffers_iff_accepted refPlatform (nameCriteria "a" 10)
    (sampleEnv [sampleEntry "a1.txt" 100, sampleEntry "b.txt" 100,
      sampleEntry "a2.txt" 100] none 100) 2 (sampleEntry "a2.txt" 100)
    (by decide) (fun _ _ => rfl) (by decide)

/-! ## Claims C19 and C20: `isBinaryFile` and `matchesContent` -/

theorem contains_zero_take_iff (data : List Nat) (n : Nat) :
    (data.take n).contains 0 = true ↔ ∃ i, i < n ∧ data[i]? = some 0 := by
  have hmem : (data.take n).contains 0 = true ↔ 0 ∈ data.take n := by simp
  rw [hmem, List.mem_iff_getElem?]
  constructor
  · rintro ⟨i, hi⟩
    rw [List.getElem?_take] at hi
    split at hi
    · rename_i hlt; exact ⟨i, hlt, hi⟩
    · cases hi
  · rintro ⟨i, hlt, hi⟩
    exact ⟨i, by rw [List.getElem?_take, if_pos hlt]; exact hi⟩

/-- C19: for every readable file, `isBinaryFile` returns true exactly when a
zero byte occurs at an offset below 1024 (a file whose only zero byte is at
offset 1024 is not binary, one with a zero byte at offset 1023 is); and with
`includeBinaryFiles = false`, for every file classified binary,
`matchesContent` returns false and leaves `matchedLines` as it was. -/
theorem isBinaryFile_first_1024_bytes :
    (∀ (entry : FileEntry) (data : List Nat), entry.bytes = some data →
        (isBinaryFile entry = true ↔ ∃ i, i < 1024 ∧ data[i]? = some 0))
    ∧ isBinaryFile (contentEntry "f.bin" (List.replicate 1024 65 ++ [0])) = false
    ∧ isBinaryFile (contentEntry "f.bin" (List.replicate 1023 65 ++ [0])) = true
    ∧ (∀ (P : Platform) (entry : FileEntry) (criteria : SearchCriteria)
          (matchedLines : QStringList),
        criteria.includeBinaryFiles = false → isBinaryFile entry = true →
        matchesContent P entry criteria matchedLines = (false, matchedLines)) := by
  refine ⟨?_, by decide!, by decide!, ?_⟩
  · intro entry data hdata
    simp only [isBinaryFile, hdata]
    exact contains_zero_take_iff data 1024
  · intro P entry criteria matchedLines hinc hbin
    simp [matchesContent, hinc, hbin]

/-- C19 on a readable file with a zero byte at offset 2. -/
theorem isBinaryFile_first_1024_bytes_witness :
    isBinaryFile (contentEntry "f.bin" [65, 66, 0, 67]) = true
      ↔ ∃ i, i < 1024 ∧ [65, 66, 0, 67][i]? = some 0 :=
  isBinaryFile_first_1024_bytes.1 (contentEntry "f.bin" [65, 66, 0, 67]) [65, 66, 0, 67] rfl

/-- The collecting loop started with fewer than ten lines held: it appends
the trimmed matching lines, in order, until ten are held. -/
theorem collectMatchedLines_eq (P : Platform) (criteria : SearchCriteria) (query : QString)
    (lines : List QString) (matchedLines : QStringList) (h : matchedLines.length < 10) :
    collectMatchedLines P criteria query lines matchedLines
      = matchedLines
        ++ ((lines.filter (fun line =>
              qContains (if criteria.caseSensitive then line else P.toLower line) query)).take
            (10 - matchedLines.length)).map (trimmed P) := by
  induction lines generalizing matchedLines with
  | nil => simp [collectMatchedLines]
  | cons line rest ih =>
    simp only [collectMatchedLines]
    by_cases hc : qContains (if criteria.caseSensitive then line else P.toLower line) query = true
    · simp only [hc, if_true, List.filter_cons_of_pos]
      by_cases hfull : ((matchedLines ++ [trimmed P line]).length : Int) ≥ 10
      · have hlen : matchedLines.length = 9 := by
          simp only [List.length_append, List.length_singleton] at hfull
          push_cast at hfull
          omega
        simp [hfull, hlen]
      · have hlen : matchedLines.length + 1 < 10 := by
          simp only [List.length_append, List.length_singleton] at hfull
          push_cast at hfull
          omega
        simp only [hfull, decide_False, Bool.false_eq_true, if_false]
        rw [ih _ (by simpa using hlen)]
        have h10 : 10 - matchedLines.length = (10 - (matchedLines.length + 1)) + 1 := by omega
        rw [h10, List.take_succ_cons]
        simp
    · have hc1 : qContains (if criteria.caseSensitive then line else P.toLower line) query
          = false := by simpa using hc
      simp only [hc1, Bool.false_eq_true, if_false]
      rw [ih _ h, List.filter_cons_of_neg (by simpa using hc1)]

/-- C20: when `matchesContent`, called with an empty `matchedLines`, returns
true, the file was readable and the list it leaves has at most 10 entries and
is exactly the trimmed text of the first up-to-10 lines of the decoded
content, in file order, that contain the query (line and query lowercased
when `caseSensitive = false`). -/
theorem matchesContent_matched_lines (P : Platform) (entry : FileEntry)
    (criteria : SearchCriteria) (h : (matchesContent P entry criteria []).1 = true) :
    ∃ data, entry.bytes = some data
      ∧ (matchesContent P entry criteria []).2
          = ((((P.readAllText data).splitOn (Char.ofNat 10)).filter (fun line =>
                qContains (if criteria.caseSensitive then line else P.toLower line)
                  (if criteria.caseSensitive then criteria.query
                    else P.toLower criteria.query))).take 10).map (trimmed P)
      ∧ (matchesContent P entry criteria []).2.length ≤ 10 := by
  cases hb : entry.bytes with
  | none => simp [matchesContent, hb] at h
  | some data =>
    have hq : (if (!criteria.caseSensitive) = true then P.toLower criteria.query
        else criteria.query)
        = (if criteria.caseSensitive then criteria.query else P.toLower criteria.query) := by
      cases criteria.caseSensitive <;> rfl
    have hlines : (matchesContent P entry criteria []).2
        = ((((P.readAllText data).splitOn (Char.ofNat 10)).filter (fun line =>
              qContains (if criteria.caseSensitive then line else P.toLower line)
                (if criteria.caseSensitive then criteria.query
                  else P.toLower criteria.query))).take 10).map (trimmed P) := by
      have hcollect : (matchesContent P entry criteria []).2
          = collectMatchedLines P criteria
              (if criteria.caseSensitive then criteria.query else P.toLower criteria.query)
              ((P.readAllText data).splitOn (Char.ofNat 10)) [] := by
        simp only [matchesContent, hb, hq] at h ⊢
        split_ifs at h ⊢ <;> rfl
      rw [hcollect, collectMatchedLines_eq P criteria _ _ [] (by decide)]
      simp
    refine ⟨data, rfl, hlines, ?_⟩
    rw [hlines, List.length_map, List.length_take]
    exact Nat.min_le_left _ _

/-- C20 on the reference platform: a text file with two lines that contain
`report`, case-insensitive, around one that does not. -/
theorem matchesContent_matched_lines_witness :
    ∃ data, (contentEntry "notes.txt"
          (asciiBytes "Report one\nnothing here\n  second report  \n")).bytes = some data
      ∧ (matchesContent refPlatform (contentEntry "notes.txt"
            (asciiBytes "Report one\nnothing here\n  second report  \n"))
          (searchByContent "report".toList "/r".toList) []).2
          = ((((refPlatform.readAllText data).splitOn (Char.ofNat 10)).filter (fun line =>
                qContains
                  (if (searchByContent "report".toList "/r".toList).caseSensitive then line
                    else refPlatform.toLower line)
                  (if (searchByContent "report".toList "/r".toList).caseSensitive then
                      (searchByContent "report".toList "/r".toList).query
                    else refPlatform.toLower
                      (searchByContent "report".toList "/r".toList).query))).take 10).map
              (trimmed refPlatform)
      ∧ (matchesContent refPlatform (contentEntry "notes.txt"
            (asciiBytes "Report one\nnothing here\n  second report  \n"))
          (searchByContent "report".toList "/r".toList) []).2.length ≤ 10 :=
  matchesContent_matched_lines refPlatform
    (contentEntry "notes.txt" (asciiBytes "Report one\nnothing here\n  second report  \n"))
    (searchByContent "report".toList "/r".toList) (by decide)

/-! ## Claim C28: the buffer of an uncancelled run -/

theorem acceptedResults_length (P : Platform) (criteria : SearchCriteria) (env : RunEnv)
    (k : Nat) (walk : List FileEntry) :
    (acceptedResults P criteria env k walk).length = acceptedCount P criteria walk := by
  induction walk generalizing k with
  | nil => rfl
  | cons entry rest ih =>
    simp only [acceptedResults, acceptedCount, List.countP_cons]
    split
    · rename_i ha
      simp only [List.length_cons, ha, if_true]
      rw [ih]; rfl
    · rename_i ha
      simp only [ha, Bool.false_eq_true, if_false, Nat.add_zero]
      rw [ih]; rfl

/-- The buffer of an uncancelled loop: what was held, then the results of the
accepted entries in walk order, up to `maxResults` in all. -/
theorem searchLoop_uncancelled_results (P : Platform) (criteria : SearchCriteria)
    (env : RunEnv) (walk : List FileEntry) (k : Nat) (st : WalkState)
    (hc : ∀ j, env.cancelled j = false)
    (hroom : (st.results.length : Int) < criteria.maxResults) :
    (searchLoop P criteria env k walk st).results
      = st.results ++ (acceptedResults P criteria env k walk).take
          (criteria.maxResults.toNat - st.results.length) := by
  induction walk generalizing k st with
  | nil => simp [searchLoop, acceptedResults]
  | cons entry rest ih =>
    simp only [searchLoop, hc, Bool.false_eq_true, if_false, acceptedResults, accepts]
    by_cases hf : matchesFilters P entry criteria = true
    · by_cases hp : (primaryMatch P criteria entry).1 = true
      · simp only [hf, hp, Bool.not_true, Bool.false_eq_true, if_false, if_true, Bool.and_self]
        by_cases hfull : ((st.results
            ++ [makeResult P (env.clock k) criteria entry (primaryMatch P criteria entry).2]).length
            : Int) ≥ criteria.maxResults
        · simp only [hfull, decide_True, if_true]
          have hn : criteria.maxResults.toNat - st.results.length = 1 := by
            simp only [List.length_append, List.length_singleton] at hfull
            push_cast at hfull
            omega
          rw [hn]
          simp
        · simp only [hfull, decide_False, Bool.false_eq_true, if_false]
          have hlt : ((st.results
              ++ [makeResult P (env.clock k) criteria entry (primaryMatch P criteria entry).2]).length
              : Int) < criteria.maxResults := not_le.mp hfull
          rw [ih (k + 1) _ hlt]
          have hn : criteria.maxResults.toNat - st.results.length
              = (criteria.maxResults.toNat - (st.results.length + 1)) + 1 := by
            simp only [List.length_append, List.length_singleton] at hlt
            push_cast at hlt
            omega
          rw [hn, List.take_succ_cons]
          simp
      · have hp1 : (primaryMatch P criteria entry).1 = false := by simpa using hp
        simp only [hf, hp1, Bool.not_true, Bool.false_eq_true, if_false, Bool.and_false]
        exact ih (k + 1) st hroom
    · have hf1 : matchesFilters P entry criteria = false := by simpa using hf
      simp only [hf1, Bool.not_false, if_true, Bool.false_and, Bool.false_eq_true, if_false]
      exact ih (k + 1) st hroom

theorem searchInDirectory_uncancelled_results (P : Platform) (criteria : SearchCriteria)
    (env : RunEnv) (hc : ∀ j, env.cancelled j = false) (hmax : 1 ≤ criteria.maxResults) :
    (searchInDirectory P criteria env (resolveSearchPath env criteria)
        { results := [], events := [] }).results
      = (acceptedResults P criteria env 0 (walkOf env criteria)).take
          criteria.maxResults.toNat := by
  simp only [searchInDirectory, hc, Bool.false_eq_true, if_false]
  rw [searchLoop_uncancelled_results P criteria env _ 0 _ hc (by simpa using hmax)]
  simp [walkOf]

/-- C28: for every criteria with `maxResults ≥ 1`, on every platform whose
`std::sort` meets its contract, the completed list of an uncancelled run is a
permutation of the results of the first `min(maxResults, m)` accepted entries
in walk order, `m` being the number of accepted walked entries: the
`resultFound` signals carry exactly those results (collection stops at the
`maxResults`-th match), the completed list is the ranked buffer with nothing
cut off, and a result of a later accepted entry is never returned. -/
theorem completed_is_perm_of_first_accepted (P : Platform) (h : P.SortConforms)
    (criteria : SearchCriteria) (env : RunEnv) (hmax : 1 ≤ criteria.maxResults)
    (hc : ∀ k, env.cancelled k = false) :
    ∃ rs, completedLists (performSearch P criteria env).events = [rs]
      ∧ rs.Perm ((acceptedResults P criteria env 0 (walkOf env criteria)).take
          criteria.maxResults.toNat)
      ∧ (rs.length : Int)
          = min criteria.maxResults (acceptedCount P criteria (walkOf env criteria))
      ∧ foundResults (performSearch P criteria env).events
          = (acceptedResults P criteria env 0 (walkOf env criteria)).take
              criteria.maxResults.toNat
      ∧ rs = rankResults P (foundResults (performSearch P criteria env).events) criteria
      ∧ ∀ r ∈ (acceptedResults P criteria env 0 (walkOf env criteria)).drop
            criteria.maxResults.toNat,
          r ∉ (acceptedResults P criteria env 0 (walkOf env criteria)).take
            criteria.maxResults.toNat → r ∉ rs := by
  have hbuf := searchInDirectory_uncancelled_results P criteria env hc hmax
  have hfound := foundResults_performSearch P criteria env
  rw [hbuf] at hfound
  have hperm := (h scoreGreater ((acceptedResults P criteria env 0 (walkOf env criteria)).take
    criteria.maxResults.toNat) strictWeakOrder_scoreGreater).1
  have hlen : ((acceptedResults P criteria env 0 (walkOf env criteria)).take
      criteria.maxResults.toNat).length ≤ criteria.maxResults.toNat := by
    rw [List.length_take]; exact Nat.min_le_left _ _
  have hfinal : finalResults P criteria env
      = rankResults P ((acceptedResults P criteria env 0 (walkOf env criteria)).take
          criteria.maxResults.toNat) criteria := by
    simp only [finalResults, hbuf]
    have hrl : ¬ (((rankResults P ((acceptedResults P criteria env 0
        (walkOf env criteria)).take criteria.maxResults.toNat) criteria).length : Int)
        > criteria.maxResults) := by
      have := hperm.length_eq
      simp only [rankResults] at this ⊢
      rw [this]
      omega
    rw [if_neg hrl]
  refine ⟨finalResults P criteria env, completedLists_performSearch P criteria env, ?_, ?_,
    hfound, ?_, ?_⟩
  · rw [hfinal]; exact hperm
  · rw [hfinal]
    have := hperm.length_eq
    simp only [rankResults] at this ⊢
    rw [this, List.length_take, acceptedResults_length]
    omega
  · rw [hfinal, hfound]
  · intro r _ hnot hr
    rw [hfinal] at hr
    exact hnot ((List.Perm.mem_iff hperm).mp hr)

/-- C28 on the reference platform: `maxResults = 2` over a walk with three
accepted entries. -/
theorem completed_is_perm_of_first_accepted_witness :
    ∃ rs, completedLists (performSearch refPlatform (nameCriteria "a" 2)
        (sampleEnv [sampleEntry "ba.txt" 100, sampleEntry "x.txt" 100, sampleEntry "a1.txt" 100,
          sampleEntry "a" 100] none 100)).events = [rs]
      ∧ rs.Perm ((acceptedResults refPlatform (nameCriteria "a" 2)
          (sampleEnv [sampleEntry "ba.txt" 100, sampleEntry "x.txt" 100,
            sampleEntry "a1.txt" 100, sampleEntry "a" 100] none 100) 0
          (walkOf (sampleEnv [sampleEntry "ba.txt" 100, sampleEntry "x.txt" 100,
            sampleEntry "a1.txt" 100, sampleEntry "a" 100] none 100) (nameCriteria "a" 2))).take
          (nameCriteria "a" 2).maxResults.toNat)
      ∧ (rs.length : Int)
          = min (nameCriteria "a" 2).maxResults
              (acceptedCount refPlatform (nameCriteria "a" 2)
                (walkOf (sampleEnv [sampleEntry "ba.txt" 100, sampleEntry "x.txt" 100,
                  sampleEntry "a1.txt" 100, sampleEntry "a" 100] none 100) (nameCriteria "a" 2)))
      ∧ foundResults (performSearch refPlatform (nameCriteria "a" 2)
          (sampleEnv [sampleEntry "ba.txt" 100, sampleEntry "x.txt" 100,
            sampleEntry "a1.txt" 100, sampleEntry "a" 100] none 100)).events
          = (acceptedResults refPlatform (nameCriteria "a" 2)
              (sampleEnv [sampleEntry "ba.txt" 100, sampleEntry "x.txt" 100,
                sampleEntry "a1.txt" 100, sampleEntry "a" 100] none 100) 0
              (walkOf (sampleEnv [sampleEntry "ba.txt" 100, sampleEntry "x.txt" 100,
                sampleEntry "a1.txt" 100, sampleEntry "a" 100] none 100)
                (nameCriteria "a" 2))).take (nameCriteria "a" 2).maxResults.toNat
      ∧ rs = rankResults refPlatform (foundResults (performSearch refPlatform
          (nameCriteria "a" 2)
          (sampleEnv [sampleEntry "ba.txt" 100, sampleEntry "x.txt" 100,
            sampleEntry "a1.txt" 100, sampleEntry "a" 100] none 100)).events)
          (nameCriteria "a" 2)
      ∧ ∀ r ∈ (acceptedResults refPlatform (nameCriteria "a" 2)
            (sampleEnv [sampleEntry "ba.txt" 100, sampleEntry "x.txt" 100,
              sampleEntry "a1.txt" 100, sampleEntry "a" 100] none 100) 0
            (walkOf (sampleEnv [sampleEntry "ba.txt" 100, sampleEntry "x.txt" 100,
              sampleEntry "a1.txt" 100, sampleEntry "a" 100] none 100)
              (nameCriteria "a" 2))).drop (nameCriteria "a" 2).maxResults.toNat,
          r ∉ (acceptedResults refPlatform (nameCriteria "a" 2)
            (sampleEnv [sampleEntry "ba.txt" 100, sampleEntry "x.txt" 100,
              sampleEntry "a1.txt" 100, sampleEntry "a" 100] none 100) 0
            (walkOf (sampleEnv [sampleEntry "ba.txt" 100, sampleEntry "x.txt" 100,
              sampleEntry "a1.txt" 100, sampleEntry "a" 100] none 100)
              (nameCriteria "a" 2))).take (nameCriteria "a" 2).maxResults.toNat → r ∉ rs :=
  completed_is_perm_of_first_accepted refPlatform refPlatform_sortConforms (nameCriteria "a" 2)
    (sampleEnv [sampleEntry "ba.txt" 100, sampleEntry "x.txt" 100, sampleEntry "a1.txt" 100,
      sampleEntry "a" 100] none 100) (by decide) (fun _ => rfl)

/-! ## Claim C29: matcher and scorer in plain name mode -/

theorem recencyBonus_bounds (d : Int) : 0 ≤ recencyBonus d ∧ recencyBonus d ≤ 10 := by
  unfold recencyBonus
  split_ifs <;> constructor <;> norm_num

theorem specMatchStrength_of_infix (P : Platform) (q f : QString) (h : q <:+: f) :
    specMatchStrength P q f = 100 ∨ specMatchStrength P q f = 75
      ∨ specMatchStrength P q f = 50 := by
  unfold specMatchStrength
  split_ifs
  · exact Or.inl rfl
  · exact Or.inr (Or.inl rfl)
  · exact Or.inr (Or.inr rfl)

/-- C29: for every criteria with `useRegex = false` and `wholeWords = false`
and every result whose file name `matchesFileName` accepts, the normalized
file name contains the normalized query, so `calculateRelevanceScore` takes
its exact, prefix or substring branch (match strength 100, 75 or 50, never the
fuzzy branch), and the score lies between 50 and 110. -/
theorem plain_match_scores_at_least_50 (P : Platform) (now : QDateTime)
    (result : SearchResult) (criteria : SearchCriteria)
    (hr : criteria.useRegex = false) (hw : criteria.wholeWords = false)
    (hm : matchesFileName P result.fileName criteria = true) :
    (∃ before after,
        (if criteria.caseSensitive then result.fileName else P.toLower result.fileName)
          = before
            ++ (if criteria.caseSensitive then criteria.query else P.toLower criteria.query)
            ++ after)
    ∧ (∃ strength : ℚ, (strength = 100 ∨ strength = 75 ∨ strength = 50)
        ∧ calculateRelevanceScore P now result criteria
          = strength + recencyBonus (result.lastModified.daysTo now))
    ∧ 50 ≤ calculateRelevanceScore P now result criteria
    ∧ calculateRelevanceScore P now result criteria ≤ 110 := by
  have hcontains : qContains
      (if criteria.caseSensitive then result.fileName else P.toLower result.fileName)
      (if criteria.caseSensitive then criteria.query else P.toLower criteria.query) = true := by
    cases hcs : criteria.caseSensitive <;>
      simpa [matchesFileName, hr, hw, hcs] using hm
  have hin := (qContains_iff_isInfix _ _).mp hcontains
  have hstrength : specMatchStrength P
        (if criteria.caseSensitive then criteria.query else P.toLower criteria.query)
        (if criteria.caseSensitive then result.fileName else P.toLower result.fileName) = 100
      ∨ specMatchStrength P
        (if criteria.caseSensitive then criteria.query else P.toLower criteria.query)
        (if criteria.caseSensitive then result.fileName else P.toLower result.fileName) = 75
      ∨ specMatchStrength P
        (if criteria.caseSensitive then criteria.query else P.toLower criteria.query)
        (if criteria.caseSensitive then result.fileName else P.toLower result.fileName) = 50 := by
    exact specMatchStrength_of_infix P _ _ hin
  have hb := recencyBonus_bounds (result.lastModified.daysTo now)
  have hscore := calculateRelevanceScore_eq_spec P now result criteria
  refine ⟨(qContains_iff _ _).mp hcontains, ⟨_, hstrength, hscore⟩, ?_, ?_⟩
  · rw [hscore]
    rcases hstrength with h1 | h1 | h1 <;> rw [h1] <;> linarith [hb.1]
  · rw [hscore]
    rcases hstrength with h1 | h1 | h1 <;> rw [h1] <;> linarith [hb.2]

/-- C29 on the reference platform: `Report.txt` for the query `report`. -/
theorem plain_match_scores_at_least_50_witness :
    (∃ before after,
        (if (nameCriteria "report" 10).caseSensitive then
            (makeResult refPlatform { valid := true, day := 100, msec := 0 }
              (nameCriteria "report" 10) (sampleEntry "Report.txt" 100) []).fileName
          else refPlatform.toLower
            (makeResult refPlatform { valid := true, day := 100, msec := 0 }
              (nameCriteria "report" 10) (sampleEntry "Report.txt" 100) []).fileName)
          = before
            ++ (if (nameCriteria "report" 10).caseSensitive then (nameCriteria "report" 10).query
                else refPlatform.toLower (nameCriteria "report" 10).query)
            ++ after)
    ∧ (∃ strength : ℚ, (strength = 100 ∨ strength = 75 ∨ strength = 50)
        ∧ calculateRelevanceScore refPlatform { valid := true, day := 100, msec := 0 }
            (makeResult refPlatform { valid := true, day := 100, msec := 0 }
              (nameCriteria "report" 10) (sampleEntry "Report.txt" 100) [])
            (nameCriteria "report" 10)
          = strength + recencyBonus
              ((makeResult refPlatform { valid := true, day := 100, msec := 0 }
                (nameCriteria "report" 10) (sampleEntry "Report.txt" 100) []).lastModified.daysTo
                { valid := true, day := 100, msec := 0 }))
    ∧ 50 ≤ calculateRelevanceScore refPlatform { valid := true, day := 100, msec := 0 }
        (makeResult refPlatform { valid := true, day := 100, msec := 0 }
          (nameCriteria "report" 10) (sampleEntry "Report.txt" 100) [])
        (nameCriteria "report" 10)
    ∧ calculateRelevanceScore refPlatform { valid := true, day := 100, msec := 0 }
        (makeResult refPlatform { valid := true, day := 100, msec := 0 }
          (nameCriteria "report" 10) (sampleEntry "Report.txt" 100) [])
        (nameCriteria "report" 10) ≤ 110 :=
  plain_match_scores_at_least_50 refPlatform { valid := true, day := 100, msec := 0 }
    (makeResult refPlatform { valid := true, day := 100, msec := 0 }
      (nameCriteria "report" 10) (sampleEntry "Report.txt" 100) [])
    (nameCriteria "report" 10) rfl rfl (by decide)

/-! ## Claim C30: range and symmetry of the fuzzy score -/

theorem mismatchCount_le_left (a b : QString) : mismatchCount a b ≤ a.length := by
  unfold mismatchCount
  exact (List.countP_le_length _).trans (by rw [List.length_zip]; exact Nat.min_le_left _ _)

theorem mismatchCount_le_right (a b : QString) : mismatchCount a b ≤ b.length := by
  unfold mismatchCount
  exact (List.countP_le_length _).trans (by rw [List.length_zip]; exact Nat.min_le_right _ _)

theorem mismatchCount_comm (a b : QString) : mismatchCount a b = mismatchCount b a := by
  induction a generalizing b with
  | nil => cases b <;> simp [mismatchCount]
  | cons x a ih =>
    cases b with
    | nil => simp [mismatchCount]
    | cons y b =>
      have := ih b
      simp only [mismatchCount, List.zip_cons_cons, List.countP_cons] at this ⊢
      rw [this]
      by_cases hxy : x = y
      · simp [hxy]
      · have hyx : ¬ y = x := fun h => hxy h.symm
        simp [hxy, hyx]

/-- The positional distance never exceeds the longer length. -/
theorem fuzzy_distance_le_max (a b : QString) :
    (mismatchCount a b : ℚ) + |(a.length : ℚ) - (b.length : ℚ)|
      ≤ max (a.length : ℚ) (b.length : ℚ) := by
  have h1 : (mismatchCount a b : ℚ) ≤ (a.length : ℚ) := by
    exact_mod_cast mismatchCount_le_left a b
  have h2 : (mismatchCount a b : ℚ) ≤ (b.length : ℚ) := by
    exact_mod_cast mismatchCount_le_right a b
  rcases le_total (a.length : ℚ) (b.length : ℚ) with hle | hle
  · rw [max_eq_right hle, abs_of_nonpos (sub_nonpos.mpr hle)]; linarith
  · rw [max_eq_left hle, abs_of_nonneg (sub_nonneg.mpr hle)]; linarith

theorem specFuzzyScore_bounds (a b : QString) :
    0 ≤ specFuzzyScore a b ∧ specFuzzyScore a b ≤ 1 := by
  have hd := fuzzy_distance_le_max a b
  have hm : (0 : ℚ) ≤ max (a.length : ℚ) (b.length : ℚ) :=
    le_max_of_le_left (Nat.cast_nonneg _)
  have hd0 : (0 : ℚ) ≤ (mismatchCount a b : ℚ) + |(a.length : ℚ) - (b.length : ℚ)| :=
    add_nonneg (Nat.cast_nonneg _) (abs_nonneg _)
  unfold specFuzzyScore
  constructor
  · exact sub_nonneg.mpr (div_le_one_of_le₀ hd hm)
  · exact sub_le_self _ (div_nonneg hd0 hm)

theorem specFuzzyScore_comm (a b : QString) : specFuzzyScore a b = specFuzzyScore b a := by
  unfold specFuzzyScore
  rw [mismatchCount_comm a b, abs_sub_comm, max_comm]

theorem refPlatform_lowerKeepsNonempty : refPlatform.LowerKeepsNonempty := by
  intro s hs
  cases s with
  | nil => exact absurd rfl hs
  | cons c s => simp [refPlatform, asciiLower]

/-- C30: on every platform whose `toLower` keeps non-empty strings non-empty,
for all strings `a` and `b`: `calculateFuzzyScore(a, b)` lies in `[0, 1]`; it
is symmetric; the positional distance computed by the code never exceeds
`maxLen`; and when the division is reached (both strings non-empty) `maxLen`
is positive. -/
theorem calculateFuzzyScore_range_and_symmetry (P : Platform) (hP : P.LowerKeepsNonempty)
    (a b : QString) :
    0 ≤ calculateFuzzyScore P a b
    ∧ calculateFuzzyScore P a b ≤ 1
    ∧ calculateFuzzyScore P a b = calculateFuzzyScore P b a
    ∧ mismatchLoop (P.toLower a) (P.toLower b)
          (min (P.toLower a).length (P.toLower b).length)
        + |((P.toLower a).length : Int) - ((P.toLower b).length : Int)|
        ≤ max ((P.toLower a).length : Int) ((P.toLower b).length : Int)
    ∧ (a ≠ [] → b ≠ [] →
        0 < max ((P.toLower a).length : Int) ((P.toLower b).length : Int)) := by
  have hdist : mismatchLoop (P.toLower a) (P.toLower b)
        (min (P.toLower a).length (P.toLower b).length)
      + |((P.toLower a).length : Int) - ((P.toLower b).length : Int)|
      ≤ max ((P.toLower a).length : Int) ((P.toLower b).length : Int) := by
    rw [mismatchLoop_eq_mismatchCount]
    have := fuzzy_distance_le_max (P.toLower a) (P.toLower b)
    exact_mod_cast this
  have hpos : a ≠ [] → b ≠ [] →
      0 < max ((P.toLower a).length : Int) ((P.toLower b).length : Int) := by
    intro ha _
    have := List.length_pos.mpr (hP a ha)
    exact lt_max_of_lt_left (by exact_mod_cast this)
  by_cases ha : a = []
  · subst ha
    have h1 : calculateFuzzyScore P [] b = 0 := by simp [calculateFuzzyScore]
    have h2 : calculateFuzzyScore P b [] = 0 := by simp [calculateFuzzyScore]
    exact ⟨by rw [h1], by rw [h1]; norm_num, by rw [h1, h2], hdist, hpos⟩
  · by_cases hb : b = []
    · subst hb
      have h1 : calculateFuzzyScore P a [] = 0 := by simp [calculateFuzzyScore]
      have h2 : calculateFuzzyScore P [] a = 0 := by simp [calculateFuzzyScore]
      exact ⟨by rw [h1], by rw [h1]; norm_num, by rw [h1, h2], hdist, hpos⟩
    · rw [calculateFuzzyScore_eq_spec P a b ha hb, calculateFuzzyScore_eq_spec P b a hb ha]
      exact ⟨(specFuzzyScore_bounds _ _).1, (specFuzzyScore_bounds _ _).2,
        specFuzzyScore_comm _ _, hdist, hpos⟩

/-- C30 on the reference platform, for `Report` and `data.csv`. -/
theorem calculateFuzzyScore_range_and_symmetry_witness :
    0 ≤ calculateFuzzyScore refPlatform "Report".toList "data.csv".toList
    ∧ calculateFuzzyScore refPlatform "Report".toList "data.csv".toList ≤ 1
    ∧ calculateFuzzyScore refPlatform "Report".toList "data.csv".toList
        = calculateFuzzyScore refPlatform "data.csv".toList "Report".toList
    ∧ mismatchLoop (refPlatform.toLower "Report".toList) (refPlatform.toLower "data.csv".toList)
          (min (refPlatform.toLower "Report".toList).length
            (refPlatform.toLower "data.csv".toList).length)
        + |((refPlatform.toLower "Report".toList).length : Int)
            - ((refPlatform.toLower "data.csv".toList).length : Int)|
        ≤ max ((refPlatform.toLower "Report".toList).length : Int)
            ((refPlatform.toLower "data.csv".toList).length : Int)
    ∧ ("Report".toList ≠ [] → "data.csv".toList ≠ [] →
        0 < max ((refPlatform.toLower "Report".toList).length : Int)
            ((refPlatform.toLower "data.csv".toList).length : Int)) :=
  calculateFuzzyScore_range_and_symmetry refPlatform refPlatform_lowerKeepsNonempty
    "Report".toList "data.csv".toList

/-! ## Claim C21: `maxDepth` -/

theorem collectMatchedLines_maxDepth (P : Platform) (criteria : SearchCriteria) (d : Int)
    (query : QString) (lines : List QString) (matchedLines : QStringList) :
    collectMatchedLines P { criteria with maxDepth := d } query lines matchedLines
      = collectMatchedLines P criteria query lines matchedLines := by
  induction lines generalizing matchedLines with
  | nil => rfl
  | cons line rest ih => simp only [collectMatchedLines, ih]

theorem matchesContent_maxDepth (P : Platform) (entry : FileEntry) (criteria : SearchCriteria)
    (d : Int) (matchedLines : QStringList) :
    matchesContent P entry { criteria with maxDepth := d } matchedLines
      = matchesContent P entry criteria matchedLines := by
  simp only [matchesContent, collectMatchedLines_maxDepth]

theorem primaryMatch_maxDepth (P : Platform) (criteria : SearchCriteria) (d : Int)
    (entry : FileEntry) :
    primaryMatch P { criteria with maxDepth := d } entry = primaryMatch P criteria entry := by
  simp only [primaryMatch, matchesContent_maxDepth]
  cases criteria.type <;> rfl

theorem searchLoop_maxDepth (P : Platform) (criteria : SearchCriteria) (d : Int) (env : RunEnv)
    (walk : List FileEntry) (k : Nat) (st : WalkState) :
    searchLoop P { criteria with maxDepth := d } env k walk st
      = searchLoop P criteria env k walk st := by
  induction walk generalizing k st with
  | nil => rfl
  | cons entry rest ih =>
    have hf : matchesFilters P entry { criteria with maxDepth := d }
        = matchesFilters P entry criteria := rfl
    have hr : ∀ lines, makeResult P (env.clock k) { criteria with maxDepth := d } entry lines
        = makeResult P (env.clock k) criteria entry lines := fun _ => rfl
    simp only [searchLoop, ih, hf, hr, primaryMatch_maxDepth]

/-- C21, as stated, fails: `criteria.maxDepth` is never read. With
`maxDepth = 1` and the search rooted at `/r`, the file
`/r/d1/d2/d3/a.txt`, three directory levels below the root, is examined,
reported by `resultFound` and returned in the completed list. -/
theorem entry_beyond_maxDepth_is_returned :
    ({ nameCriteria "a" 10 with maxDepth := 1 } : SearchCriteria).maxDepth = 1
      ∧ levelsBelow
          (resolveSearchPath (sampleEnv [deepEntry] none 100)
            { nameCriteria "a" 10 with maxDepth := 1 })
          deepEntry.filePath = 3
      ∧ (foundResults (performSearch refPlatform { nameCriteria "a" 10 with maxDepth := 1 }
          (sampleEnv [deepEntry] none 100)).events).map (fun r => String.mk r.filePath)
          = ["/r/d1/d2/d3/a.txt"]
      ∧ (completedLists (performSearch refPlatform { nameCriteria "a" 10 with maxDepth := 1 }
          (sampleEnv [deepEntry] none 100)).events).map
            (fun rs => rs.map (fun r => String.mk r.filePath))
          = [["/r/d1/d2/d3/a.txt"]] := by
  refine ⟨?_, ?_, ?_, ?_⟩ <;> decide!

/-- C21, amended: `criteria.maxDepth` has no effect on a run. For every
criteria, platform and run, replacing `maxDepth` by any value leaves the walk
and everything the worker emits unchanged, so the entries examined are those
the directory iterator yields (every level below the root when
`searchSubfolders` is set). -/
theorem maxDepth_has_no_effect (P : Platform) (criteria : SearchCriteria) (env : RunEnv)
    (d : Int) :
    walkOf env { criteria with maxDepth := d } = walkOf env criteria
      ∧ performSearch P { criteria with maxDepth := d } env = performSearch P criteria env := by
  refine ⟨rfl, ?_⟩
  have hpath : resolveSearchPath env { criteria with maxDepth := d }
      = resolveSearchPath env criteria := rfl
  have hst : ∀ st, searchInDirectory P { criteria with maxDepth := d } env
        (resolveSearchPath env criteria) st
      = searchInDirectory P criteria env (resolveSearchPath env criteria) st := by
    intro st
    simp only [searchInDirectory, searchLoop_maxDepth]
  simp only [performSearch, hpath, hst]
  rfl

/-! ## Claim C22: invalid patterns -/

/-- C22, as stated, fails: `search` does not look at the pattern. For the
criteria of `searchByRegex` with the unbalanced pattern `(`, called on an idle
engine, it emits `searchStarted`, leaves `isSearching()` true and launches
the worker; the worker then completes with an empty list, the pattern matching
no file name. -/
theorem invalid_pattern_run_still_starts :
    parsePattern "(".toList = none
      ∧ search { isSearching := 0, searchCancelled := 0 }
          (searchByRegex "(".toList "/r".toList)
        = { flags := { isSearching := 1, searchCancelled := 0 },
            events := [Event.searchStarted "(".toList],
            launched := some (searchByRegex "(".toList "/r".toList) }
      ∧ isSearching (search { isSearching := 0, searchCancelled := 0 }
          (searchByRegex "(".toList "/r".toList)).flags = true
      ∧ (performSearch refPlatform (searchByRegex "(".toList "/r".toList)
          (sampleEnv [sampleEntry "a(b.txt" 100, sampleEntry "c.txt" 100] none 100)).events
        = [Event.searchCompleted []] := by
  refine ⟨?_, ?_, ?_, ?_⟩ <;> decide!

/-- What `search(criteria)` does for every criteria, whatever its query: it
emits `searchStarted(criteria.query)` as its last signal (preceded only by
`searchCancelled` when a run was in flight), leaves `isSearching()` true and
hands the criteria to the worker. -/
theorem search_always_starts (flags : SearchFlags) (criteria : SearchCriteria) :
    (search flags criteria).events
        = (if flags.isSearching ≠ 0 then [Event.searchCancelled] else [])
          ++ [Event.searchStarted criteria.query]
      ∧ isSearching (search flags criteria).flags = true
      ∧ (search flags criteria).flags.searchCancelled = 0
      ∧ (search flags criteria).launched = some criteria := by
  refine ⟨?_, ?_, ?_, ?_⟩
  · simp only [search, cancelSearch]
    split_ifs <;> rfl
  · simp [search, isSearching]
  · simp [search]
  · simp [search]

/-! ## Lemmas: the hash and the set of the indexer -/

theorem keys_filter_ne {ν : Type} (key : QString) (hash : List (QString × ν)) :
    (hash.filter (fun kv => kv.1 != key)).map Prod.fst
      = (hash.map Prod.fst).filter (fun k => k != key) := by
  induction hash with
  | nil => rfl
  | cons kv rest ih =>
    by_cases h : kv.1 = key
    · simp [List.filter_cons, h, ih]
    · simp [List.filter_cons, h, ih]

theorem mem_keys_hashInsert {ν : Type} (key : QString) (value : ν) (hash : List (QString × ν))
    (p : QString) :
    p ∈ (hashInsert key value hash).map Prod.fst ↔ p = key ∨ p ∈ hash.map Prod.fst := by
  simp only [hashInsert, List.map_cons, List.mem_cons, keys_filter_ne, List.mem_filter,
    bne_iff_ne, ne_eq]
  constructor
  · rintro (h | h)
    · exact Or.inl h
    · exact Or.inr h.1
  · rintro (h | h)
    · exact Or.inl h
    · by_cases hk : p = key
      · exact Or.inl hk
      · exact Or.inr ⟨h, hk⟩

theorem nodup_keys_hashInsert {ν : Type} (key : QString) (value : ν)
    (hash : List (QString × ν)) (h : (hash.map Prod.fst).Nodup) :
    ((hashInsert key value hash).map Prod.fst).Nodup := by
  simp only [hashInsert, List.map_cons, keys_filter_ne, List.nodup_cons, List.mem_filter,
    bne_self_eq_false, Bool.false_eq_true, and_false, not_false_eq_true, true_and]
  exact h.filter _

theorem mem_keys_hashRemove {ν : Type} (key : QString) (hash : List (QString × ν))
    (p : QString) :
    p ∈ (hashRemove key hash).map Prod.fst ↔ p ∈ hash.map Prod.fst ∧ p ≠ key := by
  simp only [hashRemove, keys_filter_ne, List.mem_filter, bne_iff_ne, ne_eq]

theorem mem_setInsert (key : QString) (set : List QString) (p : QString) :
    p ∈ setInsert key set ↔ p = key ∨ p ∈ set := by
  unfold setInsert
  split
  · rename_i h
    have hk : key ∈ set := by simpa using h
    constructor
    · exact Or.inr
    · rintro (h1 | h1)
      · rw [h1]; exact hk
      · exact h1
  · simp

theorem nodup_setInsert (key : QString) (set : List QString) (h : set.Nodup) :
    (setInsert key set).Nodup := by
  unfold setInsert
  split
  · exact h
  · rename_i hk
    have hk1 : key ∉ set := by simpa using hk
    exact List.nodup_cons.mpr ⟨hk1, h⟩

theorem mem_setRemove (key : QString) (set : List QString) (p : QString) :
    p ∈ setRemove key set ↔ p ∈ set ∧ p ≠ key := by
  simp only [setRemove, List.mem_filter, bne_iff_ne, ne_eq]

theorem hashContains_iff {ν : Type} (key : QString) (hash : List (QString × ν)) :
    hashContains key hash = true ↔ key ∈ hash.map Prod.fst := by
  simp only [hashContains, List.any_eq_true, beq_iff_eq, List.mem_map]

theorem wellFormed_insert (P : Platform) (fs : QString → FileStat) (path : QString)
    (ix : FileIndexer) (h : WellFormedIndex ix) :
    WellFormedIndex
      { ix with
        fileIndex := hashInsert path (createIndexedFile P fs path) ix.fileIndex,
        indexedPaths := setInsert path ix.indexedPaths } := by
  obtain ⟨h1, h2, h3, h4⟩ := h
  refine ⟨nodup_keys_hashInsert _ _ _ h1, nodup_setInsert _ _ h2, ?_, ?_⟩
  · intro p
    simp only [mem_keys_hashInsert, mem_setInsert, h3]
  · intro kv hkv
    simp only [hashInsert, List.mem_cons, List.mem_filter] at hkv
    rcases hkv with hkv | hkv
    · rw [hkv]; rfl
    · exact h4 kv hkv.1

theorem wellFormed_applyOp (P : Platform) (fs : QString → FileStat) (ix : FileIndexer)
    (op : IndexOp) (h : WellFormedIndex ix) : WellFormedIndex (applyOp P fs ix op) := by
  cases op with
  | updateIndex path =>
    simp only [applyOp, FileIndexer.updateIndex]
    split
    · exact wellFormed_insert P fs path ix h
    · exact h
  | indexFile path => exact wellFormed_insert P fs path ix h
  | removeFromIndex path =>
    obtain ⟨h1, h2, h3, h4⟩ := h
    refine ⟨?_, ?_, ?_, ?_⟩
    · simp only [applyOp, FileIndexer.removeFromIndex, hashRemove, keys_filter_ne]
      exact h1.filter _
    · exact h2.filter _
    · intro p
      simp only [applyOp, FileIndexer.removeFromIndex, mem_keys_hashRemove, mem_setRemove, h3]
    · intro kv hkv
      simp only [applyOp, FileIndexer.removeFromIndex, hashRemove, List.mem_filter] at hkv
      exact h4 kv hkv.1
  | clearIndex =>
    refine ⟨?_, ?_, ?_, ?_⟩ <;> simp [applyOp, FileIndexer.clearIndex]

theorem wellFormed_applyOps (P : Platform) (fs : QString → FileStat) (ops : List IndexOp)
    (ix : FileIndexer) (h : WellFormedIndex ix) : WellFormedIndex (applyOps P fs ops ix) := by
  induction ops generalizing ix with
  | nil => exact h
  | cons op rest ih => exact ih _ (wellFormed_applyOp P fs ix op h)

theorem wellFormed_newFileIndexer : WellFormedIndex newFileIndexer := by
  refine ⟨?_, ?_, ?_, ?_⟩ <;> simp [newFileIndexer]

/-- In a well-formed index the hash holds as many pairs as the set holds
paths. -/
theorem wellFormed_count (ix : FileIndexer) (h : WellFormedIndex ix) :
    ix.fileIndex.length = ix.indexedPaths.length := by
  have hperm : (ix.fileIndex.map Prod.fst).Perm ix.indexedPaths :=
    (List.perm_ext_iff_of_nodup h.1 h.2.1).mpr h.2.2.1
  simpa using hperm.length_eq

/-! ## Claims C23 to C25: the index and the control calls -/

/-- C23: after every sequence of `updateIndex`, `indexFile`, `removeFromIndex`
and `clearIndex` calls starting from the empty index, the keys of
`m_fileIndex` are exactly the paths of `m_indexedPaths`; so `isFileIndexed(p)`
holds iff `p` is in `getIndexedPaths()`, and `getIndexedFileCount()` is the
number of paths in `getIndexedPaths()`. -/
theorem index_map_and_set_agree (P : Platform) (fs : QString → FileStat) (ops : List IndexOp) :
    (∀ p : QString, p ∈ (applyOps P fs ops newFileIndexer).fileIndex.map Prod.fst
        ↔ p ∈ (applyOps P fs ops newFileIndexer).indexedPaths)
    ∧ (∀ p : QString, FileIndexer.isFileIndexed (applyOps P fs ops newFileIndexer) p = true
        ↔ p ∈ FileIndexer.getIndexedPaths (applyOps P fs ops newFileIndexer))
    ∧ FileIndexer.getIndexedFileCount (applyOps P fs ops newFileIndexer)
        = ((FileIndexer.getIndexedPaths (applyOps P fs ops newFileIndexer)).length : Int) := by
  have hwf := wellFormed_applyOps P fs ops newFileIndexer wellFormed_newFileIndexer
  refine ⟨hwf.2.2.1, ?_, ?_⟩
  · intro p
    simp only [FileIndexer.isFileIndexed, FileIndexer.getIndexedPaths, hashContains_iff]
    exact hwf.2.2.1 p
  · simp only [FileIndexer.getIndexedFileCount, FileIndexer.getIndexedPaths]
    exact_mod_cast wellFormed_count _ hwf

/-- The scan of `searchIndex` started with fewer than 1000 results held: it
appends the matching records in hash order until 1000 are held. -/
theorem searchIndexLoop_eq (P : Platform) (lowerQuery : QString)
    (entries : List (QString × IndexedFile)) (results : List IndexedFile)
    (h : results.length < 1000) :
    FileIndexer.searchIndexLoop P lowerQuery entries results
      = results ++ (((entries.map Prod.snd).filter
          (FileIndexer.matchesQuery P lowerQuery)).take (1000 - results.length)) := by
  induction entries generalizing results with
  | nil => simp [FileIndexer.searchIndexLoop]
  | cons kv rest ih =>
    simp only [FileIndexer.searchIndexLoop, List.map_cons]
    by_cases hm : FileIndexer.matchesQuery P lowerQuery kv.2 = true
    · simp only [hm, if_true, List.filter_cons_of_pos]
      by_cases hfull : ((results ++ [kv.2]).length : Int) ≥ 1000
      · have hlen : results.length = 999 := by
          simp only [List.length_append, List.length_singleton] at hfull
          push_cast at hfull
          omega
        simp [hfull, hlen]
      · have hlen : results.length + 1 < 1000 := by
          simp only [List.length_append, List.length_singleton] at hfull
          push_cast at hfull
          omega
        simp only [hfull, decide_False, Bool.false_eq_true, if_false]
        rw [ih _ (by simpa using hlen)]
        have h1000 : 1000 - results.length = (1000 - (results.length + 1)) + 1 := by omega
        rw [h1000, List.take_succ_cons]
        simp
    · have hm1 : FileIndexer.matchesQuery P lowerQuery kv.2 = false := by simpa using hm
      have hnot : ¬ ((results.length : Int) ≥ 1000) := by omega
      simp only [hm1, Bool.false_eq_true, if_false, hnot, decide_False]
      rw [ih _ h, List.filter_cons_of_neg (by simpa using hm1)]

/-- The records of a well-formed index are pairwise different. -/
theorem wellFormed_values_nodup (ix : FileIndexer) (h : WellFormedIndex ix) :
    (ix.fileIndex.map Prod.snd).Nodup := by
  have hpaths : (ix.fileIndex.map Prod.snd).map IndexedFile.path
      = ix.fileIndex.map Prod.fst := by
    rw [List.map_map]
    exact List.map_congr_left (fun kv hkv => h.2.2.2 kv hkv)
  exact List.Nodup.of_map IndexedFile.path (hpaths ▸ h.1)

/-- The test of the loop of `searchIndex` decides membership in the set
`M` of the specification. -/
theorem matchesQuery_eq_spec (P : Platform) (query : QString) (file : IndexedFile) :
    FileIndexer.matchesQuery P (P.toLower query) file
      = decide (P.toLower query <:+: P.toLower file.name
        ∨ P.toLower query <:+: P.toLower file.path
        ∨ P.toLower query <:+: P.toLower file.extension) := by
  rw [Bool.eq_iff_iff]
  simp only [FileIndexer.matchesQuery, Bool.or_eq_true, qContains_iff_isInfix,
    decide_eq_true_eq, or_assoc]

/-- C24: for every well-formed index and every query, with `M` the indexed
records whose name, path or extension contains the query, all lowercased
(`specMatchingRecords`, defined without the code's test), `searchIndex(query)`
returns the first 1000 records of `M` in the order of the hash: a
duplicate-free list of exactly `min(1000, |M|)` records, each of which belongs
to `M`, and all of `M` when `|M| ≤ 1000`. -/
theorem searchIndex_returns_first_1000_matches (P : Platform) (ix : FileIndexer)
    (query : QString) (hwf : WellFormedIndex ix) :
    FileIndexer.searchIndex P ix query = (specMatchingRecords P ix query).take 1000
    ∧ (∀ r : IndexedFile, r ∈ specMatchingRecords P ix query
        ↔ r ∈ ix.fileIndex.map Prod.snd
          ∧ ((∃ before after, P.toLower r.name = before ++ P.toLower query ++ after)
            ∨ (∃ before after, P.toLower r.path = before ++ P.toLower query ++ after)
            ∨ (∃ before after, P.toLower r.extension = before ++ P.toLower query ++ after)))
    ∧ (specMatchingRecords P ix query).Nodup
    ∧ (FileIndexer.searchIndex P ix query).Nodup
    ∧ (FileIndexer.searchIndex P ix query).length
        = min 1000 (specMatchingRecords P ix query).length
    ∧ (∀ r ∈ FileIndexer.searchIndex P ix query, r ∈ specMatchingRecords P ix query)
    ∧ ((specMatchingRecords P ix query).length ≤ 1000 →
        ∀ r : IndexedFile, r ∈ FileIndexer.searchIndex P ix query
          ↔ r ∈ specMatchingRecords P ix query) := by
  have hfilter : (ix.fileIndex.map Prod.snd).filter
        (FileIndexer.matchesQuery P (P.toLower query))
      = specMatchingRecords P ix query := by
    unfold specMatchingRecords
    exact List.filter_congr (fun file _ => matchesQuery_eq_spec P query file)
  have heq : FileIndexer.searchIndex P ix query
      = (specMatchingRecords P ix query).take 1000 := by
    simp only [FileIndexer.searchIndex]
    rw [searchIndexLoop_eq P _ _ [] (by decide), hfilter]
    simp
  have hnodup : (specMatchingRecords P ix query).Nodup :=
    (wellFormed_values_nodup ix hwf).filter _
  refine ⟨heq, ?_, hnodup, ?_, ?_, ?_, ?_⟩
  · intro r
    unfold specMatchingRecords
    have hsplit : ∀ target : QString, P.toLower query <:+: target
        ↔ ∃ before after, target = before ++ P.toLower query ++ after :=
      fun target => ⟨fun ⟨s, t, h⟩ => ⟨s, t, h.symm⟩, fun ⟨s, t, h⟩ => ⟨s, t, h.symm⟩⟩
    rw [List.mem_filter, decide_eq_true_eq, hsplit, hsplit, hsplit]
  · rw [heq]
    exact hnodup.sublist (List.take_sublist _ _)
  · rw [heq, List.length_take]
  · intro r hr
    rw [heq] at hr
    exact (List.take_sublist _ _).subset hr
  · intro hle r
    rw [heq, List.take_of_length_le hle]

/-- C24 on the sample index: the query `OLD` matches one record, by its
path only; the query `REPORT` matches both records; the query `zip` matches
none. -/
theorem searchIndex_returns_first_1000_matches_witness :
    (FileIndexer.searchIndex refPlatform sampleIndex "OLD".toList).map
        (fun r => String.mk r.path) = ["/r/old/report_final.TXT"]
    ∧ (FileIndexer.searchIndex refPlatform sampleIndex "REPORT".toList).length = 2
    ∧ FileIndexer.searchIndex refPlatform sampleIndex "zip".toList = []
    ∧ FileIndexer.searchIndex refPlatform sampleIndex "OLD".toList
      = (specMatchingRecords refPlatform sampleIndex "OLD".toList).take 1000
    ∧ (∀ r : IndexedFile, r ∈ specMatchingRecords refPlatform sampleIndex "OLD".toList
        ↔ r ∈ sampleIndex.fileIndex.map Prod.snd
          ∧ ((∃ before after, refPlatform.toLower r.name
                = before ++ refPlatform.toLower "OLD".toList ++ after)
            ∨ (∃ before after, refPlatform.toLower r.path
                = before ++ refPlatform.toLower "OLD".toList ++ after)
            ∨ (∃ before after, refPlatform.toLower r.extension
                = before ++ refPlatform.toLower "OLD".toList ++ after)))
    ∧ (specMatchingRecords refPlatform sampleIndex "OLD".toList).Nodup
    ∧ (FileIndexer.searchIndex refPlatform sampleIndex "OLD".toList).Nodup
    ∧ (FileIndexer.searchIndex refPlatform sampleIndex "OLD".toList).length
        = min 1000 (specMatchingRecords refPlatform sampleIndex "OLD".toList).length
    ∧ (∀ r ∈ FileIndexer.searchIndex refPlatform sampleIndex "OLD".toList,
        r ∈ specMatchingRecords refPlatform sampleIndex "OLD".toList)
    ∧ ((specMatchingRecords refPlatform sampleIndex "OLD".toList).length ≤ 1000 →
        ∀ r : IndexedFile, r ∈ FileIndexer.searchIndex refPlatform sampleIndex "OLD".toList
          ↔ r ∈ specMatchingRecords refPlatform sampleIndex "OLD".toList) :=
  ⟨by decide, by decide, by decide,
    searchIndex_returns_first_1000_matches refPlatform sampleIndex "OLD".toList
      (wellFormed_applyOps refPlatform sampleFs _ newFileIndexer wellFormed_newFileIndexer)⟩

/-- C25: control calls made in the wrong state change nothing and emit
nothing. `startIndexing` with the indexing flag set, and `pauseIndexing`,
`resumeIndexing` and `stopIndexing` with the flag clear, return the object as
it was (flags, counters, base path, index, timer), emit no signal and launch
no worker. -/
theorem wrong_state_control_calls_are_noops :
    (∀ (home basePath : QString) (ix : FileIndexer), ix.isIndexing ≠ 0 →
        FileIndexer.startIndexing home basePath ix
          = { indexer := ix, events := [], launched := false })
    ∧ (∀ ix : FileIndexer, ix.isIndexing = 0 →
        FileIndexer.pauseIndexing ix = { indexer := ix, events := [], launched := false }
        ∧ FileIndexer.resumeIndexing ix = { indexer := ix, events := [], launched := false }
        ∧ FileIndexer.stopIndexing ix = { indexer := ix, events := [], launched := false }) := by
  constructor
  · intro home basePath ix h
    simp [FileIndexer.startIndexing, h]
  · intro ix h
    simp [FileIndexer.pauseIndexing, FileIndexer.resumeIndexing, FileIndexer.stopIndexing, h]

/-- C25 on concrete objects: a second `startIndexing` on a running indexer,
and `pauseIndexing` on the idle sample index. -/
theorem wrong_state_control_calls_are_noops_witness :
    FileIndexer.startIndexing "/home".toList "/data".toList
        (FileIndexer.startIndexing "/home".toList "/r".toList sampleIndex).indexer
      = { indexer := (FileIndexer.startIndexing "/home".toList "/r".toList sampleIndex).indexer,
          events := [], launched := false }
    ∧ FileIndexer.pauseIndexing sampleIndex
        = { indexer := sampleIndex, events := [], launched := false } :=
  ⟨wrong_state_control_calls_are_noops.1 "/home".toList "/data".toList _ (by decide),
    (wrong_state_control_calls_are_noops.2 sampleIndex (by decide)).1⟩

/-! ## Lemmas: the indexing worker -/

/-- Waiting changes nothing but the load counters. -/
theorem waitWhilePaused_frame (env : IndexEnv) (fuel : Nat) (w r : IndexWorker)
    (h : waitWhilePaused env fuel w = some r) :
    r.indexer = w.indexer ∧ r.events = w.events := by
  induction fuel generalizing w with
  | zero => simp [waitWhilePaused] at h
  | succ fuel ih =>
    simp only [waitWhilePaused] at h
    split at h
    · split at h
      · have h1 := ih _ h
        exact h1
      · cases h; exact ⟨rfl, rfl⟩
    · cases h; exact ⟨rfl, rfl⟩

/-- More fuel does not change the outcome of a wait that ended. -/
theorem waitWhilePaused_mono (env : IndexEnv) (fuel extra : Nat) (w r : IndexWorker)
    (h : waitWhilePaused env fuel w = some r) :
    waitWhilePaused env (fuel + extra) w = some r := by
  induction fuel generalizing w with
  | zero => simp [waitWhilePaused] at h
  | succ fuel ih =>
    rw [show fuel + 1 + extra = (fuel + extra) + 1 by omega]
    simp only [waitWhilePaused] at h ⊢
    split
    · rename_i hp
      simp only [hp, if_true] at h
      split
      · rename_i hi
        simp only [hi, if_true] at h
        exact ih _ h
      · rename_i hi
        simp only [hi, Bool.false_eq_true, if_false] at h
        exact h
    · rename_i hp
      simp only [hp, Bool.false_eq_true, if_false] at h
      exact h

/-- A wait ends once the pause flag is read clear. -/
theorem waitWhilePaused_terminates (env : IndexEnv) (w : IndexWorker) (j : Nat)
    (hj : w.pausedLoads ≤ j) (hclear : env.paused j = false) :
    ∃ fuel r, waitWhilePaused env fuel w = some r := by
  obtain ⟨d, hd⟩ : ∃ d, j - w.pausedLoads = d := ⟨_, rfl⟩
  induction d generalizing w with
  | zero =>
    have he : w.pausedLoads = j := by omega
    have hp : env.paused w.pausedLoads = false := by rw [he]; exact hclear
    exact ⟨1, { w with pausedLoads := w.pausedLoads + 1 }, by simp [waitWhilePaused, hp]⟩
  | succ d ih =>
    by_cases hp : env.paused w.pausedLoads = true
    · by_cases hi : env.indexing w.indexingLoads = true
      · obtain ⟨fuel, r, hr⟩ := ih
          { w with pausedLoads := w.pausedLoads + 1, indexingLoads := w.indexingLoads + 1 }
          (by
            have hne : w.pausedLoads ≠ j := by
              intro he; rw [he, hclear] at hp; exact absurd hp (by decide)
            show w.pausedLoads + 1 ≤ j
            omega)
          (by show j - (w.pausedLoads + 1) = d; omega)
        exact ⟨fuel + 1, r, by simp [waitWhilePaused, hp, hi, hr]⟩
      · exact ⟨1,
          { w with pausedLoads := w.pausedLoads + 1, indexingLoads := w.indexingLoads + 1 },
          by simp [waitWhilePaused, hp, hi]⟩
    · exact ⟨1, { w with pausedLoads := w.pausedLoads + 1 }, by simp [waitWhilePaused, hp]⟩

/-- More fuel does not change the outcome of an indexing loop that ended. -/
theorem indexLoop_mono (P : Platform) (env : IndexEnv) (fuel extra : Nat)
    (walk : List QString) (w r : IndexWorker)
    (h : indexLoop P env fuel walk w = some r) :
    indexLoop P env (fuel + extra) walk w = some r := by
  induction walk generalizing w with
  | nil => simpa [indexLoop] using h
  | cons filePath rest ih =>
    simp only [indexLoop] at h ⊢
    split
    · rename_i hi
      simp only [hi, if_true] at h
      cases hw : waitWhilePaused env fuel { w with indexingLoads := w.indexingLoads + 1 } with
      | none => simp [hw] at h
      | some w1 =>
        simp only [hw] at h
        rw [waitWhilePaused_mono env fuel extra _ w1 hw]
        simp only []
        split
        · rename_i hi1
          simp only [hi1, if_true] at h
          exact ih _ h
        · rename_i hi1
          simp only [hi1, Bool.false_eq_true, if_false] at h
          exact h
    · rename_i hi
      simp only [hi, Bool.false_eq_true, if_false] at h
      exact h

/-- In a run that is never stopped, the loop applies `indexStep` to each
enumerated file in turn. -/
theorem indexLoop_unstopped (P : Platform) (env : IndexEnv) (fuel : Nat)
    (hU : ∀ k, env.indexing k = true) (walk : List QString) (w r : IndexWorker)
    (h : indexLoop P env fuel walk w = some r) :
    (r.indexer, r.events)
      = walk.foldl (fun s filePath => indexStep P env.fs filePath s) (w.indexer, w.events) := by
  induction walk generalizing w with
  | nil =>
    simp only [indexLoop, Option.some.injEq] at h
    rw [← h]; rfl
  | cons filePath rest ih =>
    simp only [indexLoop, hU, if_true] at h
    cases hw : waitWhilePaused env fuel { w with indexingLoads := w.indexingLoads + 1 } with
    | none => simp [hw] at h
    | some w1 =>
      simp only [hw] at h
      obtain ⟨hix, hev⟩ := waitWhilePaused_frame env fuel _ w1 hw
      have := ih _ h
      simp only [List.foldl_cons]
      rw [this, hix, hev]

/-- In a run that is never stopped and whose pauses all end, the loop ends
for some fuel. -/
theorem indexLoop_terminates (P : Platform) (env : IndexEnv)
    (hU : ∀ k, env.indexing k = true)
    (hresume : ∀ k, ∃ j, k ≤ j ∧ env.paused j = false)
    (walk : List QString) (w : IndexWorker) :
    ∃ fuel r, indexLoop P env fuel walk w = some r := by
  induction walk generalizing w with
  | nil => exact ⟨0, w, rfl⟩
  | cons filePath rest ih =>
    obtain ⟨j, hj, hclear⟩ := hresume w.pausedLoads
    obtain ⟨fuel1, w1, hw1⟩ := waitWhilePaused_terminates env
      { w with indexingLoads := w.indexingLoads + 1 } j hj hclear
    obtain ⟨fuel2, r, hr⟩ := ih
      { w1 with
        indexingLoads := w1.indexingLoads + 1,
        indexer := (indexStep P env.fs filePath (w1.indexer, w1.events)).1,
        events := (indexStep P env.fs filePath (w1.indexer, w1.events)).2 }
    refine ⟨fuel1 + fuel2, r, ?_⟩
    simp only [indexLoop, hU, if_true]
    rw [waitWhilePaused_mono env fuel1 fuel2 _ w1 hw1]
    simp only []
    rw [show fuel1 + fuel2 = fuel2 + fuel1 by omega]
    exact indexLoop_mono P env fuel2 fuel1 rest _ r hr

theorem wrapInt32_of_inRange (x : Int) (h0 : -2147483648 ≤ x) (h1 : x < 2147483648) :
    wrapInt32 x = x := by
  unfold wrapInt32
  omega

theorem count_fold (files : List QString) (t : Int) (h0 : 0 ≤ t)
    (h : t + files.length < 2147483648) :
    files.foldl (fun total _ => wrapInt32 (total + 1)) t = t + files.length := by
  induction files generalizing t with
  | nil => simp
  | cons f rest ih =>
    simp only [List.length_cons, Nat.cast_add, Nat.cast_one] at h
    simp only [List.foldl_cons, List.length_cons, Nat.cast_add, Nat.cast_one]
    rw [wrapInt32_of_inRange (t + 1) (by omega) (by omega), ih (t + 1) (by omega) (by omega)]
    omega

/-- In a run that is never stopped the counting pass adds one to
`m_totalFiles` per enumerated file and touches nothing else. -/
theorem countLoop_unstopped (env : IndexEnv) (hU : ∀ k, env.indexing k = true)
    (files : List QString) (w : IndexWorker) :
    (countLoop env files w).indexer
        = { w.indexer with
            totalFiles := files.foldl (fun total _ => wrapInt32 (total + 1))
              w.indexer.totalFiles }
      ∧ (countLoop env files w).events = w.events := by
  induction files generalizing w with
  | nil => exact ⟨rfl, rfl⟩
  | cons f rest ih =>
    simp only [countLoop, hU, if_true, List.foldl_cons]
    have := ih
      { w with
        indexingLoads := w.indexingLoads + 1,
        indexer := { w.indexer with totalFiles := wrapInt32 (w.indexer.totalFiles + 1) } }
    exact ⟨this.1, this.2⟩

theorem indexStep_fields (P : Platform) (fs : QString → FileStat) (filePath : QString)
    (s : FileIndexer × List IndexEvent) :
    (indexStep P fs filePath s).1.fileIndex
        = hashInsert filePath (createIndexedFile P fs filePath) s.1.fileIndex
      ∧ (indexStep P fs filePath s).1.indexedPaths = setInsert filePath s.1.indexedPaths
      ∧ (indexStep P fs filePath s).1.totalFiles = s.1.totalFiles
      ∧ (indexStep P fs filePath s).1.processedFiles = wrapInt32 (s.1.processedFiles + 1) := by
  simp only [indexStep, FileIndexer.indexFile]
  split_ifs <;> exact ⟨rfl, rfl, rfl, rfl⟩

theorem indexedFilesOf_append (xs ys : List IndexEvent) :
    indexedFilesOf (xs ++ ys) = indexedFilesOf xs ++ indexedFilesOf ys := by
  induction xs with
  | nil => rfl
  | cons e xs ih => cases e <;> simp [indexedFilesOf, ih]

theorem progressValuesOf_append (xs ys : List IndexEvent) :
    progressValuesOf (xs ++ ys) = progressValuesOf xs ++ progressValuesOf ys := by
  induction xs with
  | nil => rfl
  | cons e xs ih => cases e <;> simp [progressValuesOf, ih]

theorem indexStep_indexedFiles (P : Platform) (fs : QString → FileStat) (filePath : QString)
    (s : FileIndexer × List IndexEvent) :
    indexedFilesOf (indexStep P fs filePath s).2
      = indexedFilesOf s.2 ++ [createIndexedFile P fs filePath] := by
  simp only [indexStep, FileIndexer.indexFile]
  split_ifs <;> simp [indexedFilesOf_append, indexedFilesOf]

theorem indexStep_progressValues (P : Platform) (fs : QString → FileStat) (filePath : QString)
    (s : FileIndexer × List IndexEvent) (h0 : 0 ≤ s.1.processedFiles)
    (h1 : s.1.processedFiles + 1 < 2147483648) :
    progressValuesOf (indexStep P fs filePath s).2
      = progressValuesOf s.2
        ++ (if (s.1.processedFiles + 1) % 100 = 0 then
              [progressValue s.1.totalFiles (s.1.processedFiles + 1)]
            else []) := by
  have hw : wrapInt32 (s.1.processedFiles + 1) = s.1.processedFiles + 1 :=
    wrapInt32_of_inRange _ (by omega) (by omega)
  have hmod : Int.tmod (s.1.processedFiles + 1) 100 = (s.1.processedFiles + 1) % 100 :=
    Int.tmod_eq_emod (by omega) (by decide)
  simp only [indexStep, FileIndexer.indexFile, hw, hmod]
  split_ifs <;> simp [progressValuesOf_append, progressValuesOf]

/-- The index after the steps: well formed, holding the keys it had and the
enumerated paths. -/
theorem indexSteps_index (P : Platform) (fs : QString → FileStat) (walk : List QString)
    (s : FileIndexer × List IndexEvent) (h : WellFormedIndex s.1) :
    WellFormedIndex (walk.foldl (fun s filePath => indexStep P fs filePath s) s).1
      ∧ ∀ p : QString,
          p ∈ (walk.foldl (fun s filePath => indexStep P fs filePath s) s).1.fileIndex.map
              Prod.fst
            ↔ p ∈ walk ∨ p ∈ s.1.fileIndex.map Prod.fst := by
  induction walk generalizing s with
  | nil =>
    refine ⟨h, fun p => ?_⟩
    simp only [List.foldl_nil, List.not_mem_nil, false_or]
  | cons f rest ih =>
    obtain ⟨hfi, hip, _, _⟩ := indexStep_fields P fs f s
    have hwf : WellFormedIndex (indexStep P fs f s).1 := by
      have hins := wellFormed_insert P fs f s.1 h
      unfold WellFormedIndex at hins ⊢
      rw [hfi, hip]
      exact hins
    obtain ⟨h1, h2⟩ := ih (indexStep P fs f s) hwf
    refine ⟨h1, ?_⟩
    intro p
    simp only [List.foldl_cons]
    rw [h2 p, hfi, mem_keys_hashInsert, List.mem_cons]
    constructor
    · rintro (hp | hp | hp)
      · exact Or.inl (Or.inr hp)
      · exact Or.inl (Or.inl hp)
      · exact Or.inr hp
    · rintro ((hp | hp) | hp)
      · exact Or.inr (Or.inl hp)
      · exact Or.inl hp
      · exact Or.inr (Or.inr hp)

theorem indexSteps_indexedFiles (P : Platform) (fs : QString → FileStat) (walk : List QString)
    (s : FileIndexer × List IndexEvent) :
    indexedFilesOf (walk.foldl (fun s filePath => indexStep P fs filePath s) s).2
      = indexedFilesOf s.2 ++ walk.map (createIndexedFile P fs) := by
  induction walk generalizing s with
  | nil => simp
  | cons f rest ih =>
    simp only [List.foldl_cons, List.map_cons]
    rw [ih, indexStep_indexedFiles]
    simp

theorem indexSteps_progressValues (P : Platform) (fs : QString → FileStat)
    (walk : List QString) (s : FileIndexer × List IndexEvent) (h0 : 0 ≤ s.1.processedFiles)
    (h1 : s.1.processedFiles + walk.length < 2147483648) :
    progressValuesOf (walk.foldl (fun s filePath => indexStep P fs filePath s) s).2
      = progressValuesOf s.2
        ++ (((List.range walk.length).map
              (fun i => s.1.processedFiles + ((i + 1 : Nat) : Int))).filter
              (fun processed => processed % 100 = 0)).map (progressValue s.1.totalFiles) := by
  induction walk generalizing s with
  | nil => simp
  | cons f rest ih =>
    simp only [List.length_cons, Nat.cast_add, Nat.cast_one] at h1
    obtain ⟨_, _, htot, hproc⟩ := indexStep_fields P fs f s
    have hw : wrapInt32 (s.1.processedFiles + 1) = s.1.processedFiles + 1 :=
      wrapInt32_of_inRange _ (by omega) (by omega)
    rw [hw] at hproc
    simp only [List.foldl_cons, List.length_cons]
    rw [ih (indexStep P fs f s) (by rw [hproc]; omega) (by rw [hproc]; omega),
      indexStep_progressValues P fs f s h0 (by omega), htot, hproc,
      List.range_succ_eq_map, List.map_cons, List.map_map]
    have hfun : ((fun i => s.1.processedFiles + ((i + 1 : Nat) : Int)) ∘ Nat.succ)
        = (fun i => s.1.processedFiles + 1 + ((i + 1 : Nat) : Int)) := by
      funext i
      simp only [Function.comp, Nat.succ_eq_add_one]
      push_cast
      ring
    have hhead : s.1.processedFiles + ((0 + 1 : Nat) : Int) = s.1.processedFiles + 1 := by
      norm_num
    rw [hfun, hhead]
    by_cases hm : (s.1.processedFiles + 1) % 100 = 0
    · rw [if_pos hm, List.filter_cons,
        if_pos (by simp only [decide_eq_true_eq]; exact hm)]
      simp only [List.map_cons, List.append_assoc, List.singleton_append]
    · rw [if_neg hm, List.filter_cons,
        if_neg (by simp only [decide_eq_true_eq]; exact hm)]
      simp only [List.append_nil]

/-- More fuel does not change the outcome of `indexDirectory`. -/
theorem indexDirectory_mono (P : Platform) (env : IndexEnv) (fuel extra : Nat)
    (path : QString) (w r : IndexWorker)
    (h : indexDirectory P env fuel path w = some r) :
    indexDirectory P env (fuel + extra) path w = some r := by
  unfold indexDirectory at h ⊢
  split
  · rename_i hi
    simp only [hi, if_true] at h
    cases hl : indexLoop P env fuel (env.walk path)
        (countLoop env (env.countWalk path) { w with indexingLoads := w.indexingLoads + 1 }) with
    | none => simp [hl] at h
    | some w1 =>
      simp only [hl] at h
      simp only [indexLoop_mono P env fuel extra _ _ w1 hl]
      exact h
  · rename_i hi
    simp only [hi, Bool.false_eq_true, if_false] at h
    exact h

/-- In a run that is never stopped, `indexDirectory` counts the files of the
first enumeration, applies `indexStep` to each file of the second, and emits
the final progress signal. -/
theorem indexDirectory_unstopped (P : Platform) (env : IndexEnv) (fuel : Nat)
    (hU : ∀ k, env.indexing k = true) (path : QString) (w r : IndexWorker)
    (h : indexDirectory P env fuel path w = some r) :
    r.indexer
        = ((env.walk path).foldl (fun s filePath => indexStep P env.fs filePath s)
            ({ w.indexer with
                totalFiles := (env.countWalk path).foldl (fun total _ => wrapInt32 (total + 1))
                  w.indexer.totalFiles },
              w.events)).1
      ∧ r.events
        = ((env.walk path).foldl (fun s filePath => indexStep P env.fs filePath s)
            ({ w.indexer with
                totalFiles := (env.countWalk path).foldl (fun total _ => wrapInt32 (total + 1))
                  w.indexer.totalFiles },
              w.events)).2
          ++ [IndexEvent.indexingProgress 100] := by
  unfold indexDirectory at h
  simp only [hU, if_true] at h
  cases hl : indexLoop P env fuel (env.walk path)
      (countLoop env (env.countWalk path) { w with indexingLoads := w.indexingLoads + 1 }) with
  | none => simp [hl] at h
  | some w1 =>
    simp only [hl, Option.some.injEq] at h
    have hloop := indexLoop_unstopped P env fuel hU _ _ w1 hl
    obtain ⟨hci, hce⟩ := countLoop_unstopped env hU (env.countWalk path)
      { w with indexingLoads := w.indexingLoads + 1 }
    rw [hci, hce] at hloop
    rw [← h]
    constructor
    · exact congrArg Prod.fst hloop
    · show w1.events ++ [IndexEvent.indexingProgress 100] = _
      rw [show w1.events = (w1.indexer, w1.events).2 from rfl, hloop]

/-- In a run that is never stopped and whose pauses all end,
`indexDirectory` returns for some fuel. -/
theorem indexDirectory_terminates (P : Platform) (env : IndexEnv)
    (hU : ∀ k, env.indexing k = true)
    (hresume : ∀ k, ∃ j, k ≤ j ∧ env.paused j = false)
    (path : QString) (w : IndexWorker) :
    ∃ fuel r, indexDirectory P env fuel path w = some r := by
  obtain ⟨fuel, w1, hl⟩ := indexLoop_terminates P env hU hresume (env.walk path)
    (countLoop env (env.countWalk path) { w with indexingLoads := w.indexingLoads + 1 })
  refine ⟨fuel, { w1 with
    indexingLoads := w1.indexingLoads + 1,
    events := w1.events ++ [IndexEvent.indexingProgress 100] }, ?_⟩
  unfold indexDirectory
  simp only [hU, if_true, hl]

/-- The launched task of a run that is never stopped and whose pauses all
end: for every fuel from some value on it returns the object and the signals
that the steps over the second enumeration leave, followed by the final
progress signal and `indexingCompleted`. -/
theorem indexingTask_unstopped (P : Platform) (env : IndexEnv) (ix : FileIndexer)
    (hU : ∀ k, env.indexing k = true)
    (hresume : ∀ k, ∃ j, k ≤ j ∧ env.paused j = false) :
    ∃ fuel, ∀ extra, indexingTask P env (fuel + extra) ix
      = some
        ({ ((env.walk ix.basePath).foldl (fun s filePath => indexStep P env.fs filePath s)
              ({ ix with
                  totalFiles := (env.countWalk ix.basePath).foldl
                    (fun total _ => wrapInt32 (total + 1)) ix.totalFiles },
                [])).1 with isIndexing := 0 },
          ((env.walk ix.basePath).foldl (fun s filePath => indexStep P env.fs filePath s)
              ({ ix with
                  totalFiles := (env.countWalk ix.basePath).foldl
                    (fun total _ => wrapInt32 (total + 1)) ix.totalFiles },
                [])).2
            ++ [IndexEvent.indexingProgress 100] ++ [IndexEvent.indexingCompleted]) := by
  obtain ⟨fuel, r, hr⟩ := indexDirectory_terminates P env hU hresume ix.basePath
    { indexer := ix, events := [], indexingLoads := 0, pausedLoads := 0 }
  refine ⟨fuel, fun extra => ?_⟩
  have hm := indexDirectory_mono P env fuel extra _ _ r hr
  obtain ⟨h1, h2⟩ := indexDirectory_unstopped P env fuel hU _ _ r hr
  unfold indexingTask
  simp only [hm]
  rw [h1, h2]

/-- After the steps over `n` files the counters hold the count and `n` more
than before. -/
theorem indexSteps_counters (P : Platform) (fs : QString → FileStat) (walk : List QString)
    (s : FileIndexer × List IndexEvent) (h0 : 0 ≤ s.1.processedFiles)
    (h1 : s.1.processedFiles + walk.length < 2147483648) :
    (walk.foldl (fun s filePath => indexStep P fs filePath s) s).1.totalFiles = s.1.totalFiles
      ∧ (walk.foldl (fun s filePath => indexStep P fs filePath s) s).1.processedFiles
        = s.1.processedFiles + walk.length := by
  induction walk generalizing s with
  | nil => simp
  | cons f rest ih =>
    simp only [List.length_cons, Nat.cast_add, Nat.cast_one] at h1
    obtain ⟨_, _, htot, hproc⟩ := indexStep_fields P fs f s
    rw [wrapInt32_of_inRange _ (by omega) (by omega)] at hproc
    obtain ⟨i1, i2⟩ := ih (indexStep P fs f s) (by rw [hproc]; omega) (by rw [hproc]; omega)
    simp only [List.foldl_cons, List.length_cons, Nat.cast_add, Nat.cast_one]
    rw [i1, i2, htot, hproc]
    exact ⟨rfl, by omega⟩

/-- An index whose keys are exactly the paths of a list without repetition
holds as many records as the list has paths. -/
theorem keys_length_eq (index : List (QString × IndexedFile)) (walk : List QString)
    (hk : (index.map Prod.fst).Nodup) (hw : walk.Nodup)
    (hmem : ∀ p : QString, p ∈ index.map Prod.fst ↔ p ∈ walk) :
    index.length = walk.length := by
  have hp : (index.map Prod.fst).Perm walk := (List.perm_ext_iff_of_nodup hk hw).2 hmem
  have := hp.length_eq
  simpa using this

/-! ## Claim C26: pausing loses no file and indexes none twice -/

/-- Claim C26. Starting from an empty index, in a run that is never stopped,
whose indexing pass enumerates paths without repetition, and for every
sequence of values of the pause flag in which each pause is eventually read
clear (every interleaving of `pauseIndexing` / `resumeIndexing`): the task
returns for every fuel from some value on, always with the same outcome; its
`fileIndexed` signals are, in enumeration order, one record per enumerated
path (one `indexFile` call each, none skipped, none repeated); and afterwards
`getIndexedFileCount()` is the number of enumerated paths and `isFileIndexed`
holds exactly for them. -/
theorem indexing_run_indexes_each_file_once (P : Platform) (env : IndexEnv) (ix : FileIndexer)
    (hempty : ix.fileIndex = [] ∧ ix.indexedPaths = [])
    (hU : ∀ k, env.indexing k = true)
    (hresume : ∀ k, ∃ j, k ≤ j ∧ env.paused j = false)
    (hnd : (env.walk ix.basePath).Nodup) :
    ∃ (fuel : Nat) (done : FileIndexer) (events : List IndexEvent),
      (∀ extra, indexingTask P env (fuel + extra) ix = some (done, events))
      ∧ indexedFilesOf events = (env.walk ix.basePath).map (createIndexedFile P env.fs)
      ∧ FileIndexer.getIndexedFileCount done = ((env.walk ix.basePath).length : Int)
      ∧ ∀ p : QString, FileIndexer.isFileIndexed done p = true ↔ p ∈ env.walk ix.basePath := by
  obtain ⟨fuel, hf⟩ := indexingTask_unstopped P env ix hU hresume
  have hwf : WellFormedIndex
      ({ ix with
          totalFiles := (env.countWalk ix.basePath).foldl
            (fun total _ => wrapInt32 (total + 1)) ix.totalFiles },
        ([] : List IndexEvent)).1 := by
    refine ⟨?_, ?_, ?_, ?_⟩ <;> simp [hempty.1, hempty.2]
  obtain ⟨hw1, hw2⟩ := indexSteps_index P env.fs (env.walk ix.basePath) _ hwf
  have hkeys : ∀ p : QString,
      p ∈ ((env.walk ix.basePath).foldl (fun s filePath => indexStep P env.fs filePath s)
            ({ ix with
                totalFiles := (env.countWalk ix.basePath).foldl
                  (fun total _ => wrapInt32 (total + 1)) ix.totalFiles },
              ([] : List IndexEvent))).1.fileIndex.map Prod.fst
        ↔ p ∈ env.walk ix.basePath := by
    intro p
    rw [hw2 p]
    simp [hempty.1]
  refine ⟨fuel, _, _, hf, ?_, ?_, ?_⟩
  · rw [indexedFilesOf_append, indexedFilesOf_append, indexSteps_indexedFiles]
    simp [indexedFilesOf]
  · show ((List.length _ : Nat) : Int) = _
    exact congrArg Nat.cast (keys_length_eq _ _ hw1.1 hnd hkeys)
  · intro p
    show hashContains p _ = true ↔ _
    rw [hashContains_iff]
    exact hkeys p

/-- Claim C26 at a concrete run: three files under `/r`, the pause flag read
as set at its loads 0, 1 and 3. -/
theorem indexing_run_indexes_each_file_once_witness :
    (∀ k, ∃ j, k ≤ j
        ∧ (sampleIndexEnv ["/r/a.txt".toList, "/r/b.txt".toList, "/r/c.txt".toList]
            [0, 1, 3]).paused j = false)
    ∧ ∃ (fuel : Nat) (done : FileIndexer) (events : List IndexEvent),
      (∀ extra,
        indexingTask refPlatform
            (sampleIndexEnv ["/r/a.txt".toList, "/r/b.txt".toList, "/r/c.txt".toList] [0, 1, 3])
            (fuel + extra)
            (FileIndexer.startIndexing "/home".toList "/r".toList newFileIndexer).indexer
          = some (done, events))
      ∧ indexedFilesOf events
        = ["/r/a.txt".toList, "/r/b.txt".toList, "/r/c.txt".toList].map
            (createIndexedFile refPlatform sampleFs)
      ∧ FileIndexer.getIndexedFileCount done = 3
      ∧ ∀ p : QString, FileIndexer.isFileIndexed done p = true
          ↔ p ∈ ["/r/a.txt".toList, "/r/b.txt".toList, "/r/c.txt".toList] :=
  ⟨fun k => ⟨k + 4, by omega, by simp [sampleIndexEnv]⟩,
    indexing_run_indexes_each_file_once refPlatform
      (sampleIndexEnv ["/r/a.txt".toList, "/r/b.txt".toList, "/r/c.txt".toList] [0, 1, 3])
      (FileIndexer.startIndexing "/home".toList "/r".toList newFileIndexer).indexer
      ⟨rfl, rfl⟩ (fun _ => rfl) (fun k => ⟨k + 4, by omega, by simp [sampleIndexEnv]⟩)
      (by decide)⟩

/-! ## Claim C27: the progress values -/

/-- The progress signals of an unstopped run in which both passes enumerate
`n` files, with the counters at zero when it starts: one value per 100th
processed file, then 100. -/
theorem indexRun_progressValues (P : Platform) (fs : QString → FileStat)
    (countWalk walk : List QString) (ix : FileIndexer) (n : Nat)
    (hcount : countWalk.length = n) (hwalk : walk.length = n)
    (hzero : ix.totalFiles = 0 ∧ ix.processedFiles = 0) (hn : (n : Int) < 2147483648) :
    progressValuesOf
        ((walk.foldl (fun s filePath => indexStep P fs filePath s)
            ({ ix with
                totalFiles := countWalk.foldl (fun total _ => wrapInt32 (total + 1))
                  ix.totalFiles },
              [])).2
          ++ [IndexEvent.indexingProgress 100] ++ [IndexEvent.indexingCompleted])
      = specProgressValues n := by
  have htotal : countWalk.foldl (fun total _ => wrapInt32 (total + 1)) ix.totalFiles
      = (n : Int) := by
    rw [hzero.1, count_fold countWalk 0 (le_refl 0) (by rw [hcount]; omega), hcount]
    omega
  have hsteps := indexSteps_progressValues P fs walk
    ({ ix with
        totalFiles := countWalk.foldl (fun total _ => wrapInt32 (total + 1)) ix.totalFiles },
      ([] : List IndexEvent))
    (by show 0 ≤ ix.processedFiles; rw [hzero.2])
    (by show ix.processedFiles + (walk.length : Int) < 2147483648; rw [hzero.2, hwalk]; omega)
  rw [progressValuesOf_append, progressValuesOf_append, hsteps]
  show progressValuesOf [] ++ List.map (progressValue _)
      (List.filter _ (List.map (fun i => ix.processedFiles + ((i + 1 : Nat) : Int))
        (List.range walk.length)))
      ++ progressValuesOf [IndexEvent.indexingProgress 100]
      ++ progressValuesOf [IndexEvent.indexingCompleted] = _
  rw [htotal, hzero.2, hwalk]
  simp only [progressValuesOf, specProgressValues, List.nil_append, List.append_nil, zero_add]

/-- While `processed * 100` fits a 32-bit `int`, the progress value is the
integer quotient, between 0 and 100. -/
theorem progressValue_of_small (n processed : Int) (h0 : 0 ≤ processed) (hle : processed ≤ n)
    (hfit : processed * 100 < 2147483648) :
    progressValue n processed = (if n > 0 then processed * 100 / n else 0)
      ∧ 0 ≤ progressValue n processed ∧ progressValue n processed ≤ 100 := by
  unfold progressValue
  rw [wrapInt32_of_inRange _ (by omega) hfit]
  by_cases hn : n > 0
  · rw [if_pos hn, if_pos hn, Int.tdiv_eq_ediv (by omega) (by omega)]
    exact ⟨rfl, Int.ediv_nonneg (by omega) (by omega),
      Int.ediv_le_of_le_mul hn (by omega)⟩
  · rw [if_neg hn, if_neg hn]
    exact ⟨rfl, le_refl 0, by decide⟩

/-- The members of the list of 100th files. -/
theorem mem_hundredths (n : Nat) (p : Int)
    (h : p ∈ ((List.range n).map (fun i => ((i + 1 : Nat) : Int))).filter
      (fun processed => processed % 100 = 0)) :
    0 < p ∧ p ≤ n ∧ p % 100 = 0 := by
  obtain ⟨hm, hq⟩ := List.mem_filter.1 h
  obtain ⟨i, hi, rfl⟩ := List.mem_map.1 hm
  have := List.mem_range.1 hi
  simp only [decide_eq_true_eq] at hq
  refine ⟨by omega, by omega, hq⟩

/-- Below 21 474 900 files no product overflows: the listed progress values
lie in 0..100 and never decrease. -/
theorem specProgressValues_in_range (n : Nat) (hn : n < 21474900) :
    (∀ v ∈ specProgressValues n, 0 ≤ v ∧ v ≤ 100)
      ∧ (specProgressValues n).Pairwise (fun a b => a ≤ b) := by
  have hval : ∀ p ∈ ((List.range n).map (fun i => ((i + 1 : Nat) : Int))).filter
      (fun processed => processed % 100 = 0),
      progressValue n p = (if (n : Int) > 0 then p * 100 / n else 0)
        ∧ 0 ≤ progressValue n p ∧ progressValue n p ≤ 100 := by
    intro p hp
    obtain ⟨h0, hle, hmod⟩ := mem_hundredths n p hp
    exact progressValue_of_small n p (by omega) hle (by omega)
  constructor
  · intro v hv
    unfold specProgressValues at hv
    rcases List.mem_append.1 hv with hv | hv
    · obtain ⟨p, hp, rfl⟩ := List.mem_map.1 hv
      exact (hval p hp).2
    · rw [List.mem_singleton.1 hv]
      exact ⟨by decide, by decide⟩
  · unfold specProgressValues
    rw [List.pairwise_append]
    refine ⟨?_, List.pairwise_singleton _ _, ?_⟩
    · rw [List.pairwise_map]
      have hsorted : (((List.range n).map (fun i => ((i + 1 : Nat) : Int))).filter
          (fun processed => processed % 100 = 0)).Pairwise (fun a b => a ≤ b) := by
        apply List.Pairwise.filter
        rw [List.pairwise_map]
        exact (List.pairwise_lt_range n).imp (fun h => by omega)
      refine hsorted.imp_of_mem ?_
      intro a b ha hb hab
      rw [(hval a ha).1, (hval b hb).1]
      by_cases hpos : (n : Int) > 0
      · rw [if_pos hpos, if_pos hpos]
        exact Int.ediv_le_ediv hpos (by omega)
      · rw [if_neg hpos, if_neg hpos]
    · intro a ha b hb
      obtain ⟨p, hp, rfl⟩ := List.mem_map.1 ha
      rw [List.mem_singleton.1 hb]
      exact (hval p hp).2.2

/-- The value that the specification lists for the 21 474 900th of
30 000 000 files is negative: `21474900 * 100` does not fit a 32-bit `int`. -/
theorem specProgressValues_overflow : (-71 : Int) ∈ specProgressValues 30000000 := by
  unfold specProgressValues
  refine List.mem_append_left _ (List.mem_map.2 ⟨21474900, ?_, by decide⟩)
  refine List.mem_filter.2 ⟨List.mem_map.2 ⟨21474899, List.mem_range.2 (by decide), by decide⟩,
    by decide⟩

/-- Claim C27 (defect). In an unstopped run in which both passes enumerate
the same 30 000 000 files, the `indexingProgress` signals are one per 100th
processed file followed by the final 100, as the claim says, but the value
emitted after file 21 474 900 is -71: `m_processedFiles * 100` exceeds the
32-bit `int` range, so the values do not all lie in 0..100. -/
theorem progress_value_wraps_negative (P : Platform) (env : IndexEnv) (ix : FileIndexer)
    (hU : ∀ k, env.indexing k = true)
    (hresume : ∀ k, ∃ j, k ≤ j ∧ env.paused j = false)
    (hcount : (env.countWalk ix.basePath).length = 30000000)
    (hwalk : (env.walk ix.basePath).length = 30000000)
    (hzero : ix.totalFiles = 0 ∧ ix.processedFiles = 0) :
    ∃ (fuel : Nat) (done : FileIndexer) (events : List IndexEvent),
      (∀ extra, indexingTask P env (fuel + extra) ix = some (done, events))
      ∧ progressValuesOf events = specProgressValues 30000000
      ∧ (-71 : Int) ∈ progressValuesOf events := by
  obtain ⟨fuel, hf⟩ := indexingTask_unstopped P env ix hU hresume
  have hv := indexRun_progressValues P env.fs (env.countWalk ix.basePath)
    (env.walk ix.basePath) ix 30000000 hcount hwalk hzero (by decide)
  refine ⟨fuel, _, _, hf, hv, ?_⟩
  rw [hv]
  exact specProgressValues_overflow

/-- Claim C27 at a concrete run: 30 000 000 files `/r/f0`, `/r/f1`, ...,
never paused, started by `startIndexing` on a new indexer. -/
theorem progress_value_wraps_negative_witness :
    ∃ (fuel : Nat) (done : FileIndexer) (events : List IndexEvent),
      (∀ extra,
        indexingTask refPlatform
            (sampleIndexEnv
              ((List.range 30000000).map (fun i => "/r/f".toList ++ (Nat.repr i).toList)) [])
            (fuel + extra)
            (FileIndexer.startIndexing "/home".toList "/r".toList newFileIndexer).indexer
          = some (done, events))
      ∧ progressValuesOf events = specProgressValues 30000000
      ∧ (-71 : Int) ∈ progressValuesOf events :=
  progress_value_wraps_negative refPlatform
    (sampleIndexEnv
      ((List.range 30000000).map (fun i => "/r/f".toList ++ (Nat.repr i).toList)) [])
    (FileIndexer.startIndexing "/home".toList "/r".toList newFileIndexer).indexer
    (fun _ => rfl) (fun k => ⟨k, le_refl k, rfl⟩)
    (by simp only [sampleIndexEnv, List.length_map, List.length_range])
    (by simp only [sampleIndexEnv, List.length_map, List.length_range])
    ⟨rfl, rfl⟩

/-! ## Claim C3: ties under `std::sort` -/

/-- The element is placed behind the elements it compares before. -/
theorem unguardedLinearInsert_eq {α : Type} (comp : α → α → Bool) (val : α) (before : List α) :
    unguardedLinearInsert comp val before
      = before.takeWhile (comp val) ++ val :: before.dropWhile (comp val) := by
  induction before with
  | nil => rfl
  | cons next rest ih =>
    by_cases h : comp val next = true
    · simp [unguardedLinearInsert, h, ih]
    · simp [unguardedLinearInsert, h]

/-- One linear insertion into a range sorted by a key, seen from the element
backwards: the result is a permutation, sorted, and keeps the elements of
every key in their order. -/
theorem unguardedLinearInsert_stable {α : Type} (key : α → ℚ) (comp : α → α → Bool)
    (hcomp : ∀ a b, comp a b = true ↔ key b < key a) (val : α) (before : List α)
    (hs : before.Pairwise (fun a b => key a ≤ key b)) :
    (unguardedLinearInsert comp val before).Perm (val :: before)
      ∧ (unguardedLinearInsert comp val before).Pairwise (fun a b => key a ≤ key b)
      ∧ ∀ v : ℚ, (unguardedLinearInsert comp val before).filter (fun r => decide (key r = v))
          = (val :: before).filter (fun r => decide (key r = v)) := by
  induction before with
  | nil => simp [unguardedLinearInsert]
  | cons next rest ih =>
    obtain ⟨hnext, hrest⟩ := List.pairwise_cons.mp hs
    obtain ⟨ip, isorted, ifilter⟩ := ih hrest
    by_cases h : comp val next = true
    · have hlt : key next < key val := (hcomp val next).mp h
      simp only [unguardedLinearInsert, h, if_true]
      refine ⟨(List.Perm.cons next ip).trans (List.Perm.swap val next rest), ?_, ?_⟩
      · refine List.pairwise_cons.mpr ⟨?_, isorted⟩
        intro b hb
        rcases List.mem_cons.mp (ip.mem_iff.mp hb) with hb1 | hb1
        · rw [hb1]; exact le_of_lt hlt
        · exact hnext b hb1
      · intro v
        rw [List.filter_cons, ifilter v]
        by_cases hn : key next = v
        · have hv : ¬ key val = v := by
            intro hv
            rw [hn, hv] at hlt
            exact lt_irrefl _ hlt
          simp [List.filter_cons, hn, hv]
        · simp [List.filter_cons, hn]
    · have hle : key val ≤ key next := by
        have := (hcomp val next).not.mp h
        exact not_lt.mp this
      simp only [unguardedLinearInsert, h, Bool.false_eq_true, if_false]
      refine ⟨List.Perm.refl _, ?_, fun _ => trivial⟩
      refine List.pairwise_cons.mpr ⟨?_, hs⟩
      intro b hb
      rcases List.mem_cons.mp hb with hb1 | hb1
      · rw [hb1]; exact hle
      · exact le_trans hle (hnext b hb1)

/-- One round of `__insertion_sort` on a sorted range. -/
theorem insertionRound_stable {α : Type} (key : α → ℚ) (comp : α → α → Bool)
    (hcomp : ∀ a b, comp a b = true ↔ key b < key a) (sorted : List α) (val : α)
    (hs : sorted.Pairwise (fun a b => key b ≤ key a)) :
    (insertionRound comp sorted val).Perm (sorted ++ [val])
      ∧ (insertionRound comp sorted val).Pairwise (fun a b => key b ≤ key a)
      ∧ ∀ v : ℚ, (insertionRound comp sorted val).filter (fun r => decide (key r = v))
          = (sorted ++ [val]).filter (fun r => decide (key r = v)) := by
  cases sorted with
  | nil => simp [insertionRound]
  | cons first rest =>
    obtain ⟨hfirst, _⟩ := List.pairwise_cons.mp hs
    by_cases h : comp val first = true
    · have hlt : key first < key val := (hcomp val first).mp h
      have hall : ∀ b ∈ first :: rest, key b < key val := by
        intro b hb
        rcases List.mem_cons.mp hb with hb1 | hb1
        · rw [hb1]; exact hlt
        · exact lt_of_le_of_lt (hfirst b hb1) hlt
      simp only [insertionRound, h, if_true]
      refine ⟨?_, ?_, ?_⟩
      · exact (List.perm_append_comm : ([val] ++ (first :: rest)).Perm _)
      · exact List.pairwise_cons.mpr ⟨fun b hb => le_of_lt (hall b hb), hs⟩
      · intro v
        by_cases hv : key val = v
        · have hnone : (first :: rest).filter (fun r => decide (key r = v)) = [] := by
            rw [List.filter_eq_nil_iff]
            intro b hb
            have := hall b hb
            simp only [decide_eq_true_eq]
            intro hb1
            rw [hb1, hv] at this
            exact lt_irrefl _ this
          rw [List.filter_append, hnone, List.filter_cons, hnone]
          simp [List.filter_cons, hv]
        · rw [List.filter_append, List.filter_cons]
          simp [hv]
    · simp only [insertionRound, h, Bool.false_eq_true, if_false]
      obtain ⟨ip, isorted, ifilter⟩ := unguardedLinearInsert_stable key comp hcomp val
        (first :: rest).reverse (List.pairwise_reverse.mpr hs)
      refine ⟨?_, ?_, ?_⟩
      · refine (List.reverse_perm _).trans (ip.trans ?_)
        refine (List.Perm.cons val (List.reverse_perm _)).trans ?_
        exact (List.perm_append_comm : ([val] ++ (first :: rest)).Perm _)
      · exact List.pairwise_reverse.mpr isorted
      · intro v
        rw [← List.reverse_reverse (first :: rest ++ [val]), List.filter_reverse,
          List.filter_reverse, ifilter v]
        simp

/-- The rounds of `__insertion_sort` over the elements that follow a sorted
range. -/
theorem insertionRounds_stable {α : Type} (key : α → ℚ) (comp : α → α → Bool)
    (hcomp : ∀ a b, comp a b = true ↔ key b < key a) (rest sorted : List α)
    (hs : sorted.Pairwise (fun a b => key b ≤ key a)) :
    (rest.foldl (insertionRound comp) sorted).Perm (sorted ++ rest)
      ∧ (rest.foldl (insertionRound comp) sorted).Pairwise (fun a b => key b ≤ key a)
      ∧ ∀ v : ℚ, (rest.foldl (insertionRound comp) sorted).filter (fun r => decide (key r = v))
          = (sorted ++ rest).filter (fun r => decide (key r = v)) := by
  induction rest generalizing sorted with
  | nil => simpa using hs
  | cons val rest ih =>
    obtain ⟨rp, rsorted, rfilter⟩ := insertionRound_stable key comp hcomp sorted val hs
    obtain ⟨ip, isorted, ifilter⟩ := ih (insertionRound comp sorted val) rsorted
    simp only [List.foldl_cons]
    refine ⟨?_, isorted, ?_⟩
    · refine ip.trans ?_
      rw [show sorted ++ val :: rest = (sorted ++ [val]) ++ rest by simp]
      exact List.Perm.append_right rest rp
    · intro v
      rw [ifilter v, List.filter_append, rfilter v, ← List.filter_append]
      simp

/-- The insertion sort of libstdc++ is a stable sort. -/
theorem gnuInsertionSort_stable {α : Type} (key : α → ℚ) (comp : α → α → Bool)
    (hcomp : ∀ a b, comp a b = true ↔ key b < key a) (xs : List α) :
    (gnuInsertionSort comp xs).Perm xs
      ∧ (gnuInsertionSort comp xs).Pairwise (fun a b => key b ≤ key a)
      ∧ ∀ v : ℚ, (gnuInsertionSort comp xs).filter (fun r => decide (key r = v))
          = xs.filter (fun r => decide (key r = v)) := by
  cases xs with
  | nil => simp [gnuInsertionSort]
  | cons first rest =>
    have := insertionRounds_stable key comp hcomp rest [first] (List.pairwise_singleton _ _)
    simpa [gnuInsertionSort] using this

/-- On at most 16 elements `std::sort` of libstdc++ is its insertion sort:
the introsort loop does nothing. -/
theorem gnuStdSort_small {α : Type} (comp : α → α → Bool) (xs : List α)
    (h : xs.length ≤ 16) : gnuStdSort comp xs = gnuInsertionSort comp xs := by
  unfold gnuStdSort
  cases xs with
  | nil => rfl
  | cons first rest =>
    have hloop : ∀ d, introsortLoop comp d (first :: rest) 0 (first :: rest).length
        = first :: rest := by
      intro d
      have hn : ¬ ((first :: rest).length - 0 > 16) := by omega
      cases d <;> simp only [introsortLoop, hn, if_false]
    have hn : ¬ ((first :: rest).length > 16) := by omega
    simp only [List.isEmpty_cons, Bool.false_eq_true, if_false, hloop, finalInsertionSort, hn]

/-- With the sort of libstdc++, ranking a buffer of at most 16 results is a
stable sort by non-increasing score. -/
theorem rankResults_stable_small (P : Platform) (hsort : P.stdSort = gnuStdSort)
    (buffer : List SearchResult) (criteria : SearchCriteria) (h : buffer.length ≤ 16) :
    (rankResults P buffer criteria).Perm buffer
      ∧ (rankResults P buffer criteria).Pairwise
          (fun a b => b.relevanceScore ≤ a.relevanceScore)
      ∧ ∀ v : ℚ, (rankResults P buffer criteria).filter (fun r => decide (r.relevanceScore = v))
          = buffer.filter (fun r => decide (r.relevanceScore = v)) := by
  have heq : rankResults P buffer criteria = gnuInsertionSort scoreGreater buffer := by
    simp only [rankResults, hsort]
    exact gnuStdSort_small scoreGreater buffer h
  rw [heq]
  exact gnuInsertionSort_stable (fun r => r.relevanceScore) scoreGreater
    (fun a b => by simp [scoreGreater]) buffer

/-- C3, as stated, fails: `rankResults` calls `std::sort`, which is not a
stable sort. With the sort of libstdc++, seventeen files discovered as
`a01.txt` ... `a17.txt`, all with the score 85, are completed in another
order: the one partition step of the introsort exchanges the first element
with the middle one and reverses the rest. -/
theorem seventeen_ties_lose_discovery_order :
    (foundResults (performSearch gnuPlatform (nameCriteria "a" 100)
        (sampleEnv tiedWalk none 100)).events).map
          (fun r => (String.mk r.fileName, r.relevanceScore))
        = [("a01.txt", 85), ("a02.txt", 85), ("a03.txt", 85), ("a04.txt", 85), ("a05.txt", 85),
            ("a06.txt", 85), ("a07.txt", 85), ("a08.txt", 85), ("a09.txt", 85), ("a10.txt", 85),
            ("a11.txt", 85), ("a12.txt", 85), ("a13.txt", 85), ("a14.txt", 85), ("a15.txt", 85),
            ("a16.txt", 85), ("a17.txt", 85)]
      ∧ (completedLists (performSearch gnuPlatform (nameCriteria "a" 100)
          (sampleEnv tiedWalk none 100)).events).map fileNames
        = [["a09.txt", "a17.txt", "a16.txt", "a15.txt", "a14.txt", "a13.txt", "a12.txt",
            "a11.txt", "a10.txt", "a01.txt", "a08.txt", "a07.txt", "a06.txt", "a05.txt",
            "a04.txt", "a03.txt", "a02.txt"]] := by
  constructor <;> decide!

/-- C3, amended: with the `std::sort` of libstdc++, in every run whose buffer
holds at most 16 results the worker emits one completed list; it is ordered by
non-increasing score, and for every score the completed results of that score
appear in the order in which the walk discovered them. Before the cut to
`maxResults`, ranking is a stable sort: a permutation of the buffer that keeps
the results of every score in discovery order. -/
theorem small_buffers_keep_tie_order (P : Platform) (hsort : P.stdSort = gnuStdSort)
    (criteria : SearchCriteria) (env : RunEnv)
    (hsmall : (foundResults (performSearch P criteria env).events).length ≤ 16) :
    ∃ rs, completedLists (performSearch P criteria env).events = [rs]
      ∧ rs.Pairwise (fun a b => b.relevanceScore ≤ a.relevanceScore)
      ∧ (∀ v : ℚ, (rs.filter (fun r => decide (r.relevanceScore = v))).Sublist
          ((foundResults (performSearch P criteria env).events).filter
            (fun r => decide (r.relevanceScore = v))))
      ∧ (rankResults P (foundResults (performSearch P criteria env).events) criteria).Perm
          (foundResults (performSearch P criteria env).events)
      ∧ ∀ v : ℚ,
          (rankResults P (foundResults (performSearch P criteria env).events) criteria).filter
              (fun r => decide (r.relevanceScore = v))
            = (foundResults (performSearch P criteria env).events).filter
              (fun r => decide (r.relevanceScore = v)) := by
  obtain ⟨hperm, hsorted, hstable⟩ := rankResults_stable_small P hsort
    (foundResults (performSearch P criteria env).events) criteria hsmall
  refine ⟨finalResults P criteria env, completedLists_performSearch P criteria env, ?_, ?_,
    hperm, hstable⟩
  · have hsub := finalResults_sublist P criteria env
    rw [← foundResults_performSearch] at hsub
    exact hsorted.sublist hsub
  · intro v
    have hsub := finalResults_sublist P criteria env
    rw [← foundResults_performSearch] at hsub
    have := hsub.filter (fun r => decide (r.relevanceScore = v))
    rw [hstable v] at this
    exact this

/-- C3, amended, with the sort of libstdc++: four files discovered as
`a1.txt` (85), `ba.txt` (60), `a2.txt` (85), `xa.txt` (60) are completed as
`a1.txt`, `a2.txt`, `ba.txt`, `xa.txt`. -/
theorem small_buffers_keep_tie_order_witness :
    (foundResults (performSearch gnuPlatform (nameCriteria "a" 10)
        (sampleEnv [sampleEntry "a1.txt" 100, sampleEntry "ba.txt" 100,
          sampleEntry "a2.txt" 100, sampleEntry "xa.txt" 100] none 100)).events).map
          (fun r => (String.mk r.fileName, r.relevanceScore))
        = [("a1.txt", 85), ("ba.txt", 60), ("a2.txt", 85), ("xa.txt", 60)]
      ∧ (completedLists (performSearch gnuPlatform (nameCriteria "a" 10)
          (sampleEnv [sampleEntry "a1.txt" 100, sampleEntry "ba.txt" 100,
            sampleEntry "a2.txt" 100, sampleEntry "xa.txt" 100] none 100)).events).map fileNames
        = [["a1.txt", "a2.txt", "ba.txt", "xa.txt"]]
      ∧ ∃ rs, completedLists (performSearch gnuPlatform (nameCriteria "a" 10)
          (sampleEnv [sampleEntry "a1.txt" 100, sampleEntry "ba.txt" 100,
            sampleEntry "a2.txt" 100, sampleEntry "xa.txt" 100] none 100)).events = [rs]
        ∧ rs.Pairwise (fun a b => b.relevanceScore ≤ a.relevanceScore)
        ∧ (∀ v : ℚ, (rs.filter (fun r => decide (r.relevanceScore = v))).Sublist
            ((foundResults (performSearch gnuPlatform (nameCriteria "a" 10)
              (sampleEnv [sampleEntry "a1.txt" 100, sampleEntry "ba.txt" 100,
                sampleEntry "a2.txt" 100, sampleEntry "xa.txt" 100] none 100)).events).filter
              (fun r => decide (r.relevanceScore = v))))
        ∧ (rankResults gnuPlatform (foundResults (performSearch gnuPlatform (nameCriteria "a" 10)
            (sampleEnv [sampleEntry "a1.txt" 100, sampleEntry "ba.txt" 100,
              sampleEntry "a2.txt" 100, sampleEntry "xa.txt" 100] none 100)).events)
            (nameCriteria "a" 10)).Perm
            (foundResults (performSearch gnuPlatform (nameCriteria "a" 10)
              (sampleEnv [sampleEntry "a1.txt" 100, sampleEntry "ba.txt" 100,
                sampleEntry "a2.txt" 100, sampleEntry "xa.txt" 100] none 100)).events)
        ∧ ∀ v : ℚ,
            (rankResults gnuPlatform (foundResults (performSearch gnuPlatform
              (nameCriteria "a" 10)
              (sampleEnv [sampleEntry "a1.txt" 100, sampleEntry "ba.txt" 100,
                sampleEntry "a2.txt" 100, sampleEntry "xa.txt" 100] none 100)).events)
              (nameCriteria "a" 10)).filter (fun r => decide (r.relevanceScore = v))
              = (foundResults (performSearch gnuPlatform (nameCriteria "a" 10)
                (sampleEnv [sampleEntry "a1.txt" 100, sampleEntry "ba.txt" 100,
                  sampleEntry "a2.txt" 100, sampleEntry "xa.txt" 100] none 100)).events).filter
                (fun r => decide (r.relevanceScore = v)) :=
  ⟨by decide!, by decide!,
    small_buffers_keep_tie_order gnuPlatform rfl (nameCriteria "a" 10)
      (sampleEnv [sampleEntry "a1.txt" 100, sampleEntry "ba.txt" 100,
        sampleEntry "a2.txt" 100, sampleEntry "xa.txt" 100] none 100) (by decide!)⟩

/-! ## Claim C22: what happens to an invalid pattern -/

/-- The signals of the loop are the `resultFound` signals of its buffer. -/
theorem searchLoop_events (P : Platform) (criteria : SearchCriteria) (env : RunEnv)
    (walk : List FileEntry) (k : Nat) (st : WalkState)
    (h : st.events = st.results.map Event.resultFound) :
    (searchLoop P criteria env k walk st).events
      = (searchLoop P criteria env k walk st).results.map Event.resultFound := by
  induction walk generalizing k st with
  | nil => exact h
  | cons entry rest ih =>
    simp only [searchLoop]
    split
    · exact h
    · split
      · exact ih _ _ h
      · split
        · have h1 : st.events ++ [Event.resultFound
              (makeResult P (env.clock k) criteria entry (primaryMatch P criteria entry).2)]
              = (st.results
                ++ [makeResult P (env.clock k) criteria entry
                  (primaryMatch P criteria entry).2]).map Event.resultFound := by
            rw [List.map_append, h]; rfl
          split
          · exact h1
          · exact ih _ _ h1
        · exact ih _ _ h

/-- The signals of the worker: one `resultFound` per buffered result, then
one `searchCompleted`. -/
theorem performSearch_events (P : Platform) (criteria : SearchCriteria) (env : RunEnv) :
    (performSearch P criteria env).events
      = (foundResults (performSearch P criteria env).events).map Event.resultFound
        ++ [Event.searchCompleted (finalResults P criteria env)] := by
  rw [foundResults_performSearch]
  have hst : (searchInDirectory P criteria env (resolveSearchPath env criteria)
        { results := [], events := [] }).events
      = (searchInDirectory P criteria env (resolveSearchPath env criteria)
        { results := [], events := [] }).results.map Event.resultFound := by
    unfold searchInDirectory
    split
    · rfl
    · exact searchLoop_events P criteria env _ 0 _ rfl
  simp only [performSearch, finalResults]
  rw [hst]

/-- When the primary matcher accepts no entry the loop leaves its state as it
was. -/
theorem searchLoop_no_match (P : Platform) (criteria : SearchCriteria) (env : RunEnv)
    (hno : ∀ entry, (primaryMatch P criteria entry).1 = false)
    (walk : List FileEntry) (k : Nat) (st : WalkState) :
    searchLoop P criteria env k walk st = st := by
  induction walk generalizing k with
  | nil => rfl
  | cons entry rest ih =>
    simp only [searchLoop, hno entry, Bool.false_eq_true, if_false, ih]
    split
    · rfl
    · split <;> rfl

/-- A run in which the primary matcher accepts no entry emits
`searchCompleted` with an empty list and nothing else. -/
theorem performSearch_no_match (P : Platform) (h : P.SortConforms)
    (criteria : SearchCriteria) (env : RunEnv)
    (hno : ∀ entry, (primaryMatch P criteria entry).1 = false) :
    (performSearch P criteria env).events = [Event.searchCompleted []] := by
  have hst : searchInDirectory P criteria env (resolveSearchPath env criteria)
      { results := [], events := [] } = { results := [], events := [] } := by
    unfold searchInDirectory
    split
    · rfl
    · exact searchLoop_no_match P criteria env hno _ 0 _
  have hsort : rankResults P [] criteria = [] :=
    List.Perm.eq_nil (h scoreGreater [] strictWeakOrder_scoreGreater).1
  have hmid : qListMid ([] : List SearchResult) 0 criteria.maxResults = [] :=
    List.eq_nil_of_sublist_nil (qListMid_zero_sublist _ _)
  simp only [performSearch, hst, hsort, hmid, ite_self, List.nil_append]

/-- C22, amended: nothing validates the pattern and no run fails on it.
(1) For every criteria, `search(criteria)` emits `searchStarted(query)` as its
last signal (preceded only by `searchCancelled` when a run was in flight),
leaves `isSearching()` true and hands the criteria to the worker. (2) Every
run of the worker emits one `resultFound` per buffered result and then one
`searchCompleted`, nothing else. (3) In `RegexSearch` mode the file names are
tested with `QRegularExpression(query).match(name).hasMatch()`; when the
library reports no match for the pattern on any subject, as it does for an
invalid pattern, the run emits `searchCompleted` with an empty list and
nothing else (on every platform whose sort meets its contract). -/
theorem search_validates_nothing :
    (∀ (flags : SearchFlags) (criteria : SearchCriteria),
        (search flags criteria).events
            = (if flags.isSearching ≠ 0 then [Event.searchCancelled] else [])
              ++ [Event.searchStarted criteria.query]
          ∧ isSearching (search flags criteria).flags = true
          ∧ (search flags criteria).flags.searchCancelled = 0
          ∧ (search flags criteria).launched = some criteria)
    ∧ (∀ (P : Platform) (criteria : SearchCriteria) (env : RunEnv),
        (performSearch P criteria env).events
          = (foundResults (performSearch P criteria env).events).map Event.resultFound
            ++ [Event.searchCompleted (finalResults P criteria env)])
    ∧ (∀ (P : Platform) (criteria : SearchCriteria) (env : RunEnv),
        P.SortConforms → criteria.type = SearchType.RegexSearch →
        (∀ subject, P.regexHasMatch criteria.query subject = false) →
        (∀ entry, primaryMatch P criteria entry = (false, []))
          ∧ (performSearch P criteria env).events = [Event.searchCompleted []]) := by
  refine ⟨search_always_starts, performSearch_events, ?_⟩
  intro P criteria env hsort hty hlib
  have hprimary : ∀ entry, primaryMatch P criteria entry = (false, []) := by
    intro entry
    simp only [primaryMatch, hty, hlib]
  exact ⟨hprimary, performSearch_no_match P hsort criteria env
    (fun entry => by rw [hprimary entry])⟩

/-- C22, amended, on the reference platform: the criteria of `searchByRegex`
with the unbalanced pattern `(`, which the reference matcher rejects, over a
walk that holds a file named `a(b.txt`. -/
theorem search_validates_nothing_witness :
    (∀ subject, refPlatform.regexHasMatch (searchByRegex "(".toList "/r".toList).query subject
        = false)
    ∧ (∀ entry, primaryMatch refPlatform (searchByRegex "(".toList "/r".toList) entry
        = (false, []))
    ∧ (performSearch refPlatform (searchByRegex "(".toList "/r".toList)
        (sampleEnv [sampleEntry "a(b.txt" 100, sampleEntry "c.txt" 100] none 100)).events
        = [Event.searchCompleted []] :=
  ⟨fun _ => rfl,
    search_validates_nothing.2.2 refPlatform (searchByRegex "(".toList "/r".toList)
      (sampleEnv [sampleEntry "a(b.txt" 100, sampleEntry "c.txt" 100] none 100)
      refPlatform_sortConforms rfl (fun _ => rfl)⟩

end Finder
